import Mathlib

/-!
# Noughts and crosses auto-player

A shallow embedding of `C_NoughtsCrossesAutoPlayer.c` and a verification of
the properties its specification states about the board and about the
exhaustive game-tree search.

Conventions of the embedding:

* a `char` is a `Char`, the counter `total_moves` (a C `int`) is an `Int`,
  and `INT_MAX` is the largest value a C `int` holds. Incrementing a counter
  equal to `INT_MAX` overflows, which is undefined in C; the model's
  `total_moves + 1` is the value of the C increment for every counter below
  `INT_MAX`, and the theorems that state the value of the counter after a
  move are about such counters (the bound is a hypothesis, or the counter
  is a number of marks). The search itself increments the counter of a copy
  once and goes deeper only while the result is below 9, so a call on a
  board whose counter is below `INT_MAX` never overflows;
* a row or column index is a `Fin 3`: an index outside `0..2` is an
  out-of-bounds array access in C and has no defined behaviour;
* a function that writes through a pointer returns the new value;
* the mutual recursion `determine_best_move` / `simulate_move` carries a
  fuel argument and returns `none` when it runs out; the theorems show that
  fuel 19 is always enough;
* `determine_best_move_mem` / `simulate_move_mem` are the same two functions
  with the boards held in memory and passed by address, as in the source;
  they are shown to return the same scores, and are used where a property
  is about what a call leaves in the caller's board;
* the input of `play_game` is the list of the pairs of values that the
  variables of `get_user_move` hold after its two `scanf` calls, one pair for
  each turn of its loop; what `play_game` prints is reduced to the boards it
  shows and the way it ends.
-/

namespace NoughtsCrosses

/-! ## The source program -/

/-- Outcome score of a win for O (`#define WIN_FOR_O 10`). -/
def WIN_FOR_O : Int := 10

/-- Outcome score of a win for X (`#define WIN_FOR_X -10`). -/
def WIN_FOR_X : Int := -10

/-- Outcome score of a draw (`#define DRAW 0`). -/
def DRAW : Int := 0

/-- The largest value of a C `int` (32 bits), the type of `total_moves`. -/
def INT_MAX : Int := 2147483647

/-- The struct `NoughtsCrossesGrid`: the 3x3 matrix `grid[row][col]` and the
move counter. -/
structure NoughtsCrossesGrid where
  grid : Fin 3 → Fin 3 → Char
  total_moves : Int

/-- The struct `NoughtsCrossesGame`, which wraps the grid. -/
structure NoughtsCrossesGame where
  grid : NoughtsCrossesGrid

/-- The index values a `for (int i = 0; i < 3; i++)` loop runs through. -/
def indices : List (Fin 3) := [0, 1, 2]

/-- The grid `init_grid` leaves behind: every cell `'_'`, counter 0. -/
def init_grid : NoughtsCrossesGrid :=
  { grid := fun _ _ => '_', total_moves := 0 }

/-- `is_grid_full`: the counter has reached 9. -/
def is_grid_full (g : NoughtsCrossesGrid) : Bool :=
  decide (g.total_moves ≥ 9)

/-- `has_player_won`: the loop over `i` tests row `i` and column `i`, then the
two diagonals are tested. -/
def has_player_won (g : NoughtsCrossesGrid) (symbol : Char) : Bool :=
  if indices.any (fun i =>
      (g.grid i 0 == symbol && g.grid i 1 == symbol && g.grid i 2 == symbol) ||
      (g.grid 0 i == symbol && g.grid 1 i == symbol && g.grid 2 i == symbol)) then true
  else if g.grid 0 0 == symbol && g.grid 1 1 == symbol && g.grid 2 2 == symbol then true
  else if g.grid 0 2 == symbol && g.grid 1 1 == symbol && g.grid 2 0 == symbol then true
  else false

/-- `make_move`: writes `symbol` to `grid[row][col]` and increments the
counter. The column comes before the row, as in the source. The increment is
that of the integers: it is the value `total_moves++` computes whenever
`total_moves < INT_MAX`, and at `INT_MAX` the C increment overflows. -/
def make_move (g : NoughtsCrossesGrid) (col row : Fin 3) (symbol : Char) :
    NoughtsCrossesGrid :=
  { grid := fun r c => if r = row ∧ c = col then symbol else g.grid r c,
    total_moves := g.total_moves + 1 }

/-- `is_cell_empty`: `grid[row][col] == '_'`. -/
def is_cell_empty (g : NoughtsCrossesGrid) (col row : Fin 3) : Bool :=
  g.grid row col == '_'

/-- `switch_player`: `'X'` becomes `'O'`, anything else becomes `'X'`. -/
def switch_player (player : Char) : Char :=
  if player == 'X' then 'O' else 'X'

/-- `copy_grid`: the copy written to `dest`, cell by cell, then the counter. -/
def copy_grid (src : NoughtsCrossesGrid) : NoughtsCrossesGrid :=
  { grid := fun row col => src.grid row col, total_moves := src.total_moves }

/-- The locals of `determine_best_move`: `bestOutcome` and the pair
`(bestMoveRow, bestMoveCol)`, which the source sets together; `none` stands
for the initial `(-1, -1)`. -/
structure Best where
  bestOutcome : Int
  bestMove : Option (Fin 3 × Fin 3)

mutual
/-- `determine_best_move`, with fuel: the two nested loops scan the cells in
row-major order, every empty cell is scored by `simulate_move`, a strictly
better score replaces the best one, and the best move (if one was recorded)
is applied to the board. Returns the board and `bestOutcome`. -/
def determine_best_move :
    Nat → NoughtsCrossesGame → Char → Option (NoughtsCrossesGame × Int)
  | 0, _, _ => none
  | n + 1, game, symbol =>
    let start : Best := ⟨if symbol == 'O' then WIN_FOR_X else WIN_FOR_O, none⟩
    let scanned := indices.foldl (fun acc row =>
      indices.foldl (fun acc col =>
        match acc with
        | none => none
        | some st =>
          if is_cell_empty game.grid col row then
            match simulate_move n game col row symbol with
            | none => none
            | some outcome =>
              if (symbol == 'O' && decide (outcome > st.bestOutcome)) ||
                 (symbol == 'X' && decide (outcome < st.bestOutcome)) then
                some ⟨outcome, some (row, col)⟩
              else some st
          else some st) acc) (some start)
    match scanned with
    | none => none
    | some st =>
      match st.bestMove with
      | some (bestMoveRow, bestMoveCol) =>
        some (⟨make_move game.grid bestMoveCol bestMoveRow symbol⟩, st.bestOutcome)
      | none => some (game, st.bestOutcome)
/-- `simulate_move`, with fuel: plays `symbol` on a copy of the board and scores
the result: a win for `symbol`, a draw on a full board, or else the score of
the opponent's best reply. The caller's board is not touched. -/
def simulate_move :
    Nat → NoughtsCrossesGame → Fin 3 → Fin 3 → Char → Option Int
  | 0, _, _, _, _ => none
  | n + 1, game, col, row, symbol =>
    let simulatedGame : NoughtsCrossesGame :=
      ⟨make_move (copy_grid game.grid) col row symbol⟩
    if has_player_won simulatedGame.grid symbol then
      if symbol == 'O' then some WIN_FOR_O else some WIN_FOR_X
    else if is_grid_full simulatedGame.grid then some DRAW
    else (determine_best_move n simulatedGame (switch_player symbol)).map (fun r => r.2)
end


/-! ## Cells, counts and lines -/

/-- The cells `(row, col)` in the row-major order of the scan. -/
def cells : List (Fin 3 × Fin 3) :=
  [(0, 0), (0, 1), (0, 2), (1, 0), (1, 1), (1, 2), (2, 0), (2, 1), (2, 2)]

/-- Number of cells that hold `'_'`. -/
def empties (g : NoughtsCrossesGrid) : Nat :=
  cells.countP (fun p => g.grid p.1 p.2 == '_')

/-- Number of cells that do not hold `'_'`. -/
def occupied (g : NoughtsCrossesGrid) : Nat :=
  cells.countP (fun p => g.grid p.1 p.2 != '_')

/-- The 8 lines of the board: rows 0-2, columns 0-2, the two diagonals. -/
def winning_lines : List (List (Fin 3 × Fin 3)) :=
  [[(0, 0), (0, 1), (0, 2)], [(1, 0), (1, 1), (1, 2)], [(2, 0), (2, 1), (2, 2)],
   [(0, 0), (1, 0), (2, 0)], [(0, 1), (1, 1), (2, 1)], [(0, 2), (1, 2), (2, 2)],
   [(0, 0), (1, 1), (2, 2)], [(0, 2), (1, 1), (2, 0)]]

/-- Some line has all three of its cells equal to `s`. -/
def has_line (g : NoughtsCrossesGrid) (s : Char) : Bool :=
  winning_lines.any (fun l => l.all (fun p => g.grid p.1 p.2 == s))

/-! ## The scan of `determine_best_move`, taken apart -/

/-- The test `(symbol == 'O' && outcome > best) || (symbol == 'X' && outcome < best)`. -/
def better (symbol : Char) (outcome best : Int) : Bool :=
  (symbol == 'O' && decide (outcome > best)) || (symbol == 'X' && decide (outcome < best))

/-- The initial value of `bestOutcome`. -/
def start_bound (symbol : Char) : Int :=
  if symbol == 'O' then WIN_FOR_X else WIN_FOR_O

/-- The score of a win for `symbol`, as `simulate_move` returns it. -/
def win_score (symbol : Char) : Int :=
  if symbol == 'O' then WIN_FOR_O else WIN_FOR_X

/-- The body of the inner loop of `determine_best_move` at cell `p`, with the
scores of the cells given by `sim col row`. -/
def scan_step (sim : Fin 3 → Fin 3 → Option Int) (game : NoughtsCrossesGame)
    (symbol : Char) (acc : Option Best) (p : Fin 3 × Fin 3) : Option Best :=
  match acc with
  | none => none
  | some st =>
    if is_cell_empty game.grid p.2 p.1 then
      match sim p.2 p.1 with
      | none => none
      | some outcome =>
        if better symbol outcome st.bestOutcome then some ⟨outcome, some p⟩ else some st
    else some st

/-- The loop body when every score is available: `f col row` is the score of
playing at `(row, col)`. -/
def pure_step (f : Fin 3 → Fin 3 → Int) (game : NoughtsCrossesGame)
    (symbol : Char) (st : Best) (p : Fin 3 × Fin 3) : Best :=
  if is_cell_empty game.grid p.2 p.1 then
    if better symbol (f p.2 p.1) st.bestOutcome then ⟨f p.2 p.1, some p⟩ else st
  else st

/-- The end of `determine_best_move`: apply the recorded move, if any. -/
def finish (game : NoughtsCrossesGame) (symbol : Char) (st : Best) :
    NoughtsCrossesGame × Int :=
  match st.bestMove with
  | some (bestMoveRow, bestMoveCol) =>
    (⟨make_move game.grid bestMoveCol bestMoveRow symbol⟩, st.bestOutcome)
  | none => (game, st.bestOutcome)

/-- The score `simulate_move` returns (fuel 18 is enough, see `simulate_move_eq`). -/
def outcome (game : NoughtsCrossesGame) (col row : Fin 3) (symbol : Char) : Int :=
  (simulate_move 18 game col row symbol).getD 0

/-- The score `determine_best_move` returns (fuel 19 is enough, see
`determine_best_move_eq`). -/
def score (game : NoughtsCrossesGame) (symbol : Char) : Int :=
  ((determine_best_move 19 game symbol).map (fun r => r.2)).getD 0

/-- The state of the scan after all nine cells. -/
def scan_result (game : NoughtsCrossesGame) (symbol : Char) : Best :=
  cells.foldl (pure_step (fun col row => outcome game col row symbol) game symbol)
    ⟨start_bound symbol, none⟩

/-- The sign that turns "better for `symbol`" into "greater": 1 for O, -1 for X. -/
def sgn (symbol : Char) : Int :=
  if symbol == 'O' then 1 else -1

/-! ## Reference notions of the specification -/

/-- The cells of the board that hold `'_'`, in row-major order. -/
def empty_cells (g : NoughtsCrossesGrid) : List (Fin 3 × Fin 3) :=
  cells.filter (fun p => g.grid p.1 p.2 == '_')

/-- Greatest element of a list of scores (0 for the empty list). -/
def list_max : List Int → Int
  | [] => 0
  | v :: vs => vs.foldl max v

/-- Least element of a list of scores (0 for the empty list). -/
def list_min : List Int → Int
  | [] => 0
  | v :: vs => vs.foldl min v

/-- The game-theoretic minimax value of a position with `s` to move, by
recursion on the number of plies left: -10 when X has a line, +10 when O has
a line, 0 on a full board without a line; otherwise O takes the greatest and
X the least value over the positions one legal move away. -/
def minimax : Nat → NoughtsCrossesGrid → Char → Int
  | 0, g, _ => if has_line g 'X' then -10 else if has_line g 'O' then 10 else 0
  | n + 1, g, s =>
    if has_line g 'X' then -10
    else if has_line g 'O' then 10
    else if empty_cells g = [] then 0
    else if s = 'O' then
      list_max ((empty_cells g).map (fun p => minimax n (make_move g p.2 p.1 'O') 'X'))
    else
      list_min ((empty_cells g).map (fun p => minimax n (make_move g p.2 p.1 'X') 'O'))

/-- The minimax value of a position: nine plies cover every board. -/
def game_value (g : NoughtsCrossesGrid) (s : Char) : Int :=
  minimax 9 g s

/-- Alternating legal play: the moves `(row, col)` are made in turn, `s` first,
each on a cell that is empty at that time. Returns the board reached and the
symbol whose turn it is, or `none` when a move is not legal. -/
def play_from (g : NoughtsCrossesGrid) (s : Char) :
    List (Fin 3 × Fin 3) → Option (NoughtsCrossesGrid × Char)
  | [] => some (g, s)
  | p :: ms =>
    if is_cell_empty g p.2 p.1 then play_from (make_move g p.2 p.1 s) (switch_player s) ms
    else none

/-- The board after a sequence of `make_move` calls `(row, col, symbol)`. -/
def run_moves (g : NoughtsCrossesGrid) :
    List (Fin 3 × Fin 3 × Char) → NoughtsCrossesGrid
  | [] => g
  | m :: ms => run_moves (make_move g m.2.1 m.1 m.2.2) ms

/-- Every call of the sequence is valid: the symbol is X or O and the target
cell is empty at the time of the call. -/
def valid_moves (g : NoughtsCrossesGrid) : List (Fin 3 × Fin 3 × Char) → Prop
  | [] => True
  | m :: ms =>
    (m.2.2 = 'X' ∨ m.2.2 = 'O') ∧ is_cell_empty g m.2.1 m.1 = true ∧
      valid_moves (make_move g m.2.1 m.1 m.2.2) ms

/-- The end-to-end scenario of section 8 of the specification, as a driver
(there is no such driver in the source). It calls `determine_best_move` (with fuel `n`) on one
board, `symbol` first and then the symbols in turn, until the board is full or
has a winner, for at most `k` calls. Returns the scores of the calls and the
final board; `none` when `k` calls do not end the game or a call has no fuel. -/
def self_play : Nat → Nat → NoughtsCrossesGame → Char →
    Option (List Int × NoughtsCrossesGame)
  | 0, _, game, _ =>
    if is_grid_full game.grid || has_player_won game.grid 'X' ||
        has_player_won game.grid 'O' then some ([], game)
    else none
  | k + 1, n, game, symbol =>
    if is_grid_full game.grid || has_player_won game.grid 'X' ||
        has_player_won game.grid 'O' then some ([], game)
    else
      match determine_best_move n game symbol with
      | none => none
      | some r => (self_play k n r.1 (switch_player symbol)).map (fun t => (r.2 :: t.1, t.2))

/-! ## A compact board for evaluating bounds on scores -/

/-- The content of a cell: empty, X or O. -/
inductive Mark where
  | E
  | X
  | O
deriving DecidableEq

/-- The character of a mark. -/
def Mark.toChar : Mark → Char
  | Mark.E => '_'
  | Mark.X => 'X'
  | Mark.O => 'O'

/-- The mark is E. -/
def Mark.isE : Mark → Bool
  | Mark.E => true
  | _ => false

/-- The mark is X. -/
def Mark.isX : Mark → Bool
  | Mark.X => true
  | _ => false

/-- The mark is O. -/
def Mark.isO : Mark → Bool
  | Mark.O => true
  | _ => false

/-- The nine cells, row-major: `p0` is (row 0, col 0), `p2` is (row 0, col 2),
`p8` is (row 2, col 2). -/
inductive Pos where
  | p0 | p1 | p2 | p3 | p4 | p5 | p6 | p7 | p8
deriving DecidableEq

/-- Row of a cell. -/
def Pos.row : Pos → Fin 3
  | Pos.p0 => 0 | Pos.p1 => 0 | Pos.p2 => 0
  | Pos.p3 => 1 | Pos.p4 => 1 | Pos.p5 => 1
  | Pos.p6 => 2 | Pos.p7 => 2 | Pos.p8 => 2

/-- Column of a cell. -/
def Pos.col : Pos → Fin 3
  | Pos.p0 => 0 | Pos.p1 => 1 | Pos.p2 => 2
  | Pos.p3 => 0 | Pos.p4 => 1 | Pos.p5 => 2
  | Pos.p6 => 0 | Pos.p7 => 1 | Pos.p8 => 2

/-- The cell at a row and a column. -/
def Pos.of (r c : Fin 3) : Pos :=
  match r.val, c.val with
  | 0, 0 => Pos.p0 | 0, 1 => Pos.p1 | 0, _ => Pos.p2
  | 1, 0 => Pos.p3 | 1, 1 => Pos.p4 | 1, _ => Pos.p5
  | _, 0 => Pos.p6 | _, 1 => Pos.p7 | _, _ => Pos.p8

/-- All cells in row-major order. -/
def poss : List Pos :=
  [Pos.p0, Pos.p1, Pos.p2, Pos.p3, Pos.p4, Pos.p5, Pos.p6, Pos.p7, Pos.p8]

/-- The order in which a bound check tries the moves of the side that needs
only one good move: centre first. Any order is sound. -/
def search_order : List Pos :=
  [Pos.p4, Pos.p8, Pos.p6, Pos.p2, Pos.p0, Pos.p7, Pos.p5, Pos.p3, Pos.p1]

/-- A board as nine marks and the move counter. -/
structure FB where
  c0 : Mark
  c1 : Mark
  c2 : Mark
  c3 : Mark
  c4 : Mark
  c5 : Mark
  c6 : Mark
  c7 : Mark
  c8 : Mark
  n : Nat

/-- The mark at a cell. -/
def FB.get : FB → Pos → Mark
  | ⟨a0, a1, a2, a3, a4, a5, a6, a7, a8, _⟩, q =>
    match q with
    | Pos.p0 => a0 | Pos.p1 => a1 | Pos.p2 => a2
    | Pos.p3 => a3 | Pos.p4 => a4 | Pos.p5 => a5
    | Pos.p6 => a6 | Pos.p7 => a7 | Pos.p8 => a8

/-- The counterpart of `make_move`: write a mark, increment the counter. -/
def FB.set : FB → Pos → Mark → FB
  | ⟨a0, a1, a2, a3, a4, a5, a6, a7, a8, k⟩, q, m =>
    match q with
    | Pos.p0 => ⟨m, a1, a2, a3, a4, a5, a6, a7, a8, k + 1⟩
    | Pos.p1 => ⟨a0, m, a2, a3, a4, a5, a6, a7, a8, k + 1⟩
    | Pos.p2 => ⟨a0, a1, m, a3, a4, a5, a6, a7, a8, k + 1⟩
    | Pos.p3 => ⟨a0, a1, a2, m, a4, a5, a6, a7, a8, k + 1⟩
    | Pos.p4 => ⟨a0, a1, a2, a3, m, a5, a6, a7, a8, k + 1⟩
    | Pos.p5 => ⟨a0, a1, a2, a3, a4, m, a6, a7, a8, k + 1⟩
    | Pos.p6 => ⟨a0, a1, a2, a3, a4, a5, m, a7, a8, k + 1⟩
    | Pos.p7 => ⟨a0, a1, a2, a3, a4, a5, a6, m, a8, k + 1⟩
    | Pos.p8 => ⟨a0, a1, a2, a3, a4, a5, a6, a7, m, k + 1⟩

/-- The counterpart of `has_player_won` for X. -/
def FB.wonX : FB → Bool
  | ⟨a0, a1, a2, a3, a4, a5, a6, a7, a8, _⟩ =>
    (a0.isX && a1.isX && a2.isX) || (a3.isX && a4.isX && a5.isX) ||
    (a6.isX && a7.isX && a8.isX) || (a0.isX && a3.isX && a6.isX) ||
    (a1.isX && a4.isX && a7.isX) || (a2.isX && a5.isX && a8.isX) ||
    (a0.isX && a4.isX && a8.isX) || (a2.isX && a4.isX && a6.isX)

/-- The counterpart of `has_player_won` for O. -/
def FB.wonO : FB → Bool
  | ⟨a0, a1, a2, a3, a4, a5, a6, a7, a8, _⟩ =>
    (a0.isO && a1.isO && a2.isO) || (a3.isO && a4.isO && a5.isO) ||
    (a6.isO && a7.isO && a8.isO) || (a0.isO && a3.isO && a6.isO) ||
    (a1.isO && a4.isO && a7.isO) || (a2.isO && a5.isO && a8.isO) ||
    (a0.isO && a4.isO && a8.isO) || (a2.isO && a4.isO && a6.isO)

/-- The counterpart of `is_grid_full`. -/
def FB.full (b : FB) : Bool :=
  Nat.ble 9 b.n

/-- The grid a compact board stands for. -/
def FB.toGrid (b : FB) : NoughtsCrossesGrid :=
  { grid := fun r c => (b.get (Pos.of r c)).toChar, total_moves := (b.n : Int) }

/-- The game a compact board stands for. -/
def FB.toGame (b : FB) : NoughtsCrossesGame :=
  ⟨b.toGrid⟩

/-- The threshold of a bound check: 0 when a draw is good enough, else the
score of a loss of the other side. -/
def le_threshold (d : Bool) : Int :=
  if d then 0 else -10

/-- The threshold of a lower-bound check: 0 when a draw is good enough, else 10. -/
def ge_threshold (d : Bool) : Int :=
  if d then 0 else 10

/-- A sufficient test for "the score of the position with `m` to move is at
most `le_threshold d`": every move of O, or one move of X, leads to such a
score. -/
def bound_le : Nat → FB → Mark → Bool → Bool
  | 0, _, _, _ => false
  | n + 1, b, Mark.O, d =>
    poss.all (fun q => !(b.get q).isE ||
      (if (b.set q Mark.O).wonO then false
       else if (b.set q Mark.O).full then d
       else bound_le n (b.set q Mark.O) Mark.X d))
  | n + 1, b, _, d =>
    search_order.any (fun q => (b.get q).isE &&
      (if (b.set q Mark.X).wonX then true
       else if (b.set q Mark.X).full then d
       else bound_le n (b.set q Mark.X) Mark.O d))

/-- A sufficient test for "the score of the position with `m` to move is at
least `ge_threshold d`": one move of O, or every move of X, leads to such a
score. -/
def bound_ge : Nat → FB → Mark → Bool → Bool
  | 0, _, _, _ => false
  | n + 1, b, Mark.O, d =>
    search_order.any (fun q => (b.get q).isE &&
      (if (b.set q Mark.O).wonO then true
       else if (b.set q Mark.O).full then d
       else bound_ge n (b.set q Mark.O) Mark.X d))
  | n + 1, b, _, d =>
    poss.all (fun q => !(b.get q).isE ||
      (if (b.set q Mark.X).wonX then false
       else if (b.set q Mark.X).full then d
       else bound_ge n (b.set q Mark.X) Mark.O d))

/-- The test of `bound_le` for one move of O at `q`. -/
def move_le_O (n : Nat) (b : FB) (q : Pos) (d : Bool) : Bool :=
  if (b.set q Mark.O).wonO then false
  else if (b.set q Mark.O).full then d
  else bound_le n (b.set q Mark.O) Mark.X d

/-- The test of `bound_le` for one move of X at `q`. -/
def move_le_X (n : Nat) (b : FB) (q : Pos) (d : Bool) : Bool :=
  if (b.set q Mark.X).wonX then true
  else if (b.set q Mark.X).full then d
  else bound_le n (b.set q Mark.X) Mark.O d

/-- The test of `bound_ge` for one move of O at `q`. -/
def move_ge_O (n : Nat) (b : FB) (q : Pos) (d : Bool) : Bool :=
  if (b.set q Mark.O).wonO then true
  else if (b.set q Mark.O).full then d
  else bound_ge n (b.set q Mark.O) Mark.X d

/-- The test of `bound_ge` for one move of X at `q`. -/
def move_ge_X (n : Nat) (b : FB) (q : Pos) (d : Bool) : Bool :=
  if (b.set q Mark.X).wonX then false
  else if (b.set q Mark.X).full then d
  else bound_ge n (b.set q Mark.X) Mark.O d

/-- The empty compact board. -/
def FB.start : FB :=
  ⟨Mark.E, Mark.E, Mark.E, Mark.E, Mark.E, Mark.E, Mark.E, Mark.E, Mark.E, 0⟩

/-! ## Concrete boards -/

/-- The board of the immediate-win scenario: X at (0,0) and (0,1), O at (1,1),
three moves made. -/
def row_scenario : NoughtsCrossesGrid :=
  { grid := ![!['X', 'X', '_'], !['_', 'O', '_'], !['_', '_', '_']], total_moves := 3 }

/-- A board on which O is to move and every move loses: X threatens both
(0,2) and (2,0). Seven moves made, no line yet. -/
def fork_board : NoughtsCrossesGrid :=
  { grid := ![!['X', 'X', '_'], !['X', 'O', 'O'], !['_', 'O', 'X']], total_moves := 7 }

/-- A board that X has already won (row 0) and that still has empty cells. -/
def won_board : NoughtsCrossesGrid :=
  { grid := ![!['X', 'X', 'X'], !['O', 'O', '_'], !['_', '_', '_']], total_moves := 5 }

/-- A board one move from full: only (row 2, col 2) is empty, eight moves made,
no line. -/
def last_cell_board : NoughtsCrossesGrid :=
  { grid := ![!['X', 'X', 'O'], !['O', 'O', 'X'], !['X', 'O', '_']], total_moves := 8 }

/-- A full board without a line: nine moves made. -/
def drawn_board : NoughtsCrossesGrid :=
  { grid := ![!['X', 'X', 'O'], !['O', 'O', 'X'], !['X', 'O', 'X']], total_moves := 9 }

/-- The moves of the self-play line, in order: X (0,0), O (1,1), X (0,1),
O (0,2), X (2,0), O (1,0), X (1,2), O (2,1), X (2,2). -/
def line_moves : List (Pos × Mark) :=
  [(Pos.p0, Mark.X), (Pos.p4, Mark.O), (Pos.p1, Mark.X), (Pos.p2, Mark.O), (Pos.p6, Mark.X),
   (Pos.p3, Mark.O), (Pos.p5, Mark.X), (Pos.p7, Mark.O), (Pos.p8, Mark.X)]

/-- The compact board after the first `k` moves of the self-play line. -/
def line_board (k : Nat) : FB :=
  (line_moves.take k).foldl (fun b m => b.set m.1 m.2) FB.start

/-! ## The search with the boards held in memory -/

/-- Memory holding `NoughtsCrossesGame` objects: the object at each address. -/
abbrev Memory := Nat → NoughtsCrossesGame

/-- The memory after the object at address `a` is overwritten with `g`. -/
def write (m : Memory) (a : Nat) (g : NoughtsCrossesGame) : Memory :=
  fun b => if b = a then g else m b

mutual
/-- `determine_best_move` on a pointer: `game` is the address of the board, `top`
the first free stack address. Every read of `game->grid` goes to the current
memory, and the chosen move is written through the pointer. -/
def determine_best_move_mem :
    Nat → Memory → Nat → Nat → Char → Option (Memory × Int)
  | 0, _, _, _, _ => none
  | n + 1, m, top, game, symbol =>
    let start : Best := ⟨if symbol == 'O' then WIN_FOR_X else WIN_FOR_O, none⟩
    let scanned := indices.foldl (fun acc row =>
      indices.foldl (fun acc col =>
        match acc with
        | none => none
        | some (mem, st) =>
          if is_cell_empty (mem game).grid col row then
            match simulate_move_mem n mem top game col row symbol with
            | none => none
            | some (mem2, outcome) =>
              if (symbol == 'O' && decide (outcome > st.bestOutcome)) ||
                 (symbol == 'X' && decide (outcome < st.bestOutcome)) then
                some (mem2, ⟨outcome, some (row, col)⟩)
              else some (mem2, st)
          else some (mem, st)) acc) (some (m, start))
    match scanned with
    | none => none
    | some (mem, st) =>
      match st.bestMove with
      | some (bestMoveRow, bestMoveCol) =>
        some (write mem game ⟨make_move (mem game).grid bestMoveCol bestMoveRow symbol⟩,
          st.bestOutcome)
      | none => some (mem, st.bestOutcome)
/-- `simulate_move` on a pointer: the local `simulatedGame` is a new object at
address `top`; `copy_grid` and `make_move` write to it, and the recursive call
gets its address, with the stack top moved past it. -/
def simulate_move_mem :
    Nat → Memory → Nat → Nat → Fin 3 → Fin 3 → Char → Option (Memory × Int)
  | 0, _, _, _, _, _, _ => none
  | n + 1, m, top, game, col, row, symbol =>
    let m1 := write m top ⟨copy_grid (m game).grid⟩
    let m2 := write m1 top ⟨make_move (m1 top).grid col row symbol⟩
    if has_player_won (m2 top).grid symbol then
      if symbol == 'O' then some (m2, WIN_FOR_O) else some (m2, WIN_FOR_X)
    else if is_grid_full (m2 top).grid then some (m2, DRAW)
    else determine_best_move_mem n m2 (top + 1) top (switch_player symbol)
end

/-- The loop body of `determine_best_move_mem` at cell `p`. -/
def mem_step (sim : Memory → Fin 3 → Fin 3 → Option (Memory × Int)) (game : Nat)
    (symbol : Char) (acc : Option (Memory × Best)) (p : Fin 3 × Fin 3) :
    Option (Memory × Best) :=
  match acc with
  | none => none
  | some (mem, st) =>
    if is_cell_empty (mem game).grid p.2 p.1 then
      match sim mem p.2 p.1 with
      | none => none
      | some (mem2, outcome) =>
        if better symbol outcome st.bestOutcome then some (mem2, ⟨outcome, some p⟩)
        else some (mem2, st)
    else some (mem, st)

/-- The end of `determine_best_move_mem`. -/
def mem_finish (game : Nat) (symbol : Char) (r : Memory × Best) : Memory × Int :=
  match r.2.bestMove with
  | some (bestMoveRow, bestMoveCol) =>
    (write r.1 game ⟨make_move (r.1 game).grid bestMoveCol bestMoveRow symbol⟩,
      r.2.bestOutcome)
  | none => (r.1, r.2.bestOutcome)

/-! ## The game loop -/

/-- How a run of `play_game` ends: with one of its three messages, or, for
`awaiting_input`, inside `get_user_move`, whose loop has used up the listed
input without finding an acceptable pair (the source is then still in that
loop). `unfinished` is an ending of the model only: the loop budget or the
search fuel ran out. -/
inductive Ending where
  | x_wins
  | o_wins
  | drew
  | awaiting_input
  | unfinished
deriving DecidableEq

/-- One pass through the loop body of `play_game`: the board shown after
"X PLAYS:", and the board shown after "O PLAYS:" when `determine_best_move`
was called. -/
structure Round where
  after_x : NoughtsCrossesGrid
  reply : Option NoughtsCrossesGrid

/-- `get_user_move`: every turn of its loop takes a pair (column, row), the
values the two variables hold after the two `scanf` calls (1..3 for a cell,
as typed; whatever the variables still hold when `scanf` stores nothing),
decrements both and tests them, until a pair is in range and names an empty
cell. Returns the 0-based column and row and the input that is left; `none`
when the listed turns are used up first. The decrement is that of the
integers: at the least `int`, where the C decrement overflows, the model
rejects the pair. -/
def get_user_move (g : NoughtsCrossesGrid) :
    List (Int × Int) → Option (Fin 3 × Fin 3 × List (Int × Int))
  | [] => none
  | p :: rest =>
    if 0 ≤ p.1 - 1 ∧ p.1 - 1 < 3 ∧ 0 ≤ p.2 - 1 ∧ p.2 - 1 < 3 then
      if is_cell_empty g (Fin.ofNat (p.1 - 1).toNat) (Fin.ofNat (p.2 - 1).toNat) then
        some (Fin.ofNat (p.1 - 1).toNat, Fin.ofNat (p.2 - 1).toNat, rest)
      else get_user_move g rest
    else get_user_move g rest

/-- The `while` loop of `play_game`, for at most `k` passes, with fuel `n` for
each call of `determine_best_move`. Returns the passes made and the ending. -/
def play_loop (n : Nat) : Nat → NoughtsCrossesGame → List (Int × Int) → List Round × Ending
  | 0, _, _ => ([], Ending.unfinished)
  | k + 1, game, inputs =>
    if is_grid_full game.grid then ([], Ending.drew)
    else
      match get_user_move game.grid inputs with
      | none => ([], Ending.awaiting_input)
      | some (col, row, rest) =>
        if has_player_won (make_move game.grid col row 'X') 'X' then
          ([⟨make_move game.grid col row 'X', none⟩], Ending.x_wins)
        else if !is_grid_full (make_move game.grid col row 'X') then
          match determine_best_move n ⟨make_move game.grid col row 'X'⟩ 'O' with
          | none => ([⟨make_move game.grid col row 'X', none⟩], Ending.unfinished)
          | some r =>
            if has_player_won r.1.grid 'O' then
              ([⟨make_move game.grid col row 'X', some r.1.grid⟩], Ending.o_wins)
            else
              (⟨make_move game.grid col row 'X', some r.1.grid⟩ :: (play_loop n k r.1 rest).1,
                (play_loop n k r.1 rest).2)
        else
          (⟨make_move game.grid col row 'X', none⟩ ::
              (play_loop n k ⟨make_move game.grid col row 'X'⟩ rest).1,
            (play_loop n k ⟨make_move game.grid col row 'X'⟩ rest).2)

/-- `play_game`: the loop started on the `init_grid` board. -/
def play_game (n k : Nat) (inputs : List (Int × Int)) : List Round × Ending :=
  play_loop n k ⟨init_grid⟩ inputs

/-- The passes of a game are well formed from board `g` on: in every pass X is
written to a cell that was empty, the reply (when there is one) writes O to a
cell that was empty, and a pass without a reply is the last one. -/
def alternating (g : NoughtsCrossesGrid) : List Round → Prop
  | [] => True
  | rd :: rest =>
    (∃ r c : Fin 3, is_cell_empty g c r = true ∧ rd.after_x = make_move g c r 'X') ∧
    match rd.reply with
    | some g2 =>
      (∃ r c : Fin 3, is_cell_empty rd.after_x c r = true ∧
        g2 = make_move rd.after_x c r 'O') ∧ alternating g2 rest
    | none => rest = []

/-- The board a list of passes ends on, from board `g` on: the board of the
last reply, or the board after X's move when the last pass has no reply. -/
def final_board (g : NoughtsCrossesGrid) : List Round → NoughtsCrossesGrid
  | [] => g
  | rd :: rest => final_board (rd.reply.getD rd.after_x) rest

/-- The passes take X's moves from the input, from board `g` on: in every pass
`get_user_move` returns a cell, and the board shown after "X PLAYS:" is the
board with X written to that cell. -/
def reads_input (g : NoughtsCrossesGrid) (inputs : List (Int × Int)) : List Round → Prop
  | [] => True
  | rd :: rest =>
    match get_user_move g inputs with
    | none => False
    | some (col, row, more) =>
      rd.after_x = make_move g col row 'X' ∧
        reads_input (rd.reply.getD rd.after_x) more rest

/-- The input that is left after the passes, each of which has called
`get_user_move` once. -/
def inputs_left (g : NoughtsCrossesGrid) (inputs : List (Int × Int)) :
    List Round → List (Int × Int)
  | [] => inputs
  | rd :: rest =>
    match get_user_move g inputs with
    | none => []
    | some (_, _, more) => inputs_left (rd.reply.getD rd.after_x) more rest

/-- The input that types X's five moves of the self-play line, as (column, row)
pairs counted from 1: the cells `p0`, `p1`, `p6`, `p5` and `p8`. -/
def line_inputs : List (Int × Int) :=
  [(1, 1), (2, 1), (1, 3), (3, 2), (3, 3)]

/-! ## Unfolding the source functions -/

/-- One unit of fuel unfolds `determine_best_move` into the scan over the nine
cells (in row-major order) followed by `finish`. -/
theorem determine_best_move_succ (n : Nat) (game : NoughtsCrossesGame) (symbol : Char) :
    determine_best_move (n + 1) game symbol =
      (cells.foldl (scan_step (fun col row => simulate_move n game col row symbol) game symbol)
        (some ⟨start_bound symbol, none⟩)).map (finish game symbol) := by
  have key : determine_best_move (n + 1) game symbol =
      match cells.foldl (scan_step (fun col row => simulate_move n game col row symbol)
          game symbol) (some ⟨start_bound symbol, none⟩) with
      | none => none
      | some st =>
        match st.bestMove with
        | some (bestMoveRow, bestMoveCol) =>
          some (⟨make_move game.grid bestMoveCol bestMoveRow symbol⟩, st.bestOutcome)
        | none => some (game, st.bestOutcome) := by
    rw [determine_best_move]
    rfl
  rw [key]
  cases cells.foldl (scan_step (fun col row => simulate_move n game col row symbol)
      game symbol) (some ⟨start_bound symbol, none⟩) with
  | none => rfl
  | some st =>
    obtain ⟨v, mv⟩ := st
    cases mv with
    | none => rfl
    | some p => rfl

/-- One unit of fuel unfolds `simulate_move`: win test, full test, recursive call. -/
theorem simulate_move_succ (n : Nat) (game : NoughtsCrossesGame) (col row : Fin 3)
    (symbol : Char) :
    simulate_move (n + 1) game col row symbol =
      if has_player_won (make_move game.grid col row symbol) symbol then some (win_score symbol)
      else if is_grid_full (make_move game.grid col row symbol) then some 0
      else (determine_best_move n ⟨make_move game.grid col row symbol⟩
        (switch_player symbol)).map (fun r => r.2) := by
  rw [simulate_move]
  simp only [copy_grid, win_score, DRAW]
  split <;> [split <;> simp_all; rfl]

/-- When every empty cell of `l` has a score, the scan over `l` does not fail and
is the scan of `pure_step`. -/
theorem scan_step_pure (sim : Fin 3 → Fin 3 → Option Int) (f : Fin 3 → Fin 3 → Int)
    (game : NoughtsCrossesGame) (symbol : Char) (l : List (Fin 3 × Fin 3))
    (h : ∀ p ∈ l, is_cell_empty game.grid p.2 p.1 = true → sim p.2 p.1 = some (f p.2 p.1))
    (st : Best) :
    l.foldl (scan_step sim game symbol) (some st) =
      some (l.foldl (pure_step f game symbol) st) := by
  induction l generalizing st with
  | nil => rfl
  | cons p l ih =>
    have hl : ∀ q ∈ l, is_cell_empty game.grid q.2 q.1 = true →
        sim q.2 q.1 = some (f q.2 q.1) := fun q hq => h q (List.mem_cons_of_mem _ hq)
    simp only [List.foldl_cons]
    by_cases he : is_cell_empty game.grid p.2 p.1 = true
    · have hs := h p (List.mem_cons_self _ _) he
      by_cases hb : better symbol (f p.2 p.1) st.bestOutcome = true
      · simp only [scan_step, pure_step, he, hs, hb, if_true]
        exact ih hl _
      · simp only [scan_step, pure_step, he, hs, hb, if_true]
        exact ih hl _
    · simp only [scan_step, pure_step, he]
      exact ih hl _

theorem mem_cells (p : Fin 3 × Fin 3) : p ∈ cells := by
  obtain ⟨r, c⟩ := p
  fin_cases r <;> fin_cases c <;> simp [cells]

theorem countP_add_countP_not {α : Type} (p : α → Bool) (l : List α) :
    l.countP p + l.countP (fun a => !p a) = l.length := by
  induction l with
  | nil => rfl
  | cons a l ih =>
    cases h : p a <;> simp [List.countP_cons, h] <;> omega

/-- Every cell is either empty or occupied. -/
theorem empties_add_occupied (g : NoughtsCrossesGrid) : empties g + occupied g = 9 := by
  have h := countP_add_countP_not (fun p : Fin 3 × Fin 3 => g.grid p.1 p.2 == '_') cells
  simpa [empties, occupied, bne, cells] using h

theorem empties_le (g : NoughtsCrossesGrid) : empties g ≤ 9 := by
  have := empties_add_occupied g
  omega

/-- Writing a symbol other than `'_'` to an empty cell leaves one empty cell fewer. -/
theorem empties_make_move (g : NoughtsCrossesGrid) (col row : Fin 3) (s : Char)
    (he : is_cell_empty g col row = true) (hs : s ≠ '_') :
    empties (make_move g col row s) + 1 = empties g := by
  simp only [is_cell_empty, beq_iff_eq] at he
  fin_cases row <;> fin_cases col <;>
    simp [empties, cells, make_move, List.countP_cons, hs] at he ⊢ <;>
    simp only [he, if_true] <;> ring

/-! ## Fuel: the recursion always returns -/

theorem switch_player_ne (s : Char) : switch_player s ≠ '_' := by
  unfold switch_player
  split <;> decide

theorem not_empty_of_empties_zero (g : NoughtsCrossesGrid) (h : empties g = 0)
    (col row : Fin 3) : is_cell_empty g col row = false := by
  unfold empties at h
  rw [List.countP_eq_zero] at h
  have := h (row, col) (mem_cells _)
  simpa [is_cell_empty] using this

/-- If `simulate_move` returns `f col row` on every empty cell from fuel `N` on,
then `determine_best_move` returns the finished scan from fuel `N + 1` on. -/
theorem dbm_of_sims (N : Nat) (game : NoughtsCrossesGame) (symbol : Char)
    (f : Fin 3 → Fin 3 → Int)
    (h : ∀ p : Fin 3 × Fin 3, is_cell_empty game.grid p.2 p.1 = true →
      ∀ n, N ≤ n → simulate_move n game p.2 p.1 symbol = some (f p.2 p.1)) :
    ∀ n, N + 1 ≤ n → determine_best_move n game symbol =
      some (finish game symbol
        (cells.foldl (pure_step f game symbol) ⟨start_bound symbol, none⟩)) := by
  intro n hn
  obtain ⟨m, rfl⟩ : ∃ m, n = m + 1 := ⟨n - 1, by omega⟩
  rw [determine_best_move_succ,
    scan_step_pure _ f game symbol cells (fun p _ hp => h p hp m (by omega))]
  rfl

/-- If the recursive call returns `r` from fuel `N` on, `simulate_move` returns
its score from fuel `N + 1` on. -/
theorem sim_of_dbm (N : Nat) (game : NoughtsCrossesGame) (col row : Fin 3) (symbol : Char)
    (r : NoughtsCrossesGame × Int)
    (h : ∀ n, N ≤ n → determine_best_move n ⟨make_move game.grid col row symbol⟩
      (switch_player symbol) = some r) :
    ∀ n, N + 1 ≤ n → simulate_move n game col row symbol =
      some (if has_player_won (make_move game.grid col row symbol) symbol then win_score symbol
        else if is_grid_full (make_move game.grid col row symbol) then 0 else r.2) := by
  intro n hn
  obtain ⟨m, rfl⟩ : ∃ m, n = m + 1 := ⟨n - 1, by omega⟩
  rw [simulate_move_succ, h m (by omega)]
  split <;> [rfl; (split <;> rfl)]

/-- Termination: with a symbol other than `'_'` and at most `e` empty cells,
`determine_best_move` returns one and the same result for every fuel from
`2 * e + 1` on. -/
theorem fuel_enough (e : Nat) : ∀ (game : NoughtsCrossesGame) (symbol : Char),
    symbol ≠ '_' → empties game.grid ≤ e →
    ∃ r, ∀ n, 2 * e + 1 ≤ n → determine_best_move n game symbol = some r := by
  induction e with
  | zero =>
    intro game symbol _ he
    refine ⟨_, dbm_of_sims 0 game symbol (fun _ _ => 0) ?_⟩
    intro p hp
    rw [not_empty_of_empties_zero game.grid (by omega)] at hp
    exact absurd hp (by decide)
  | succ e ih =>
    intro game symbol hs he
    have key : ∀ p : Fin 3 × Fin 3, ∃ v : Int, is_cell_empty game.grid p.2 p.1 = true →
        ∀ n, 2 * e + 2 ≤ n → simulate_move n game p.2 p.1 symbol = some v := by
      intro p
      by_cases hp : is_cell_empty game.grid p.2 p.1 = true
      · have hcount := empties_make_move game.grid p.2 p.1 symbol hp hs
        obtain ⟨r, hr⟩ := ih ⟨make_move game.grid p.2 p.1 symbol⟩ (switch_player symbol)
          (switch_player_ne symbol) (by simp only; omega)
        exact ⟨_, fun _ n hn => sim_of_dbm (2 * e + 1) game p.2 p.1 symbol r hr n (by omega)⟩
      · exact ⟨0, fun h => absurd h hp⟩
    choose f hf using key
    refine ⟨_, fun n hn => dbm_of_sims (2 * e + 2) game symbol (fun col row => f (row, col))
      (fun p hp => hf p hp) n (by omega)⟩

/-- With fuel 18 or more `simulate_move` on an empty cell returns `outcome`. -/
theorem simulate_move_eq (game : NoughtsCrossesGame) (col row : Fin 3) (symbol : Char)
    (hs : symbol ≠ '_') (he : is_cell_empty game.grid col row = true) (n : Nat)
    (hn : 18 ≤ n) :
    simulate_move n game col row symbol = some (outcome game col row symbol) := by
  have hcount := empties_make_move game.grid col row symbol he hs
  have hle := empties_le game.grid
  obtain ⟨r, hr⟩ := fuel_enough 8 ⟨make_move game.grid col row symbol⟩ (switch_player symbol)
    (switch_player_ne symbol) (by simp only; omega)
  have h := sim_of_dbm 17 game col row symbol r hr
  rw [h n hn, outcome, h 18 (by omega)]
  rfl

/-- With fuel 19 or more `determine_best_move` returns the finished scan of the
scores `outcome`. -/
theorem determine_best_move_eq (game : NoughtsCrossesGame) (symbol : Char)
    (hs : symbol ≠ '_') (n : Nat) (hn : 19 ≤ n) :
    determine_best_move n game symbol = some (finish game symbol (scan_result game symbol)) :=
  dbm_of_sims 18 game symbol (fun col row => outcome game col row symbol)
    (fun p hp n hn => simulate_move_eq game p.2 p.1 symbol hs hp n hn) n hn

theorem finish_snd (game : NoughtsCrossesGame) (symbol : Char) (st : Best) :
    (finish game symbol st).2 = st.bestOutcome := by
  unfold finish
  split <;> rfl

/-- The score returned is the best outcome of the scan. -/
theorem score_eq (game : NoughtsCrossesGame) (symbol : Char) (hs : symbol ≠ '_') :
    score game symbol = (scan_result game symbol).bestOutcome := by
  rw [score, determine_best_move_eq game symbol hs 19 (le_refl _)]
  exact finish_snd game symbol _

theorem determine_best_move_small (game : NoughtsCrossesGame) (symbol : Char)
    (hs : symbol ≠ '_') (he : empties game.grid ≤ 8) (n : Nat) (hn : 17 ≤ n) :
    determine_best_move n game symbol = some (finish game symbol (scan_result game symbol)) := by
  obtain ⟨r, hr⟩ := fuel_enough 8 game symbol hs he
  rw [hr n (by omega), ← hr 19 (by omega)]
  exact determine_best_move_eq game symbol hs 19 (le_refl _)

/-- The recursion equation of `outcome`. -/
theorem outcome_eq (game : NoughtsCrossesGame) (col row : Fin 3) (symbol : Char)
    (hs : symbol ≠ '_') (he : is_cell_empty game.grid col row = true) :
    outcome game col row symbol =
      if has_player_won (make_move game.grid col row symbol) symbol then win_score symbol
      else if is_grid_full (make_move game.grid col row symbol) then 0
      else score ⟨make_move game.grid col row symbol⟩ (switch_player symbol) := by
  have hcount := empties_make_move game.grid col row symbol he hs
  have hle := empties_le game.grid
  have h17 := determine_best_move_small ⟨make_move game.grid col row symbol⟩
    (switch_player symbol) (switch_player_ne symbol) (by simp only; omega) 17 (le_refl _)
  rw [outcome, simulate_move_succ, h17,
    score_eq _ _ (switch_player_ne symbol)]
  split
  · rfl
  · split
    · rfl
    · simp [finish_snd]

/-! ## The scan: what is kept and what is picked -/

/-- For X and O, "better" is "greater" after multiplying by the sign. -/
theorem better_iff (s : Char) (hs : s = 'X' ∨ s = 'O') (a b : Int) :
    better s a b = true ↔ sgn s * b < sgn s * a := by
  rcases hs with rfl | rfl <;> simp [better, sgn]

theorem sgn_start_bound (s : Char) (hs : s = 'X' ∨ s = 'O') :
    sgn s * start_bound s = -10 := by
  rcases hs with rfl | rfl <;> simp [start_bound, sgn, WIN_FOR_X, WIN_FOR_O]

theorem sgn_win_score (s : Char) (hs : s = 'X' ∨ s = 'O') :
    sgn s * win_score s = 10 := by
  rcases hs with rfl | rfl <;> simp [win_score, sgn, WIN_FOR_X, WIN_FOR_O]

theorem symbol_ne_blank (s : Char) (hs : s = 'X' ∨ s = 'O') : s ≠ '_' := by
  rcases hs with rfl | rfl <;> decide

theorem switch_player_mem (s : Char) : switch_player s = 'X' ∨ switch_player s = 'O' := by
  unfold switch_player
  split <;> simp

/-- A scan over cells none of which is empty with a better score changes nothing. -/
theorem scan_fold_keep (f : Fin 3 → Fin 3 → Int) (game : NoughtsCrossesGame) (s : Char)
    (l : List (Fin 3 × Fin 3)) (st : Best)
    (h : ∀ p ∈ l, is_cell_empty game.grid p.2 p.1 = true →
      better s (f p.2 p.1) st.bestOutcome = false) :
    l.foldl (pure_step f game s) st = st := by
  induction l with
  | nil => rfl
  | cons p l ih =>
    have hp : pure_step f game s st p = st := by
      unfold pure_step
      by_cases he : is_cell_empty game.grid p.2 p.1 = true
      · simp [he, h p (List.mem_cons_self _ _) he]
      · simp [he]
    rw [List.foldl_cons, hp]
    exact ih (fun q hq => h q (List.mem_cons_of_mem _ hq))

/-- First-match rule: if no empty cell before `p` is better than the current
best, `p` is empty and better, and no empty cell after `p` is better than `p`,
the scan ends with `p` recorded. -/
theorem scan_fold_pick (f : Fin 3 → Fin 3 → Int) (game : NoughtsCrossesGame) (s : Char)
    (pre post : List (Fin 3 × Fin 3)) (p : Fin 3 × Fin 3) (st : Best)
    (hpre : ∀ q ∈ pre, is_cell_empty game.grid q.2 q.1 = true →
      better s (f q.2 q.1) st.bestOutcome = false)
    (he : is_cell_empty game.grid p.2 p.1 = true)
    (hb : better s (f p.2 p.1) st.bestOutcome = true)
    (hpost : ∀ q ∈ post, is_cell_empty game.grid q.2 q.1 = true →
      better s (f q.2 q.1) (f p.2 p.1) = false) :
    (pre ++ p :: post).foldl (pure_step f game s) st = ⟨f p.2 p.1, some p⟩ := by
  rw [List.foldl_append, scan_fold_keep f game s pre st hpre, List.foldl_cons]
  have hp : pure_step f game s st p = ⟨f p.2 p.1, some p⟩ := by
    simp [pure_step, he, hb]
  rw [hp]
  exact scan_fold_keep f game s post _ hpost

/-- What the scan computes: the best outcome never gets worse, it is at least as
good as the score of every empty cell, and the final state is either the
initial one or the score and position of an empty cell that improved on it. -/
theorem scan_fold_spec (f : Fin 3 → Fin 3 → Int) (game : NoughtsCrossesGame) (s : Char)
    (hs : s = 'X' ∨ s = 'O') (l : List (Fin 3 × Fin 3)) (st : Best) :
    sgn s * st.bestOutcome ≤ sgn s * (l.foldl (pure_step f game s) st).bestOutcome ∧
    (∀ p ∈ l, is_cell_empty game.grid p.2 p.1 = true →
      sgn s * f p.2 p.1 ≤ sgn s * (l.foldl (pure_step f game s) st).bestOutcome) ∧
    (l.foldl (pure_step f game s) st = st ∨
      ∃ p ∈ l, is_cell_empty game.grid p.2 p.1 = true ∧
        l.foldl (pure_step f game s) st = ⟨f p.2 p.1, some p⟩ ∧
        sgn s * st.bestOutcome < sgn s * f p.2 p.1) := by
  induction l generalizing st with
  | nil => exact ⟨le_refl _, fun p hp => absurd hp (List.not_mem_nil _), Or.inl rfl⟩
  | cons q l ih =>
    rw [List.foldl_cons]
    obtain ⟨h1, h2, h3⟩ := ih (pure_step f game s st q)
    by_cases he : is_cell_empty game.grid q.2 q.1 = true
    · by_cases hb : better s (f q.2 q.1) st.bestOutcome = true
      · have hq : pure_step f game s st q = ⟨f q.2 q.1, some q⟩ := by
          simp [pure_step, he, hb]
        rw [hq] at h1 h2 h3 ⊢
        have hlt := (better_iff s hs _ _).1 hb
        simp only at h1
        refine ⟨by omega, ?_, ?_⟩
        · intro p hp hpe
          rcases List.mem_cons.1 hp with rfl | hp
          · exact h1
          · exact h2 p hp hpe
        · right
          rcases h3 with h3 | ⟨p, hp, hpe, hpv, hlt2⟩
          · exact ⟨q, List.mem_cons_self _ _, he, h3, hlt⟩
          · exact ⟨p, List.mem_cons_of_mem _ hp, hpe, hpv, by simp only at hlt2; omega⟩
      · have hq : pure_step f game s st q = st := by
          simp [pure_step, he, hb]
        rw [hq] at h1 h2 h3 ⊢
        have hnlt : ¬ sgn s * st.bestOutcome < sgn s * f q.2 q.1 :=
          fun hlt => hb ((better_iff s hs _ _).2 hlt)
        refine ⟨h1, ?_, ?_⟩
        · intro p hp hpe
          rcases List.mem_cons.1 hp with rfl | hp
          · omega
          · exact h2 p hp hpe
        · rcases h3 with h3 | ⟨p, hp, hpe, hpv, hlt2⟩
          · exact Or.inl h3
          · exact Or.inr ⟨p, List.mem_cons_of_mem _ hp, hpe, hpv, hlt2⟩
    · have hq : pure_step f game s st q = st := by
        simp [pure_step, he]
      rw [hq] at h1 h2 h3 ⊢
      refine ⟨h1, ?_, ?_⟩
      · intro p hp hpe
        rcases List.mem_cons.1 hp with rfl | hp
        · exact absurd hpe he
        · exact h2 p hp hpe
      · rcases h3 with h3 | ⟨p, hp, hpe, hpv, hlt2⟩
        · exact Or.inl h3
        · exact Or.inr ⟨p, List.mem_cons_of_mem _ hp, hpe, hpv, hlt2⟩

theorem start_bound_range (s : Char) :
    start_bound s = -10 ∨ start_bound s = 0 ∨ start_bound s = 10 := by
  unfold start_bound
  split <;> simp [WIN_FOR_X, WIN_FOR_O]

theorem win_score_range (s : Char) :
    win_score s = -10 ∨ win_score s = 0 ∨ win_score s = 10 := by
  unfold win_score
  split <;> simp [WIN_FOR_X, WIN_FOR_O]

theorem score_range_aux (e : Nat) : ∀ (game : NoughtsCrossesGame) (s : Char),
    (s = 'X' ∨ s = 'O') → empties game.grid ≤ e →
    (score game s = -10 ∨ score game s = 0 ∨ score game s = 10) := by
  induction e with
  | zero =>
    intro game s hs he
    rw [score_eq game s (symbol_ne_blank s hs)]
    rcases (scan_fold_spec (fun col row => outcome game col row s) game s hs cells
      ⟨start_bound s, none⟩).2.2 with h | ⟨p, _, hpe, _, _⟩
    · rw [scan_result, h]
      exact start_bound_range s
    · rw [not_empty_of_empties_zero game.grid (by omega)] at hpe
      exact absurd hpe (by decide)
  | succ e ih =>
    intro game s hs he
    rw [score_eq game s (symbol_ne_blank s hs)]
    rcases (scan_fold_spec (fun col row => outcome game col row s) game s hs cells
      ⟨start_bound s, none⟩).2.2 with h | ⟨p, _, hpe, hp, _⟩
    · rw [scan_result, h]
      exact start_bound_range s
    · rw [scan_result, hp]
      simp only
      rw [outcome_eq game p.2 p.1 s (symbol_ne_blank s hs) hpe]
      have hcount := empties_make_move game.grid p.2 p.1 s hpe (symbol_ne_blank s hs)
      split
      · exact win_score_range s
      · split
        · simp
        · exact ih _ _ (switch_player_mem s) (by simp only; omega)

/-- The score of `determine_best_move` is -10, 0 or 10. -/
theorem score_range (game : NoughtsCrossesGame) (s : Char) (hs : s = 'X' ∨ s = 'O') :
    score game s = -10 ∨ score game s = 0 ∨ score game s = 10 :=
  score_range_aux 9 game s hs (empties_le _)

/-- The score of `simulate_move` on an empty cell is -10, 0 or 10. -/
theorem outcome_range (game : NoughtsCrossesGame) (col row : Fin 3) (s : Char)
    (hs : s = 'X' ∨ s = 'O') (he : is_cell_empty game.grid col row = true) :
    outcome game col row s = -10 ∨ outcome game col row s = 0 ∨
      outcome game col row s = 10 := by
  rw [outcome_eq game col row s (symbol_ne_blank s hs) he]
  split
  · exact win_score_range s
  · split
    · simp
    · exact score_range _ _ (switch_player_mem s)

theorem sgn_mul_range (s : Char) (hs : s = 'X' ∨ s = 'O') (v : Int)
    (hv : v = -10 ∨ v = 0 ∨ v = 10) : -10 ≤ sgn s * v ∧ sgn s * v ≤ 10 := by
  rcases hs with rfl | rfl <;> rcases hv with rfl | rfl | rfl <;> simp [sgn]

/-! ## The compact board agrees with the grid -/

theorem Pos.of_row_col (q : Pos) : Pos.of q.row q.col = q := by
  cases q <;> rfl

theorem Pos.row_of (r c : Fin 3) : (Pos.of r c).row = r := by
  fin_cases r <;> fin_cases c <;> rfl

theorem Pos.col_of (r c : Fin 3) : (Pos.of r c).col = c := by
  fin_cases r <;> fin_cases c <;> rfl

theorem Pos.of_eq_iff (r c : Fin 3) (q : Pos) : Pos.of r c = q ↔ r = q.row ∧ c = q.col := by
  constructor
  · rintro rfl
    exact ⟨(Pos.row_of r c).symm, (Pos.col_of r c).symm⟩
  · rintro ⟨rfl, rfl⟩
    exact Pos.of_row_col q

theorem mem_poss (q : Pos) : q ∈ poss := by
  cases q <;> simp [poss]

theorem FB.get_set (b : FB) (q q' : Pos) (m : Mark) :
    (b.set q m).get q' = if q' = q then m else b.get q' := by
  cases q <;> cases q' <;> rfl

theorem FB.set_n (b : FB) (q : Pos) (m : Mark) : (b.set q m).n = b.n + 1 := by
  cases q <;> rfl

theorem Mark.toChar_beq_blank (m : Mark) : (m.toChar == '_') = m.isE := by
  cases m <;> rfl

theorem Mark.toChar_beq_X (m : Mark) : (m.toChar == 'X') = m.isX := by
  cases m <;> rfl

theorem Mark.toChar_beq_O (m : Mark) : (m.toChar == 'O') = m.isO := by
  cases m <;> rfl

theorem FB.toGrid_empty (b : FB) (q : Pos) :
    is_cell_empty b.toGrid q.col q.row = (b.get q).isE := by
  simp only [is_cell_empty, FB.toGrid, Pos.of_row_col, Mark.toChar_beq_blank]

/-- The compact `set` is `make_move` on the grid. -/
theorem FB.toGrid_set (b : FB) (q : Pos) (m : Mark) :
    make_move b.toGrid q.col q.row m.toChar = (b.set q m).toGrid := by
  simp only [make_move, FB.toGrid, FB.set_n, FB.get_set, Nat.cast_add, Nat.cast_one,
    ← Pos.of_eq_iff]
  congr 1
  funext r c
  split <;> rfl

theorem FB.toGrid_full (b : FB) : is_grid_full b.toGrid = b.full := by
  simp only [is_grid_full, FB.toGrid, FB.full]
  rw [Bool.eq_iff_iff]
  simp [Nat.ble_eq]

theorem bool_lines (x0 x1 x2 x3 x4 x5 x6 x7 x8 : Bool) :
    (if (((x0 && x1 && x2) || (x0 && x3 && x6)) || (((x3 && x4 && x5) || (x1 && x4 && x7)) ||
        (((x6 && x7 && x8) || (x2 && x5 && x8)) || false))) = true then true
      else if (x0 && x4 && x8) = true then true
      else if (x2 && x4 && x6) = true then true else false) =
    ((x0 && x1 && x2) || (x3 && x4 && x5) || (x6 && x7 && x8) || (x0 && x3 && x6) ||
      (x1 && x4 && x7) || (x2 && x5 && x8) || (x0 && x4 && x8) || (x2 && x4 && x6)) := by
  revert x0 x1 x2 x3 x4 x5 x6 x7 x8
  decide

/-- The compact `wonX` is `has_player_won` for X on the grid. -/
theorem FB.toGrid_wonX (b : FB) : has_player_won b.toGrid 'X' = b.wonX := by
  obtain ⟨a0, a1, a2, a3, a4, a5, a6, a7, a8, k⟩ := b
  simp only [has_player_won, indices, List.any, FB.toGrid, Mark.toChar_beq_X]
  exact bool_lines a0.isX a1.isX a2.isX a3.isX a4.isX a5.isX a6.isX a7.isX a8.isX

/-- The compact `wonO` is `has_player_won` for O on the grid. -/
theorem FB.toGrid_wonO (b : FB) : has_player_won b.toGrid 'O' = b.wonO := by
  obtain ⟨a0, a1, a2, a3, a4, a5, a6, a7, a8, k⟩ := b
  simp only [has_player_won, indices, List.any, FB.toGrid, Mark.toChar_beq_O]
  exact bool_lines a0.isO a1.isO a2.isO a3.isO a4.isO a5.isO a6.isO a7.isO a8.isO

theorem bound_le_succ_O (n : Nat) (b : FB) (d : Bool) :
    bound_le (n + 1) b Mark.O d = poss.all (fun q => !(b.get q).isE || move_le_O n b q d) := by
  rw [bound_le]
  rfl

theorem bound_le_succ_X (n : Nat) (b : FB) (d : Bool) :
    bound_le (n + 1) b Mark.X d =
      search_order.any (fun q => (b.get q).isE && move_le_X n b q d) := by
  rw [bound_le]
  · rfl
  · decide

theorem bound_ge_succ_O (n : Nat) (b : FB) (d : Bool) :
    bound_ge (n + 1) b Mark.O d =
      search_order.any (fun q => (b.get q).isE && move_ge_O n b q d) := by
  rw [bound_ge]
  rfl

theorem bound_ge_succ_X (n : Nat) (b : FB) (d : Bool) :
    bound_ge (n + 1) b Mark.X d = poss.all (fun q => !(b.get q).isE || move_ge_X n b q d) := by
  rw [bound_ge]
  · rfl
  · decide

theorem le_threshold_cases (d : Bool) : -10 ≤ le_threshold d ∧ (d = true → le_threshold d = 0) := by
  cases d <;> simp [le_threshold]

theorem ge_threshold_cases (d : Bool) : ge_threshold d ≤ 10 ∧ (d = true → ge_threshold d = 0) := by
  cases d <;> simp [ge_threshold]

theorem outcome_toGame_O (b : FB) (q : Pos) (he : (b.get q).isE = true) :
    outcome b.toGame q.col q.row 'O' =
      if (b.set q Mark.O).wonO then 10
      else if (b.set q Mark.O).full then 0
      else score (b.set q Mark.O).toGame 'X' := by
  have hset : make_move b.toGrid q.col q.row 'O' = (b.set q Mark.O).toGrid :=
    FB.toGrid_set b q Mark.O
  have hempty : is_cell_empty b.toGame.grid q.col q.row = true := by
    rw [← he]
    exact FB.toGrid_empty b q
  rw [outcome_eq b.toGame q.col q.row 'O' (by decide) hempty]
  simp only [FB.toGame, hset, FB.toGrid_wonO, FB.toGrid_full]
  rfl

theorem outcome_toGame_X (b : FB) (q : Pos) (he : (b.get q).isE = true) :
    outcome b.toGame q.col q.row 'X' =
      if (b.set q Mark.X).wonX then -10
      else if (b.set q Mark.X).full then 0
      else score (b.set q Mark.X).toGame 'O' := by
  have hset : make_move b.toGrid q.col q.row 'X' = (b.set q Mark.X).toGrid :=
    FB.toGrid_set b q Mark.X
  have hempty : is_cell_empty b.toGame.grid q.col q.row = true := by
    rw [← he]
    exact FB.toGrid_empty b q
  rw [outcome_eq b.toGame q.col q.row 'X' (by decide) hempty]
  simp only [FB.toGame, hset, FB.toGrid_wonX, FB.toGrid_full]
  rfl

theorem sgn_X : sgn 'X' = -1 := by decide

theorem sgn_O : sgn 'O' = 1 := by decide

/-- Soundness of `bound_le`: a passed test bounds the score from above. -/
theorem bound_le_sound (n : Nat) : ∀ (b : FB) (d : Bool),
    (bound_le n b Mark.O d = true → score b.toGame 'O' ≤ le_threshold d) ∧
    (bound_le n b Mark.X d = true → score b.toGame 'X' ≤ le_threshold d) := by
  induction n with
  | zero =>
    intro b d
    exact ⟨fun h => absurd h (by simp [bound_le]), fun h => absurd h (by simp [bound_le])⟩
  | succ n ih =>
    intro b d
    constructor
    · intro h
      rw [bound_le_succ_O, List.all_eq_true] at h
      rw [score_eq _ _ (by decide)]
      rcases (scan_fold_spec (fun col row => outcome b.toGame col row 'O') b.toGame 'O'
        (Or.inr rfl) cells ⟨start_bound 'O', none⟩).2.2 with hk | ⟨p, _, hpe, hp, _⟩
      · rw [scan_result, hk]
        exact (le_threshold_cases d).1
      · rw [scan_result, hp]
        have hq := h (Pos.of p.1 p.2) (mem_poss _)
        have he : ((b.get (Pos.of p.1 p.2)).isE) = true := by
          rw [← FB.toGrid_empty, Pos.row_of, Pos.col_of]
          exact hpe
        rw [he] at hq
        simp only [Bool.not_true, Bool.false_or] at hq
        have ho := outcome_toGame_O b (Pos.of p.1 p.2) he
        rw [Pos.row_of, Pos.col_of] at ho
        simp only
        rw [ho]
        unfold move_le_O at hq
        split at hq
        · exact absurd hq (by decide)
        · split at hq
          · rw [if_neg (by assumption), if_pos (by assumption), (le_threshold_cases d).2 hq]
          · rw [if_neg (by assumption), if_neg (by assumption)]
            exact (ih _ d).2 hq
    · intro h
      rw [bound_le_succ_X, List.any_eq_true] at h
      obtain ⟨q, _, hq⟩ := h
      rw [Bool.and_eq_true] at hq
      obtain ⟨he, hm⟩ := hq
      have hempty : is_cell_empty b.toGame.grid q.col q.row = true := by
        rw [← he]
        exact FB.toGrid_empty b q
      have hle := (scan_fold_spec (fun col row => outcome b.toGame col row 'X') b.toGame 'X'
        (Or.inl rfl) cells ⟨start_bound 'X', none⟩).2.1 (q.row, q.col) (mem_cells _) hempty
      rw [← scan_result, ← score_eq _ _ (by decide), sgn_X] at hle
      have ho := outcome_toGame_X b q he
      simp only at hle
      have hbound : outcome b.toGame q.col q.row 'X' ≤ le_threshold d := by
        rw [ho]
        unfold move_le_X at hm
        split at hm
        · rw [if_pos (by assumption)]
          exact (le_threshold_cases d).1
        · split at hm
          · rw [if_neg (by assumption), if_pos (by assumption), (le_threshold_cases d).2 hm]
          · rw [if_neg (by assumption), if_neg (by assumption)]
            exact (ih _ d).1 hm
      omega

/-- Soundness of `bound_ge`: a passed test bounds the score from below. -/
theorem bound_ge_sound (n : Nat) : ∀ (b : FB) (d : Bool),
    (bound_ge n b Mark.O d = true → ge_threshold d ≤ score b.toGame 'O') ∧
    (bound_ge n b Mark.X d = true → ge_threshold d ≤ score b.toGame 'X') := by
  induction n with
  | zero =>
    intro b d
    exact ⟨fun h => absurd h (by simp [bound_ge]), fun h => absurd h (by simp [bound_ge])⟩
  | succ n ih =>
    intro b d
    constructor
    · intro h
      rw [bound_ge_succ_O, List.any_eq_true] at h
      obtain ⟨q, _, hq⟩ := h
      rw [Bool.and_eq_true] at hq
      obtain ⟨he, hm⟩ := hq
      have hempty : is_cell_empty b.toGame.grid q.col q.row = true := by
        rw [← he]
        exact FB.toGrid_empty b q
      have hle := (scan_fold_spec (fun col row => outcome b.toGame col row 'O') b.toGame 'O'
        (Or.inr rfl) cells ⟨start_bound 'O', none⟩).2.1 (q.row, q.col) (mem_cells _) hempty
      rw [← scan_result, ← score_eq _ _ (by decide), sgn_O] at hle
      have ho := outcome_toGame_O b q he
      simp only at hle
      have hbound : ge_threshold d ≤ outcome b.toGame q.col q.row 'O' := by
        rw [ho]
        unfold move_ge_O at hm
        split at hm
        · rw [if_pos (by assumption)]
          exact (ge_threshold_cases d).1
        · split at hm
          · rw [if_neg (by assumption), if_pos (by assumption), (ge_threshold_cases d).2 hm]
          · rw [if_neg (by assumption), if_neg (by assumption)]
            exact (ih _ d).2 hm
      omega
    · intro h
      rw [bound_ge_succ_X, List.all_eq_true] at h
      rw [score_eq _ _ (by decide)]
      rcases (scan_fold_spec (fun col row => outcome b.toGame col row 'X') b.toGame 'X'
        (Or.inl rfl) cells ⟨start_bound 'X', none⟩).2.2 with hk | ⟨p, _, hpe, hp, _⟩
      · rw [scan_result, hk]
        exact (ge_threshold_cases d).1
      · rw [scan_result, hp]
        have hq := h (Pos.of p.1 p.2) (mem_poss _)
        have he : ((b.get (Pos.of p.1 p.2)).isE) = true := by
          rw [← FB.toGrid_empty, Pos.row_of, Pos.col_of]
          exact hpe
        rw [he] at hq
        simp only [Bool.not_true, Bool.false_or] at hq
        have ho := outcome_toGame_X b (Pos.of p.1 p.2) he
        rw [Pos.row_of, Pos.col_of] at ho
        simp only
        rw [ho]
        unfold move_ge_X at hq
        split at hq
        · exact absurd hq (by decide)
        · split at hq
          · rw [if_neg (by assumption), if_pos (by assumption), (ge_threshold_cases d).2 hq]
          · rw [if_neg (by assumption), if_neg (by assumption)]
            exact (ih _ d).1 hq

/-! ## Lines, counts and boards without an empty cell -/

/-- The Boolean `has_line` says that some line is all `s`. -/
theorem has_line_iff (g : NoughtsCrossesGrid) (s : Char) :
    has_line g s = true ↔ ∃ l ∈ winning_lines, ∀ p ∈ l, g.grid p.1 p.2 = s := by
  simp only [has_line, List.any_eq_true, List.all_eq_true, beq_iff_eq]

/-- The source test `has_player_won` agrees with `has_line`. -/
theorem has_player_won_eq_has_line (g : NoughtsCrossesGrid) (s : Char) :
    has_player_won g s = has_line g s := by
  rw [Bool.eq_iff_iff]
  simp only [has_player_won, indices, has_line, winning_lines, List.any_cons, List.any_nil,
    List.all_cons, List.all_nil, Bool.and_true, Bool.or_false]
  generalize (g.grid 0 0 == s) = x0
  generalize (g.grid 0 1 == s) = x1
  generalize (g.grid 0 2 == s) = x2
  generalize (g.grid 1 0 == s) = x3
  generalize (g.grid 1 1 == s) = x4
  generalize (g.grid 1 2 == s) = x5
  generalize (g.grid 2 0 == s) = x6
  generalize (g.grid 2 1 == s) = x7
  generalize (g.grid 2 2 == s) = x8
  revert x0 x1 x2 x3 x4 x5 x6 x7 x8
  decide

theorem occupied_make_move (g : NoughtsCrossesGrid) (col row : Fin 3) (s : Char)
    (he : is_cell_empty g col row = true) (hs : s ≠ '_') :
    occupied (make_move g col row s) = occupied g + 1 := by
  have h1 := empties_make_move g col row s he hs
  have h2 := empties_add_occupied g
  have h3 := empties_add_occupied (make_move g col row s)
  omega

theorem occupied_init_grid : occupied init_grid = 0 := by
  decide

/-- Valid calls of `make_move` keep the counter equal to the number of marks. -/
theorem run_moves_invariant (ms : List (Fin 3 × Fin 3 × Char)) :
    ∀ g : NoughtsCrossesGrid, g.total_moves = occupied g → valid_moves g ms →
      (run_moves g ms).total_moves = occupied (run_moves g ms) := by
  induction ms with
  | nil => exact fun g hg _ => hg
  | cons m ms ih =>
    intro g hg hv
    obtain ⟨hsym, hempty, hrest⟩ := hv
    refine ih (make_move g m.2.1 m.1 m.2.2) ?_ hrest
    rw [occupied_make_move g m.2.1 m.1 m.2.2 hempty (symbol_ne_blank _ hsym)]
    simp only [make_move, hg, Nat.cast_add, Nat.cast_one]

/-- Without an empty cell `determine_best_move` returns the board as it is and
the initial bound. -/
theorem dbm_no_empty (game : NoughtsCrossesGame) (symbol : Char)
    (h : ∀ r c : Fin 3, game.grid.grid r c ≠ '_') (n : Nat) (hn : 1 ≤ n) :
    determine_best_move n game symbol = some (game, start_bound symbol) := by
  have hne : ∀ p : Fin 3 × Fin 3, is_cell_empty game.grid p.2 p.1 = false := by
    intro p
    simpa [is_cell_empty] using h p.1 p.2
  rw [dbm_of_sims 0 game symbol (fun _ _ => 0)
    (fun p hp => absurd hp (by simp [hne p])) n hn,
    scan_fold_keep _ game symbol cells _ (fun p _ hp => absurd hp (by simp [hne p]))]
  rfl

/-! ## Claims about the board and about single calls -/

/-- C3, evaluated at the failing input: `fork_board` has no line for X or O, has
an empty cell, and its counter equals its seven marks, yet
`determine_best_move (board, 'O')` places no mark on it: it returns -10 and
the board unchanged, because no move of O scores strictly more than the
initial bound -10. -/
theorem determine_best_move_fork_board :
    has_player_won fork_board 'X' = false ∧ has_player_won fork_board 'O' = false ∧
    is_cell_empty fork_board 2 0 = true ∧ fork_board.total_moves = occupied fork_board ∧
    ∀ n, 19 ≤ n → determine_best_move n ⟨fork_board⟩ 'O' = some (⟨fork_board⟩, -10) := by
  refine ⟨by decide, by decide, by decide, by decide, fun n hn => ?_⟩
  have hall : cells.all (fun p => !is_cell_empty fork_board p.2 p.1 ||
      !better 'O' (outcome ⟨fork_board⟩ p.2 p.1 'O') (-10)) = true := by decide!
  rw [List.all_eq_true] at hall
  rw [determine_best_move_eq _ _ (by decide) n hn, scan_result,
    scan_fold_keep _ _ _ cells _ (fun p hp he => by
      have := hall p hp
      simp only [he, Bool.not_true, Bool.false_or, Bool.not_eq_true'] at this
      exact this)]
  rfl

/-- C4: `has_player_won (board, symbol)` is true exactly when one of the 8 lines
(rows 0-2, columns 0-2, the two diagonals) has all three cells equal to
`symbol`; in particular, when row 0 is X,X,X and no line is all O,
`has_player_won` is true for X and false for O. -/
theorem has_player_won_exact (g : NoughtsCrossesGrid) (symbol : Char) :
    (has_player_won g symbol = true ↔
      ∃ l ∈ winning_lines, ∀ p ∈ l, g.grid p.1 p.2 = symbol) ∧
    (g.grid 0 0 = 'X' ∧ g.grid 0 1 = 'X' ∧ g.grid 0 2 = 'X' →
      (¬ ∃ l ∈ winning_lines, ∀ p ∈ l, g.grid p.1 p.2 = 'O') →
      has_player_won g 'X' = true ∧ has_player_won g 'O' = false) := by
  refine ⟨by rw [has_player_won_eq_has_line, has_line_iff], fun hrow hno => ⟨?_, ?_⟩⟩
  · rw [has_player_won_eq_has_line, has_line_iff]
    refine ⟨[(0, 0), (0, 1), (0, 2)], by simp [winning_lines], ?_⟩
    intro p hp
    simp only [List.mem_cons, List.mem_singleton, List.not_mem_nil, or_false] at hp
    rcases hp with rfl | rfl | rfl
    · exact hrow.1
    · exact hrow.2.1
    · exact hrow.2.2
  · rw [has_player_won_eq_has_line, ← Bool.not_eq_true, has_line_iff]
    exact hno

/-- C5: starting from the `init_grid` board, after any finite sequence of valid
`make_move` calls (symbol X or O, target cell empty at the time of the call),
`total_moves` equals the number of cells that are not `'_'`. -/
theorem total_moves_eq_occupied (ms : List (Fin 3 × Fin 3 × Char))
    (hvalid : valid_moves init_grid ms) :
    (run_moves init_grid ms).total_moves = occupied (run_moves init_grid ms) :=
  run_moves_invariant ms init_grid (by rw [occupied_init_grid]; rfl) hvalid

/-- Witness of C5: X at (0,0), then O at (1,1). -/
theorem total_moves_eq_occupied_witness :
    valid_moves init_grid [(0, 0, 'X'), (1, 1, 'O')] ∧
    (run_moves init_grid [(0, 0, 'X'), (1, 1, 'O')]).total_moves =
      occupied (run_moves init_grid [(0, 0, 'X'), (1, 1, 'O')]) :=
  ⟨by simp [valid_moves, is_cell_empty, make_move, init_grid],
    total_moves_eq_occupied [(0, 0, 'X'), (1, 1, 'O')]
      (by simp [valid_moves, is_cell_empty, make_move, init_grid])⟩

theorem win_score_eq (s : Char) : win_score s = if s = 'O' then 10 else -10 := by
  unfold win_score
  by_cases h : s = 'O' <;> simp [h, WIN_FOR_O, WIN_FOR_X]

theorem start_bound_eq (s : Char) : start_bound s = if s = 'O' then -10 else 10 := by
  unfold start_bound
  by_cases h : s = 'O' <;> simp [h, WIN_FOR_O, WIN_FOR_X]

theorem eq_of_sgn_mul_eq (s : Char) (hs : s = 'X' ∨ s = 'O') (a b : Int)
    (h : sgn s * a = sgn s * b) : a = b := by
  rcases hs with rfl | rfl
  · rw [sgn_X] at h
    omega
  · rw [sgn_O] at h
    omega

/-- C6: when some empty cell completes a line of `s`, `determine_best_move
(board, s)` returns the winning score of `s` (+10 for O, -10 for X) and places
one mark `s` on a cell that was empty (the bound on `total_moves` is part of
the claim and is not needed); on the scenario board (X at (0,0) and (0,1),
O at (1,1), three moves) the call for X places X at (row 0, col 2), which
completes row 0, and returns -10. -/
theorem immediate_win_taken (game : NoughtsCrossesGame) (s : Char)
    (hs : s = 'X' ∨ s = 'O') (_htm : game.grid.total_moves < 9)
    (hwin : ∃ r c : Fin 3, is_cell_empty game.grid c r = true ∧
      has_player_won (make_move game.grid c r s) s = true) :
    (∃ r c : Fin 3, is_cell_empty game.grid c r = true ∧
      ∀ n, 19 ≤ n → determine_best_move n game s =
        some (⟨make_move game.grid c r s⟩, if s = 'O' then 10 else -10)) ∧
    (∀ n, 19 ≤ n → determine_best_move n ⟨row_scenario⟩ 'X' =
      some (⟨make_move row_scenario 2 0 'X'⟩, -10)) ∧
    has_player_won (make_move row_scenario 2 0 'X') 'X' = true := by
  refine ⟨?_, ?_, by decide⟩
  · obtain ⟨r, c, he, hw⟩ := hwin
    have hne := symbol_ne_blank s hs
    obtain ⟨_, h2, h3⟩ := scan_fold_spec (fun col row => outcome game col row s) game s hs
      cells ⟨start_bound s, none⟩
    rw [← scan_result] at h2 h3
    have hcell := h2 (r, c) (mem_cells _) he
    simp only at hcell
    rw [outcome_eq game c r s hne he, if_pos hw, sgn_win_score s hs] at hcell
    rcases h3 with hk | ⟨p, _, hpe, hp, _⟩
    · rw [hk] at hcell
      have := sgn_start_bound s hs
      simp only at hcell
      omega
    · rw [hp] at hcell
      simp only at hcell
      have hrange := sgn_mul_range s hs _ (outcome_range game p.2 p.1 s hs hpe)
      have hval : outcome game p.2 p.1 s = win_score s :=
        eq_of_sgn_mul_eq s hs _ _ (by rw [sgn_win_score s hs]; omega)
      refine ⟨p.1, p.2, hpe, fun n hn => ?_⟩
      rw [determine_best_move_eq game s hne n hn, hp, ← win_score_eq, ← hval]
      rfl
  · intro n hn
    have hsplit : cells = [(0, 0), (0, 1)] ++ (0, 2) :: [(1, 0), (1, 1), (1, 2), (2, 0), (2, 1),
        (2, 2)] := rfl
    have hv : outcome ⟨row_scenario⟩ 2 0 'X' = -10 := by
      rw [outcome_eq _ _ _ _ (by decide) (by decide), if_pos (by decide)]
      rfl
    rw [determine_best_move_eq _ _ (by decide) n hn, scan_result, hsplit,
      scan_fold_pick (fun col row => outcome ⟨row_scenario⟩ col row 'X') ⟨row_scenario⟩ 'X'
        [(0, 0), (0, 1)] _ (0, 2) _ ?_ (by decide) ?_ ?_]
    · simp only [hv]
      rfl
    · intro q hq he
      simp only [List.mem_cons, List.mem_singleton, List.not_mem_nil, or_false] at hq
      rcases hq with rfl | rfl <;> exact absurd he (by decide)
    · simp only [hv]
      decide
    · intro q _ he
      simp only [hv]
      have hr := sgn_mul_range 'X' (Or.inl rfl) _
        (outcome_range ⟨row_scenario⟩ q.2 q.1 'X' (Or.inl rfl) he)
      rw [← Bool.not_eq_true, better_iff 'X' (Or.inl rfl), sgn_X]
      rw [sgn_X] at hr
      omega

/-- Witness of C6: the scenario board itself, with X to move and the winning
cell (row 0, col 2). -/
theorem immediate_win_taken_witness :
    (('X' = 'X' ∨ 'X' = 'O') ∧ row_scenario.total_moves < 9 ∧
      is_cell_empty row_scenario 2 0 = true) ∧
    ((∃ r c : Fin 3, is_cell_empty row_scenario c r = true ∧
      ∀ n, 19 ≤ n → determine_best_move n ⟨row_scenario⟩ 'X' =
        some (⟨make_move row_scenario c r 'X'⟩, if 'X' = 'O' then 10 else -10)) ∧
    (∀ n, 19 ≤ n → determine_best_move n ⟨row_scenario⟩ 'X' =
      some (⟨make_move row_scenario 2 0 'X'⟩, -10)) ∧
    has_player_won (make_move row_scenario 2 0 'X') 'X' = true) :=
  ⟨⟨Or.inl rfl, by decide, by decide⟩,
    immediate_win_taken ⟨row_scenario⟩ 'X' (Or.inl rfl) (by decide)
      ⟨0, 2, by decide, by decide⟩⟩

/-- C7 fails as stated: `won_board` is terminal (X already holds row 0) but has
empty cells, and `determine_best_move (board, 'O')` does apply a move there: it
places O at (row 1, col 2) and returns +10, not the initial bound -10. -/
theorem terminal_board_counterexample :
    has_player_won won_board 'X' = true ∧
    determine_best_move 19 ⟨won_board⟩ 'O' = some (⟨make_move won_board 2 1 'O'⟩, 10) ∧
    (make_move won_board 2 1 'O').total_moves = won_board.total_moves + 1 ∧
    determine_best_move 19 ⟨won_board⟩ 'O' ≠ some (⟨won_board⟩, -10) := by
  have hsplit : cells = [(0, 0), (0, 1), (0, 2), (1, 0), (1, 1)] ++ (1, 2) ::
      [(2, 0), (2, 1), (2, 2)] := rfl
  have hv : outcome ⟨won_board⟩ 2 1 'O' = 10 := by
    rw [outcome_eq _ _ _ _ (by decide) (by decide), if_pos (by decide)]
    rfl
  have hres : determine_best_move 19 ⟨won_board⟩ 'O' =
      some (⟨make_move won_board 2 1 'O'⟩, 10) := by
    rw [determine_best_move_eq _ _ (by decide) 19 (le_refl _), scan_result, hsplit,
      scan_fold_pick (fun col row => outcome ⟨won_board⟩ col row 'O') ⟨won_board⟩ 'O'
        [(0, 0), (0, 1), (0, 2), (1, 0), (1, 1)] _ (1, 2) _ ?_ (by decide) ?_ ?_]
    · simp only [hv]
      rfl
    · intro q hq he
      simp only [List.mem_cons, List.mem_singleton, List.not_mem_nil, or_false] at hq
      rcases hq with rfl | rfl | rfl | rfl | rfl <;> exact absurd he (by decide)
    · simp only [hv]
      decide
    · intro q _ he
      simp only [hv]
      have hr := sgn_mul_range 'O' (Or.inr rfl) _
        (outcome_range ⟨won_board⟩ q.2 q.1 'O' (Or.inr rfl) he)
      rw [← Bool.not_eq_true, better_iff 'O' (Or.inr rfl), sgn_O]
      rw [sgn_O] at hr
      omega
  refine ⟨by decide, hres, rfl, ?_⟩
  rw [hres]
  intro h
  have h2 := congrArg (fun r => r.map (fun t => t.2)) h
  simp at h2

/-- C7, amended: on an already-terminal board (counter at 9 or more, or a line
of X or of O) that has no empty cell, `determine_best_move (board, s)` applies
no move, leaves the board and its counter unchanged, and returns the initial
bound: -10 when `s` is O, +10 when `s` is X. -/
theorem terminal_full_board_unchanged (game : NoughtsCrossesGame) (s : Char)
    (_hs : s = 'X' ∨ s = 'O')
    (_hterminal : is_grid_full game.grid = true ∨ has_player_won game.grid 'X' = true ∨
      has_player_won game.grid 'O' = true)
    (hfull : ∀ r c : Fin 3, game.grid.grid r c ≠ '_') (n : Nat) (hn : 1 ≤ n) :
    determine_best_move n game s = some (game, if s = 'O' then -10 else 10) := by
  rw [dbm_no_empty game s hfull n hn, start_bound_eq]

/-- Witness of the amended C7: the drawn full board, O to move, fuel 19. -/
theorem terminal_full_board_unchanged_witness :
    (('O' = 'X' ∨ 'O' = 'O') ∧ is_grid_full drawn_board = true ∧
      (∀ r c : Fin 3, drawn_board.grid r c ≠ '_') ∧ 1 ≤ 19) ∧
    determine_best_move 19 ⟨drawn_board⟩ 'O' =
      some (⟨drawn_board⟩, if 'O' = 'O' then -10 else 10) :=
  ⟨⟨Or.inr rfl, by decide, by decide, by decide⟩,
    terminal_full_board_unchanged ⟨drawn_board⟩ 'O' (Or.inr rfl) (Or.inl (by decide))
      (by decide) 19 (by decide)⟩

/-- C8: on a board in which no cell is `'_'` (whatever its `total_moves`),
`determine_best_move (board, s)` leaves every cell and `total_moves` unchanged
and returns the initial bound: -10 if `s` is `'O'`, +10 otherwise. This holds
for every symbol and with any positive fuel. -/
theorem no_empty_cell_no_move (game : NoughtsCrossesGame) (symbol : Char)
    (hfull : ∀ r c : Fin 3, game.grid.grid r c ≠ '_') (n : Nat) (hn : 1 ≤ n) :
    determine_best_move n game symbol =
      some (game, if symbol = 'O' then -10 else 10) := by
  rw [dbm_no_empty game symbol hfull n hn, start_bound_eq]

/-- Witness of C8: the drawn board with a counter that does not match its
cells, and a symbol that is neither X nor O. -/
theorem no_empty_cell_no_move_witness :
    ((∀ r c : Fin 3, ({ drawn_board with total_moves := 2 } : NoughtsCrossesGrid).grid r c ≠ '_')
      ∧ 1 ≤ 19) ∧
    determine_best_move 19 ⟨{ drawn_board with total_moves := 2 }⟩ 'Z' =
      some (⟨{ drawn_board with total_moves := 2 }⟩, if 'Z' = 'O' then -10 else 10) :=
  ⟨⟨by decide, by decide⟩,
    no_empty_cell_no_move ⟨{ drawn_board with total_moves := 2 }⟩ 'Z' (by decide) 19
      (by decide)⟩

/-- C9: on a board whose only empty cell is `(row, col)` and whose counter is 8,
for `s` in {X, O} such that the board after placing `s` there has no line of
`s`, `simulate_move (board, row, col, s)` returns 0 (for any positive fuel), and
the board obtained by `make_move` at that cell satisfies `is_grid_full`. -/
theorem draw_leaf (game : NoughtsCrossesGame) (row col : Fin 3) (s : Char)
    (_hs : s = 'X' ∨ s = 'O')
    (_hempty : is_cell_empty game.grid col row = true)
    (_honly : ∀ r c : Fin 3, (r, c) ≠ (row, col) → is_cell_empty game.grid c r = false)
    (htm : game.grid.total_moves = 8)
    (hnoline : has_player_won (make_move game.grid col row s) s = false) :
    (∀ n, 1 ≤ n → simulate_move n game col row s = some 0) ∧
    is_grid_full (make_move game.grid col row s) = true := by
  have hfull : is_grid_full (make_move game.grid col row s) = true := by
    simp [is_grid_full, make_move, htm]
  refine ⟨fun n hn => ?_, hfull⟩
  obtain ⟨m, rfl⟩ : ∃ m, n = m + 1 := ⟨n - 1, by omega⟩
  rw [simulate_move_succ, hnoline, hfull]
  rfl

/-- Witness of C9: the board whose last empty cell is (row 2, col 2), X to
play there. -/
theorem draw_leaf_witness :
    (('X' = 'X' ∨ 'X' = 'O') ∧ is_cell_empty last_cell_board 2 2 = true ∧
      (∀ r c : Fin 3, (r, c) ≠ ((2 : Fin 3), (2 : Fin 3)) →
        is_cell_empty last_cell_board c r = false) ∧
      last_cell_board.total_moves = 8 ∧
      has_player_won (make_move last_cell_board 2 2 'X') 'X' = false) ∧
    ((∀ n, 1 ≤ n → simulate_move n ⟨last_cell_board⟩ 2 2 'X' = some 0) ∧
      is_grid_full (make_move last_cell_board 2 2 'X') = true) :=
  ⟨⟨Or.inl rfl, by decide, by decide, by decide, by decide⟩,
    draw_leaf ⟨last_cell_board⟩ 2 2 'X' (Or.inl rfl) (by decide) (by decide) (by decide)
      (by decide)⟩

/-- C10: for every board, every symbol `s` in {X, O} and every empty cell
`(row, col)`, both `determine_best_move (board, s)` and `simulate_move (board,
row, col, s)` return (with fuel 19 or more) a value in {-10, 0, +10}. -/
theorem score_in_range (game : NoughtsCrossesGame) (s : Char) (hs : s = 'X' ∨ s = 'O') :
    (∀ n, 19 ≤ n → ∃ r, determine_best_move n game s = some r ∧
      (r.2 = -10 ∨ r.2 = 0 ∨ r.2 = 10)) ∧
    (∀ row col : Fin 3, is_cell_empty game.grid col row = true → ∀ n, 19 ≤ n →
      ∃ v, simulate_move n game col row s = some v ∧ (v = -10 ∨ v = 0 ∨ v = 10)) := by
  have hne := symbol_ne_blank s hs
  constructor
  · intro n hn
    refine ⟨_, determine_best_move_eq game s hne n hn, ?_⟩
    rw [finish_snd, ← score_eq game s hne]
    exact score_range game s hs
  · intro row col he n hn
    exact ⟨_, simulate_move_eq game col row s hne he n (by omega),
      outcome_range game col row s hs he⟩

/-- Witness of C10: the empty board with O to move. -/
theorem score_in_range_witness :
    ('O' = 'X' ∨ 'O' = 'O') ∧
    ((∀ n, 19 ≤ n → ∃ r, determine_best_move n ⟨init_grid⟩ 'O' = some r ∧
      (r.2 = -10 ∨ r.2 = 0 ∨ r.2 = 10)) ∧
    (∀ row col : Fin 3, is_cell_empty init_grid col row = true → ∀ n, 19 ≤ n →
      ∃ v, simulate_move n ⟨init_grid⟩ col row 'O' = some v ∧
        (v = -10 ∨ v = 0 ∨ v = 10))) :=
  ⟨Or.inr rfl, score_in_range ⟨init_grid⟩ 'O' (Or.inr rfl)⟩

/-! ## The score is the minimax value -/

theorem foldl_max_spec (l : List Int) (a : Int) :
    a ≤ l.foldl max a ∧ (∀ x ∈ l, x ≤ l.foldl max a) ∧
      (l.foldl max a = a ∨ l.foldl max a ∈ l) := by
  induction l generalizing a with
  | nil => simp
  | cons b l ih =>
    obtain ⟨h1, h2, h3⟩ := ih (max a b)
    rw [List.foldl_cons]
    refine ⟨le_trans (le_max_left a b) h1, ?_, ?_⟩
    · intro x hx
      rcases List.mem_cons.1 hx with rfl | hx
      · exact le_trans (le_max_right a x) h1
      · exact h2 x hx
    · rcases h3 with h3 | h3
      · rcases max_choice a b with hm | hm
        · exact Or.inl (h3.trans hm)
        · exact Or.inr (by rw [h3, hm]; exact List.mem_cons_self _ _)
      · exact Or.inr (List.mem_cons_of_mem _ h3)

theorem foldl_min_spec (l : List Int) (a : Int) :
    l.foldl min a ≤ a ∧ (∀ x ∈ l, l.foldl min a ≤ x) ∧
      (l.foldl min a = a ∨ l.foldl min a ∈ l) := by
  induction l generalizing a with
  | nil => simp
  | cons b l ih =>
    obtain ⟨h1, h2, h3⟩ := ih (min a b)
    rw [List.foldl_cons]
    refine ⟨le_trans h1 (min_le_left a b), ?_, ?_⟩
    · intro x hx
      rcases List.mem_cons.1 hx with rfl | hx
      · exact le_trans h1 (min_le_right a x)
      · exact h2 x hx
    · rcases h3 with h3 | h3
      · rcases min_choice a b with hm | hm
        · exact Or.inl (h3.trans hm)
        · exact Or.inr (by rw [h3, hm]; exact List.mem_cons_self _ _)
      · exact Or.inr (List.mem_cons_of_mem _ h3)

/-- A member of the list that bounds it from above is its `list_max`. -/
theorem list_max_eq (l : List Int) (v : Int) (hmem : v ∈ l) (hub : ∀ x ∈ l, x ≤ v) :
    list_max l = v := by
  cases l with
  | nil => exact absurd hmem (List.not_mem_nil _)
  | cons a l =>
    obtain ⟨h1, h2, h3⟩ := foldl_max_spec l a
    have hle : list_max (a :: l) ≤ v := by
      show l.foldl max a ≤ v
      rcases h3 with h3 | h3
      · rw [h3]
        exact hub a (List.mem_cons_self _ _)
      · exact hub _ (List.mem_cons_of_mem _ h3)
    have hge : v ≤ list_max (a :: l) := by
      rcases List.mem_cons.1 hmem with rfl | hv
      · exact h1
      · exact h2 v hv
    exact le_antisymm hle hge

/-- A member of the list that bounds it from below is its `list_min`. -/
theorem list_min_eq (l : List Int) (v : Int) (hmem : v ∈ l) (hlb : ∀ x ∈ l, v ≤ x) :
    list_min l = v := by
  cases l with
  | nil => exact absurd hmem (List.not_mem_nil _)
  | cons a l =>
    obtain ⟨h1, h2, h3⟩ := foldl_min_spec l a
    have hge : v ≤ list_min (a :: l) := by
      show v ≤ l.foldl min a
      rcases h3 with h3 | h3
      · rw [h3]
        exact hlb a (List.mem_cons_self _ _)
      · exact hlb _ (List.mem_cons_of_mem _ h3)
    have hle : list_min (a :: l) ≤ v := by
      rcases List.mem_cons.1 hmem with rfl | hv
      · exact h1
      · exact h2 v hv
    exact le_antisymm hle hge

/-- A move of `s` creates no line of another symbol. -/
theorem has_line_make_move_other (g : NoughtsCrossesGrid) (col row : Fin 3) (s t : Char)
    (hst : s ≠ t) (h : has_line g t = false) :
    has_line (make_move g col row s) t = false := by
  rw [← Bool.not_eq_true] at h ⊢
  intro hl
  apply h
  rw [has_line_iff] at hl ⊢
  obtain ⟨l, hl, hall⟩ := hl
  refine ⟨l, hl, fun p hp => ?_⟩
  have := hall p hp
  simp only [make_move] at this
  split at this
  · exact absurd this hst
  · exact this

theorem mem_empty_cells (g : NoughtsCrossesGrid) (p : Fin 3 × Fin 3) :
    p ∈ empty_cells g ↔ is_cell_empty g p.2 p.1 = true := by
  simp [empty_cells, is_cell_empty, mem_cells]

theorem empties_eq_length (g : NoughtsCrossesGrid) : empties g = (empty_cells g).length := by
  simp [empties, empty_cells, List.countP_eq_length_filter]

theorem minimax_line_X (n : Nat) (g : NoughtsCrossesGrid) (s : Char)
    (h : has_line g 'X' = true) : minimax n g s = -10 := by
  cases n <;> simp [minimax, h]

theorem minimax_line_O (n : Nat) (g : NoughtsCrossesGrid) (s : Char)
    (hX : has_line g 'X' = false) (h : has_line g 'O' = true) : minimax n g s = 10 := by
  cases n <;> simp [minimax, h, hX]

theorem minimax_full (n : Nat) (g : NoughtsCrossesGrid) (s : Char)
    (hX : has_line g 'X' = false) (hO : has_line g 'O' = false)
    (he : empty_cells g = []) : minimax n g s = 0 := by
  cases n <;> simp [minimax, hO, hX, he]

/-- The score of a move is the minimax value of the position it leads to, given
the same for `determine_best_move` on boards with at most `e` empty cells. -/
theorem outcome_eq_minimax (e : Nat)
    (ih : ∀ (g : NoughtsCrossesGrid) (s : Char), (s = 'X' ∨ s = 'O') → empties g ≤ e →
      1 ≤ empties g → g.total_moves = occupied g → has_line g 'X' = false →
      has_line g 'O' = false → score ⟨g⟩ s = minimax e g s)
    (g : NoughtsCrossesGrid) (col row : Fin 3) (s : Char) (hs : s = 'X' ∨ s = 'O')
    (hp : is_cell_empty g col row = true) (he : empties g ≤ e + 1)
    (hinv : g.total_moves = occupied g) (hX : has_line g 'X' = false)
    (hO : has_line g 'O' = false) :
    outcome ⟨g⟩ col row s = minimax e (make_move g col row s) (switch_player s) := by
  have hne := symbol_ne_blank s hs
  have hcount := empties_make_move g col row s hp hne
  have hocc := occupied_make_move g col row s hp hne
  have hsum := empties_add_occupied (make_move g col row s)
  have hinv2 : (make_move g col row s).total_moves = occupied (make_move g col row s) := by
    rw [hocc]
    simp only [make_move, hinv, Nat.cast_add, Nat.cast_one]
  rw [outcome_eq ⟨g⟩ col row s hne hp, has_player_won_eq_has_line]
  simp only
  rcases hs with rfl | rfl
  · have hO2 := has_line_make_move_other g col row 'X' 'O' (by decide) hO
    by_cases hw : has_line (make_move g col row 'X') 'X' = true
    · rw [if_pos hw, minimax_line_X _ _ _ hw]
      rfl
    · rw [if_neg hw]
      rw [Bool.not_eq_true] at hw
      by_cases hf : is_grid_full (make_move g col row 'X') = true
      · rw [if_pos hf]
        have h9 : (make_move g col row 'X').total_moves ≥ 9 := by
          simpa [is_grid_full] using hf
        have hnil : empty_cells (make_move g col row 'X') = [] := by
          apply List.eq_nil_of_length_eq_zero
          rw [← empties_eq_length]
          omega
        rw [minimax_full _ _ _ hw hO2 hnil]
      · rw [if_neg hf]
        have h9 : ¬ (make_move g col row 'X').total_moves ≥ 9 := by
          simpa [is_grid_full] using hf
        exact ih _ _ (switch_player_mem 'X') (by omega) (by omega) hinv2 hw hO2
  · have hX2 := has_line_make_move_other g col row 'O' 'X' (by decide) hX
    by_cases hw : has_line (make_move g col row 'O') 'O' = true
    · rw [if_pos hw, minimax_line_O _ _ _ hX2 hw]
      rfl
    · rw [if_neg hw]
      rw [Bool.not_eq_true] at hw
      by_cases hf : is_grid_full (make_move g col row 'O') = true
      · rw [if_pos hf]
        have h9 : (make_move g col row 'O').total_moves ≥ 9 := by
          simpa [is_grid_full] using hf
        have hnil : empty_cells (make_move g col row 'O') = [] := by
          apply List.eq_nil_of_length_eq_zero
          rw [← empties_eq_length]
          omega
        rw [minimax_full _ _ _ hX2 hw hnil]
      · rw [if_neg hf]
        have h9 : ¬ (make_move g col row 'O').total_moves ≥ 9 := by
          simpa [is_grid_full] using hf
        exact ih _ _ (switch_player_mem 'O') (by omega) (by omega) hinv2 hX2 hw

/-- On a board without a line, with an empty cell and a counter equal to its
marks, the score of `determine_best_move` is the minimax value. -/
theorem score_eq_minimax (e : Nat) : ∀ (g : NoughtsCrossesGrid) (s : Char),
    (s = 'X' ∨ s = 'O') → empties g ≤ e → 1 ≤ empties g → g.total_moves = occupied g →
    has_line g 'X' = false → has_line g 'O' = false → score ⟨g⟩ s = minimax e g s := by
  induction e with
  | zero =>
    intro g s _ he h1
    omega
  | succ e ih =>
    intro g s hs he h1 hinv hX hO
    have hne := symbol_ne_blank s hs
    have hcells : empty_cells g ≠ [] := by
      intro h
      rw [empties_eq_length, h] at h1
      simp at h1
    obtain ⟨p0, hp0⟩ := List.exists_mem_of_ne_nil _ hcells
    obtain ⟨_, h2, h3⟩ := scan_fold_spec (fun col row => outcome ⟨g⟩ col row s) ⟨g⟩ s hs
      cells ⟨start_bound s, none⟩
    rw [← scan_result, ← score_eq ⟨g⟩ s hne] at h2
    have hmem : score ⟨g⟩ s ∈ (empty_cells g).map (fun p => outcome ⟨g⟩ p.2 p.1 s) := by
      rw [List.mem_map]
      rcases h3 with hk | ⟨p, _, hpe, hp, _⟩
      · refine ⟨p0, hp0, ?_⟩
        have hp0e := (mem_empty_cells g p0).1 hp0
        have hle := h2 p0 (mem_cells _) hp0e
        have hr := (sgn_mul_range s hs _ (outcome_range ⟨g⟩ p0.2 p0.1 s hs hp0e)).1
        have hsc : sgn s * score ⟨g⟩ s = -10 := by
          rw [score_eq ⟨g⟩ s hne, scan_result, hk]
          exact sgn_start_bound s hs
        exact eq_of_sgn_mul_eq s hs _ _ (by omega)
      · refine ⟨p, (mem_empty_cells g p).2 hpe, ?_⟩
        rw [score_eq ⟨g⟩ s hne, scan_result, hp]
    have hmap : ∀ t : Char, t = s →
        (empty_cells g).map (fun p => minimax e (make_move g p.2 p.1 t) (switch_player t)) =
        (empty_cells g).map (fun p => outcome ⟨g⟩ p.2 p.1 s) := by
      rintro t rfl
      apply List.map_congr_left
      intro p hp
      exact (outcome_eq_minimax e ih g p.2 p.1 t hs ((mem_empty_cells g p).1 hp) he hinv
        hX hO).symm
    rw [minimax]
    simp only [hX, hO, hcells, if_false, Bool.false_eq_true]
    rcases hs with rfl | rfl
    · rw [if_neg (by decide)]
      have := hmap 'X' rfl
      rw [show switch_player 'X' = 'O' from rfl] at this
      rw [this]
      symm
      apply list_min_eq _ _ hmem
      intro x hx
      rw [List.mem_map] at hx
      obtain ⟨p, hp, rfl⟩ := hx
      have := h2 p (mem_cells _) ((mem_empty_cells g p).1 hp)
      rw [sgn_X] at this
      omega
    · rw [if_pos rfl]
      have := hmap 'O' rfl
      rw [show switch_player 'O' = 'X' from rfl] at this
      rw [this]
      symm
      apply list_max_eq _ _ hmem
      intro x hx
      rw [List.mem_map] at hx
      obtain ⟨p, hp, rfl⟩ := hx
      have := h2 p (mem_cells _) ((mem_empty_cells g p).1 hp)
      rw [sgn_O] at this
      omega

/-- Legal alternating play keeps the symbol in {X, O} and the counter equal to
the number of marks. -/
theorem play_from_invariant (ms : List (Fin 3 × Fin 3)) :
    ∀ (g0 : NoughtsCrossesGrid) (s0 : Char) (g : NoughtsCrossesGrid) (s : Char),
      (s0 = 'X' ∨ s0 = 'O') → g0.total_moves = occupied g0 →
      play_from g0 s0 ms = some (g, s) →
      (s = 'X' ∨ s = 'O') ∧ g.total_moves = occupied g := by
  induction ms with
  | nil =>
    intro g0 s0 g s hs0 hinv h
    simp only [play_from, Option.some.injEq, Prod.mk.injEq] at h
    obtain ⟨rfl, rfl⟩ := h
    exact ⟨hs0, hinv⟩
  | cons p ms ih =>
    intro g0 s0 g s hs0 hinv h
    rw [play_from] at h
    by_cases he : is_cell_empty g0 p.2 p.1 = true
    · rw [if_pos he] at h
      refine ih _ _ g s (switch_player_mem s0) ?_ h
      rw [occupied_make_move g0 p.2 p.1 s0 he (symbol_ne_blank s0 hs0)]
      simp only [make_move, hinv, Nat.cast_add, Nat.cast_one]
    · rw [if_neg he] at h
      exact absurd h (by simp)

/-- C1: on every board reached from the empty board by alternating legal moves
(X first) that has no line of X or O and at least one empty cell, with `s` the
symbol whose turn it is, `determine_best_move (board, s)` returns the minimax
value of the position (O maximises, X minimises; +10 for a line of O, -10 for
a line of X, 0 for a full board without a line). Hence no legal move gives O
a higher, or X a lower, guaranteed outcome than the score returned; and when
the call places a mark, the position it leaves has exactly that value. -/
theorem minimax_optimal (moves : List (Fin 3 × Fin 3)) (g : NoughtsCrossesGrid) (s : Char)
    (hreach : play_from init_grid 'X' moves = some (g, s))
    (hX : has_line g 'X' = false) (hO : has_line g 'O' = false)
    (hempty : ∃ r c : Fin 3, is_cell_empty g c r = true) (n : Nat) (hn : 19 ≤ n) :
    ∃ g', determine_best_move n ⟨g⟩ s = some (g', game_value g s) ∧
      (∀ r c : Fin 3, is_cell_empty g c r = true →
        (s = 'O' → game_value (make_move g c r s) (switch_player s) ≤ game_value g s) ∧
        (s = 'X' → game_value g s ≤ game_value (make_move g c r s) (switch_player s))) ∧
      (g' = ⟨g⟩ ∨ ∃ r c : Fin 3, is_cell_empty g c r = true ∧ g' = ⟨make_move g c r s⟩ ∧
        game_value (make_move g c r s) (switch_player s) = game_value g s) := by
  obtain ⟨hs, hinv⟩ := play_from_invariant moves init_grid 'X' g s (Or.inl rfl)
    (by rw [occupied_init_grid]; rfl) hreach
  have hne := symbol_ne_blank s hs
  have hle := empties_le g
  have hpos : 1 ≤ empties g := by
    obtain ⟨r, c, he⟩ := hempty
    rw [empties_eq_length]
    exact List.length_pos_of_mem ((mem_empty_cells g (r, c)).2 he)
  have hscore : score ⟨g⟩ s = game_value g s :=
    score_eq_minimax 9 g s hs hle hpos hinv hX hO
  have hout : ∀ r c : Fin 3, is_cell_empty g c r = true →
      outcome ⟨g⟩ c r s = game_value (make_move g c r s) (switch_player s) :=
    fun r c he => outcome_eq_minimax 9 (score_eq_minimax 9) g c r s hs he (by omega) hinv hX hO
  obtain ⟨_, h2, h3⟩ := scan_fold_spec (fun col row => outcome ⟨g⟩ col row s) ⟨g⟩ s hs
    cells ⟨start_bound s, none⟩
  rw [← scan_result] at h2 h3
  rw [← score_eq ⟨g⟩ s hne, hscore] at h2
  refine ⟨(finish ⟨g⟩ s (scan_result ⟨g⟩ s)).1, ?_, ?_, ?_⟩
  · rw [determine_best_move_eq ⟨g⟩ s hne n hn, ← hscore, score_eq ⟨g⟩ s hne,
      ← finish_snd ⟨g⟩ s]
  · intro r c he
    have := h2 (r, c) (mem_cells _) he
    simp only at this
    rw [hout r c he] at this
    constructor
    · rintro rfl
      rw [sgn_O] at this
      omega
    · rintro rfl
      rw [sgn_X] at this
      omega
  · rcases h3 with hk | ⟨p, _, hpe, hp, _⟩
    · left
      rw [hk]
      rfl
    · right
      refine ⟨p.1, p.2, hpe, by rw [hp]; rfl, ?_⟩
      rw [← hout p.1 p.2 hpe, ← hscore, score_eq ⟨g⟩ s hne, hp]

/-- Witness of C1: the empty board, reached by no move, with X to move. -/
theorem minimax_optimal_witness :
    (play_from init_grid 'X' [] = some (init_grid, 'X') ∧ has_line init_grid 'X' = false ∧
      has_line init_grid 'O' = false ∧ is_cell_empty init_grid 0 0 = true ∧ 19 ≤ 19) ∧
    ∃ g', determine_best_move 19 ⟨init_grid⟩ 'X' = some (g', game_value init_grid 'X') ∧
      (∀ r c : Fin 3, is_cell_empty init_grid c r = true →
        ('X' = 'O' → game_value (make_move init_grid c r 'X') (switch_player 'X') ≤
          game_value init_grid 'X') ∧
        ('X' = 'X' → game_value init_grid 'X' ≤
          game_value (make_move init_grid c r 'X') (switch_player 'X'))) ∧
      (g' = ⟨init_grid⟩ ∨ ∃ r c : Fin 3, is_cell_empty init_grid c r = true ∧
        g' = ⟨make_move init_grid c r 'X'⟩ ∧
        game_value (make_move init_grid c r 'X') (switch_player 'X') =
          game_value init_grid 'X') :=
  ⟨⟨rfl, by decide, by decide, by decide, le_refl _⟩,
    minimax_optimal [] init_grid 'X' rfl (by decide) (by decide) ⟨0, 0, by decide⟩ 19
      (le_refl _)⟩

/-! ## Self-play from the empty board -/

theorem move_le_O_sound (n : Nat) (b : FB) (q : Pos) (d : Bool) (he : (b.get q).isE = true)
    (h : move_le_O n b q d = true) : outcome b.toGame q.col q.row 'O' ≤ le_threshold d := by
  rw [outcome_toGame_O b q he]
  unfold move_le_O at h
  split at h
  · exact absurd h (by decide)
  · split at h
    · rw [if_neg (by assumption), if_pos (by assumption), (le_threshold_cases d).2 h]
    · rw [if_neg (by assumption), if_neg (by assumption)]
      exact (bound_le_sound n _ d).2 h

theorem move_le_X_sound (n : Nat) (b : FB) (q : Pos) (d : Bool) (he : (b.get q).isE = true)
    (h : move_le_X n b q d = true) : outcome b.toGame q.col q.row 'X' ≤ le_threshold d := by
  rw [outcome_toGame_X b q he]
  unfold move_le_X at h
  split at h
  · rw [if_pos (by assumption)]
    exact (le_threshold_cases d).1
  · split at h
    · rw [if_neg (by assumption), if_pos (by assumption), (le_threshold_cases d).2 h]
    · rw [if_neg (by assumption), if_neg (by assumption)]
      exact (bound_le_sound n _ d).1 h

theorem move_ge_O_sound (n : Nat) (b : FB) (q : Pos) (d : Bool) (he : (b.get q).isE = true)
    (h : move_ge_O n b q d = true) : ge_threshold d ≤ outcome b.toGame q.col q.row 'O' := by
  rw [outcome_toGame_O b q he]
  unfold move_ge_O at h
  split at h
  · rw [if_pos (by assumption)]
    exact (ge_threshold_cases d).1
  · split at h
    · rw [if_neg (by assumption), if_pos (by assumption), (ge_threshold_cases d).2 h]
    · rw [if_neg (by assumption), if_neg (by assumption)]
      exact (bound_ge_sound n _ d).2 h

theorem move_ge_X_sound (n : Nat) (b : FB) (q : Pos) (d : Bool) (he : (b.get q).isE = true)
    (h : move_ge_X n b q d = true) : ge_threshold d ≤ outcome b.toGame q.col q.row 'X' := by
  rw [outcome_toGame_X b q he]
  unfold move_ge_X at h
  split at h
  · exact absurd h (by decide)
  · split at h
    · rw [if_neg (by assumption), if_pos (by assumption), (ge_threshold_cases d).2 h]
    · rw [if_neg (by assumption), if_neg (by assumption)]
      exact (bound_ge_sound n _ d).1 h

theorem cells_eq_map_poss : cells = poss.map (fun q => (q.row, q.col)) := by
  decide

/-- The move of O on a compact board, from bound tests: the empty cells before
`q` lose, `q` draws, and no cell after `q` wins. -/
theorem pick_O (b : FB) (pre post : List Pos) (q : Pos)
    (hsplit : poss = pre ++ q :: post)
    (hpre : pre.all (fun t => !(b.get t).isE || move_le_O 10 b t false) = true)
    (he : (b.get q).isE = true)
    (hge : move_ge_O 10 b q true = true)
    (hle : move_le_O 10 b q true = true)
    (hpost : post.all (fun t => !(b.get t).isE || move_le_O 10 b t true) = true)
    (n : Nat) (hn : 19 ≤ n) :
    determine_best_move n b.toGame 'O' = some ((b.set q Mark.O).toGame, 0) := by
  have hcells : cells = pre.map (fun t => (t.row, t.col)) ++ (q.row, q.col) ::
      post.map (fun t => (t.row, t.col)) := by
    rw [cells_eq_map_poss, hsplit, List.map_append, List.map_cons]
  have hv : outcome b.toGame q.col q.row 'O' = 0 :=
    le_antisymm (move_le_O_sound 10 b q true he hle) (move_ge_O_sound 10 b q true he hge)
  have hempty : is_cell_empty b.toGame.grid q.col q.row = true := by
    rw [← he]
    exact FB.toGrid_empty b q
  rw [List.all_eq_true] at hpre hpost
  rw [determine_best_move_eq _ _ (by decide) n hn, scan_result, hcells,
    scan_fold_pick (fun col row => outcome b.toGame col row 'O') b.toGame 'O'
      _ _ (q.row, q.col) _ ?_ hempty ?_ ?_]
  · rw [hv]
    simp only [finish, FB.toGame]
    rw [show make_move b.toGrid q.col q.row 'O' = (b.set q Mark.O).toGrid from
      FB.toGrid_set b q Mark.O]
  · intro p hp hpe
    rw [List.mem_map] at hp
    obtain ⟨t, ht, rfl⟩ := hp
    have hte : (b.get t).isE = true := by
      rw [← FB.toGrid_empty]
      exact hpe
    have hm := hpre t ht
    rw [hte] at hm
    have : outcome b.toGame t.col t.row 'O' ≤ -10 :=
      move_le_O_sound 10 b t false hte (by simpa using hm)
    rw [← Bool.not_eq_true, better_iff 'O' (Or.inr rfl), sgn_O]
    have hsb : start_bound 'O' = -10 := rfl
    simp only [hsb]
    omega
  · rw [better_iff 'O' (Or.inr rfl), sgn_O]
    have hsb : start_bound 'O' = -10 := rfl
    simp only [hv, hsb]
    omega
  · intro p hp hpe
    rw [List.mem_map] at hp
    obtain ⟨t, ht, rfl⟩ := hp
    have hte : (b.get t).isE = true := by
      rw [← FB.toGrid_empty]
      exact hpe
    have hm := hpost t ht
    rw [hte] at hm
    have : outcome b.toGame t.col t.row 'O' ≤ 0 :=
      move_le_O_sound 10 b t true hte (by simpa using hm)
    rw [← Bool.not_eq_true, better_iff 'O' (Or.inr rfl), sgn_O]
    simp only [hv]
    omega

/-- The move of X on a compact board, from bound tests: the empty cells before
`q` lose, `q` draws, and no cell after `q` wins. -/
theorem pick_X (b : FB) (pre post : List Pos) (q : Pos)
    (hsplit : poss = pre ++ q :: post)
    (hpre : pre.all (fun t => !(b.get t).isE || move_ge_X 10 b t false) = true)
    (he : (b.get q).isE = true)
    (hge : move_ge_X 10 b q true = true)
    (hle : move_le_X 10 b q true = true)
    (hpost : post.all (fun t => !(b.get t).isE || move_ge_X 10 b t true) = true)
    (n : Nat) (hn : 19 ≤ n) :
    determine_best_move n b.toGame 'X' = some ((b.set q Mark.X).toGame, 0) := by
  have hcells : cells = pre.map (fun t => (t.row, t.col)) ++ (q.row, q.col) ::
      post.map (fun t => (t.row, t.col)) := by
    rw [cells_eq_map_poss, hsplit, List.map_append, List.map_cons]
  have hv : outcome b.toGame q.col q.row 'X' = 0 :=
    le_antisymm (move_le_X_sound 10 b q true he hle) (move_ge_X_sound 10 b q true he hge)
  have hempty : is_cell_empty b.toGame.grid q.col q.row = true := by
    rw [← he]
    exact FB.toGrid_empty b q
  rw [List.all_eq_true] at hpre hpost
  rw [determine_best_move_eq _ _ (by decide) n hn, scan_result, hcells,
    scan_fold_pick (fun col row => outcome b.toGame col row 'X') b.toGame 'X'
      _ _ (q.row, q.col) _ ?_ hempty ?_ ?_]
  · rw [hv]
    simp only [finish, FB.toGame]
    rw [show make_move b.toGrid q.col q.row 'X' = (b.set q Mark.X).toGrid from
      FB.toGrid_set b q Mark.X]
  · intro p hp hpe
    rw [List.mem_map] at hp
    obtain ⟨t, ht, rfl⟩ := hp
    have hte : (b.get t).isE = true := by
      rw [← FB.toGrid_empty]
      exact hpe
    have hm := hpre t ht
    rw [hte] at hm
    have : 10 ≤ outcome b.toGame t.col t.row 'X' :=
      move_ge_X_sound 10 b t false hte (by simpa using hm)
    rw [← Bool.not_eq_true, better_iff 'X' (Or.inl rfl), sgn_X]
    have hsb : start_bound 'X' = 10 := rfl
    simp only [hsb]
    omega
  · rw [better_iff 'X' (Or.inl rfl), sgn_X]
    have hsb : start_bound 'X' = 10 := rfl
    simp only [hv, hsb]
    omega
  · intro p hp hpe
    rw [List.mem_map] at hp
    obtain ⟨t, ht, rfl⟩ := hp
    have hte : (b.get t).isE = true := by
      rw [← FB.toGrid_empty]
      exact hpe
    have hm := hpost t ht
    rw [hte] at hm
    have : 0 ≤ outcome b.toGame t.col t.row 'X' :=
      move_ge_X_sound 10 b t true hte (by simpa using hm)
    rw [← Bool.not_eq_true, better_iff 'X' (Or.inl rfl), sgn_X]
    simp only [hv]
    omega

/-- One call of the driver on a board that is not terminal. -/
theorem self_play_step (k n : Nat) (b b' : FB) (s : Char) (v : Int)
    (hterm : (b.full || b.wonX || b.wonO) = false)
    (hdbm : determine_best_move n b.toGame s = some (b'.toGame, v)) :
    self_play (k + 1) n b.toGame s =
      (self_play k n b'.toGame (switch_player s)).map (fun t => (v :: t.1, t.2)) := by
  rw [self_play]
  simp only [FB.toGame, FB.toGrid_full, FB.toGrid_wonX, FB.toGrid_wonO, hterm]
  simp only [FB.toGame] at hdbm
  rw [hdbm]
  rfl

/-- The driver stops on a terminal board. -/
theorem self_play_done (k n : Nat) (b : FB) (s : Char)
    (hterm : (b.full || b.wonX || b.wonO) = true) :
    self_play k n b.toGame s = some ([], b.toGame) := by
  cases k <;>
    simp only [self_play, FB.toGame, FB.toGrid_full, FB.toGrid_wonX, FB.toGrid_wonO, hterm,
      if_true]

theorem init_grid_eq : init_grid = FB.start.toGrid := by
  simp only [init_grid, FB.toGrid]
  congr 1
  funext r c
  fin_cases r <;> fin_cases c <;> rfl

theorem drawn_board_eq : drawn_board = (line_board 9).toGrid := by
  simp only [drawn_board, FB.toGrid]
  congr 1
  funext r c
  fin_cases r <;> fin_cases c <;> rfl

/-- Call 1 of the self-play line: X moves and the score is 0. -/
theorem line_step_1 (n : Nat) (hn : 19 ≤ n) :
    determine_best_move n (line_board 0).toGame 'X' = some ((line_board 1).toGame, 0) :=
  pick_X (line_board 0) [] [Pos.p1, Pos.p2, Pos.p3, Pos.p4, Pos.p5, Pos.p6, Pos.p7, Pos.p8]
    Pos.p0 rfl (by decide!) (by decide!) (by decide!) (by decide!) (by decide!) n hn

/-- Call 2 of the self-play line: O moves and the score is 0. -/
theorem line_step_2 (n : Nat) (hn : 19 ≤ n) :
    determine_best_move n (line_board 1).toGame 'O' = some ((line_board 2).toGame, 0) :=
  pick_O (line_board 1) [Pos.p0, Pos.p1, Pos.p2, Pos.p3] [Pos.p5, Pos.p6, Pos.p7, Pos.p8]
    Pos.p4 rfl (by decide!) (by decide!) (by decide!) (by decide!) (by decide!) n hn

/-- Call 3 of the self-play line: X moves and the score is 0. -/
theorem line_step_3 (n : Nat) (hn : 19 ≤ n) :
    determine_best_move n (line_board 2).toGame 'X' = some ((line_board 3).toGame, 0) :=
  pick_X (line_board 2) [Pos.p0] [Pos.p2, Pos.p3, Pos.p4, Pos.p5, Pos.p6, Pos.p7, Pos.p8]
    Pos.p1 rfl (by decide!) (by decide!) (by decide!) (by decide!) (by decide!) n hn

/-- Call 4 of the self-play line: O moves and the score is 0. -/
theorem line_step_4 (n : Nat) (hn : 19 ≤ n) :
    determine_best_move n (line_board 3).toGame 'O' = some ((line_board 4).toGame, 0) :=
  pick_O (line_board 3) [Pos.p0, Pos.p1] [Pos.p3, Pos.p4, Pos.p5, Pos.p6, Pos.p7, Pos.p8]
    Pos.p2 rfl (by decide!) (by decide!) (by decide!) (by decide!) (by decide!) n hn

/-- Call 5 of the self-play line: X moves and the score is 0. -/
theorem line_step_5 (n : Nat) (hn : 19 ≤ n) :
    determine_best_move n (line_board 4).toGame 'X' = some ((line_board 5).toGame, 0) :=
  pick_X (line_board 4) [Pos.p0, Pos.p1, Pos.p2, Pos.p3, Pos.p4, Pos.p5] [Pos.p7, Pos.p8]
    Pos.p6 rfl (by decide!) (by decide!) (by decide!) (by decide!) (by decide!) n hn

/-- Call 6 of the self-play line: O moves and the score is 0. -/
theorem line_step_6 (n : Nat) (hn : 19 ≤ n) :
    determine_best_move n (line_board 5).toGame 'O' = some ((line_board 6).toGame, 0) :=
  pick_O (line_board 5) [Pos.p0, Pos.p1, Pos.p2] [Pos.p4, Pos.p5, Pos.p6, Pos.p7, Pos.p8]
    Pos.p3 rfl (by decide!) (by decide!) (by decide!) (by decide!) (by decide!) n hn

/-- Call 7 of the self-play line: X moves and the score is 0. -/
theorem line_step_7 (n : Nat) (hn : 19 ≤ n) :
    determine_best_move n (line_board 6).toGame 'X' = some ((line_board 7).toGame, 0) :=
  pick_X (line_board 6) [Pos.p0, Pos.p1, Pos.p2, Pos.p3, Pos.p4] [Pos.p6, Pos.p7, Pos.p8]
    Pos.p5 rfl (by decide!) (by decide!) (by decide!) (by decide!) (by decide!) n hn

/-- Call 8 of the self-play line: O moves and the score is 0. -/
theorem line_step_8 (n : Nat) (hn : 19 ≤ n) :
    determine_best_move n (line_board 7).toGame 'O' = some ((line_board 8).toGame, 0) :=
  pick_O (line_board 7) [Pos.p0, Pos.p1, Pos.p2, Pos.p3, Pos.p4, Pos.p5, Pos.p6] [Pos.p8]
    Pos.p7 rfl (by decide!) (by decide!) (by decide!) (by decide!) (by decide!) n hn

/-- Call 9 of the self-play line: X moves and the score is 0. -/
theorem line_step_9 (n : Nat) (hn : 19 ≤ n) :
    determine_best_move n (line_board 8).toGame 'X' = some ((line_board 9).toGame, 0) :=
  pick_X (line_board 8) [Pos.p0, Pos.p1, Pos.p2, Pos.p3, Pos.p4, Pos.p5, Pos.p6, Pos.p7] []
    Pos.p8 rfl (by decide!) (by decide!) (by decide!) (by decide!) (by decide!) n hn

/-- The nine calls of the self-play scenario, whatever extra calls the driver
is allowed. -/
theorem self_play_line (n : Nat) (hn : 19 ≤ n) (k : Nat) :
    self_play (k + 9) n ⟨init_grid⟩ 'X' =
      some ([0, 0, 0, 0, 0, 0, 0, 0, 0], ⟨drawn_board⟩) := by
  have e1 := self_play_step (k + 8) n _ _ 'X' 0 (by decide) (line_step_1 n hn)
  have e2 := self_play_step (k + 7) n _ _ 'O' 0 (by decide) (line_step_2 n hn)
  have e3 := self_play_step (k + 6) n _ _ 'X' 0 (by decide) (line_step_3 n hn)
  have e4 := self_play_step (k + 5) n _ _ 'O' 0 (by decide) (line_step_4 n hn)
  have e5 := self_play_step (k + 4) n _ _ 'X' 0 (by decide) (line_step_5 n hn)
  have e6 := self_play_step (k + 3) n _ _ 'O' 0 (by decide) (line_step_6 n hn)
  have e7 := self_play_step (k + 2) n _ _ 'X' 0 (by decide) (line_step_7 n hn)
  have e8 := self_play_step (k + 1) n _ _ 'O' 0 (by decide) (line_step_8 n hn)
  have e9 := self_play_step k n _ _ 'X' 0 (by decide) (line_step_9 n hn)
  have e10 := self_play_done k n (line_board 9) (switch_player 'X') (by decide)
  rw [e10] at e9
  rw [show switch_player 'O' = 'X' from rfl, e9] at e8
  rw [show switch_player 'X' = 'O' from rfl, e8] at e7
  rw [show switch_player 'O' = 'X' from rfl, e7] at e6
  rw [show switch_player 'X' = 'O' from rfl, e6] at e5
  rw [show switch_player 'O' = 'X' from rfl, e5] at e4
  rw [show switch_player 'X' = 'O' from rfl, e4] at e3
  rw [show switch_player 'O' = 'X' from rfl, e3] at e2
  rw [show switch_player 'X' = 'O' from rfl, e2] at e1
  rw [drawn_board_eq, init_grid_eq]
  exact e1

/-- C2: starting from the `init_grid` board and calling `determine_best_move`
alternately with 'X', 'O', 'X', ... on the same board until it is full or has a
winner, there are nine calls, every call returns score 0, and the final board
is full (`total_moves = 9`, no `'_'` cell) with no line of X and no line of O.
The driver may be given any bound of at least 9 calls, and each call any fuel
of at least 19. -/
theorem self_play_draw (n : Nat) (hn : 19 ≤ n) (k : Nat) (hk : 9 ≤ k) :
    self_play k n ⟨init_grid⟩ 'X' = some ([0, 0, 0, 0, 0, 0, 0, 0, 0], ⟨drawn_board⟩) ∧
    drawn_board.total_moves = 9 ∧ is_grid_full drawn_board = true ∧
    (∀ r c : Fin 3, drawn_board.grid r c ≠ '_') ∧
    has_player_won drawn_board 'X' = false ∧ has_player_won drawn_board 'O' = false := by
  obtain ⟨j, rfl⟩ : ∃ j, k = j + 9 := ⟨k - 9, by omega⟩
  exact ⟨self_play_line n hn j, rfl, by decide, by decide, by decide, by decide⟩

/-- Witness of C2: fuel 19 for each call, at most 9 calls. -/
theorem self_play_draw_witness :
    (19 ≤ 19 ∧ 9 ≤ 9) ∧
    (self_play 9 19 ⟨init_grid⟩ 'X' = some ([0, 0, 0, 0, 0, 0, 0, 0, 0], ⟨drawn_board⟩) ∧
    drawn_board.total_moves = 9 ∧ is_grid_full drawn_board = true ∧
    (∀ r c : Fin 3, drawn_board.grid r c ≠ '_') ∧
    has_player_won drawn_board 'X' = false ∧ has_player_won drawn_board 'O' = false) :=
  ⟨⟨le_refl _, le_refl _⟩, self_play_draw 19 (le_refl _) 9 (le_refl _)⟩

/-! ## Claims about make_move, the fresh board and fullness -/

/-- C11: for every board whose counter is below `INT_MAX` (at `INT_MAX` the
increment of the C `int` overflows), `make_move` yields a board whose cell
`(row, col)` holds `symbol`, whose every other cell is unchanged and whose
`total_moves` is the old value plus 1, again a value of a C `int`; if the
cell was empty beforehand and the symbol is X or O, `is_cell_empty` at
`(row, col)` is false afterwards. -/
theorem make_move_effect (g : NoughtsCrossesGrid) (col row : Fin 3) (symbol : Char)
    (hc : g.total_moves < INT_MAX) :
    (make_move g col row symbol).grid row col = symbol ∧
    (∀ r c : Fin 3, (r, c) ≠ (row, col) →
      (make_move g col row symbol).grid r c = g.grid r c) ∧
    (make_move g col row symbol).total_moves = g.total_moves + 1 ∧
    (make_move g col row symbol).total_moves ≤ INT_MAX ∧
    (is_cell_empty g col row = true → (symbol = 'X' ∨ symbol = 'O') →
      is_cell_empty (make_move g col row symbol) col row = false) := by
  refine ⟨by simp [make_move], ?_, rfl, ?_, ?_⟩
  · intro r c hne
    have : ¬ (r = row ∧ c = col) := fun h => hne (by rw [h.1, h.2])
    simp [make_move, this]
  · show g.total_moves + 1 ≤ INT_MAX
    omega
  · intro _ hs
    have hne := symbol_ne_blank symbol hs
    simp [is_cell_empty, make_move, hne]

/-- Witness of C11: X written to the empty cell (row 0, col 2) of the scenario
board, whose counter is 4. -/
theorem make_move_effect_witness :
    row_scenario.total_moves < INT_MAX ∧
    ((make_move row_scenario 2 0 'X').grid 0 2 = 'X' ∧
    (∀ r c : Fin 3, (r, c) ≠ (0, 2) →
      (make_move row_scenario 2 0 'X').grid r c = row_scenario.grid r c) ∧
    (make_move row_scenario 2 0 'X').total_moves = row_scenario.total_moves + 1 ∧
    (make_move row_scenario 2 0 'X').total_moves ≤ INT_MAX ∧
    (is_cell_empty row_scenario 2 0 = true → ('X' = 'X' ∨ 'X' = 'O') →
      is_cell_empty (make_move row_scenario 2 0 'X') 2 0 = false)) :=
  ⟨by decide, make_move_effect row_scenario 2 0 'X' (by decide)⟩

/-- C13: the board produced by `init_grid` has all 9 cells equal to `'_'` and
`total_moves = 0`; so `is_cell_empty` is true for every cell, `is_grid_full` is
false, and `has_player_won` is false for both X and O. -/
theorem init_grid_fresh :
    (∀ r c : Fin 3, init_grid.grid r c = '_') ∧ init_grid.total_moves = 0 ∧
    (∀ r c : Fin 3, is_cell_empty init_grid c r = true) ∧
    is_grid_full init_grid = false ∧
    has_player_won init_grid 'X' = false ∧ has_player_won init_grid 'O' = false :=
  ⟨fun _ _ => rfl, rfl, by decide, by decide, by decide, by decide⟩

theorem empties_eq_zero_iff (g : NoughtsCrossesGrid) :
    empties g = 0 ↔ ∀ r c : Fin 3, is_cell_empty g c r = false := by
  constructor
  · intro h r c
    exact not_empty_of_empties_zero g h c r
  · intro h
    unfold empties
    rw [List.countP_eq_zero]
    intro p _
    have := h p.1 p.2
    simpa [is_cell_empty] using this

/-- C20: on a board whose `total_moves` equals its number of non-`'_'` cells,
`is_grid_full` is true exactly when `is_cell_empty` is false for all 9 cells;
this covers every board reached from `init_grid` by valid `make_move` calls. -/
theorem full_iff_no_empty_cell (g : NoughtsCrossesGrid)
    (hinv : g.total_moves = occupied g) :
    (is_grid_full g = true ↔ ∀ r c : Fin 3, is_cell_empty g c r = false) ∧
    (∀ ms : List (Fin 3 × Fin 3 × Char), valid_moves init_grid ms →
      (is_grid_full (run_moves init_grid ms) = true ↔
        ∀ r c : Fin 3, is_cell_empty (run_moves init_grid ms) c r = false)) := by
  have key : ∀ b : NoughtsCrossesGrid, b.total_moves = occupied b →
      (is_grid_full b = true ↔ ∀ r c : Fin 3, is_cell_empty b c r = false) := by
    intro b hb
    have hsum := empties_add_occupied b
    rw [← empties_eq_zero_iff]
    simp only [is_grid_full, decide_eq_true_eq, hb]
    omega
  exact ⟨key g hinv, fun ms hv =>
    key _ (run_moves_invariant ms init_grid (by rw [occupied_init_grid]; rfl) hv)⟩

/-- Witness of C20: the drawn full board. -/
theorem full_iff_no_empty_cell_witness :
    drawn_board.total_moves = occupied drawn_board ∧
    ((is_grid_full drawn_board = true ↔ ∀ r c : Fin 3, is_cell_empty drawn_board c r = false) ∧
    (∀ ms : List (Fin 3 × Fin 3 × Char), valid_moves init_grid ms →
      (is_grid_full (run_moves init_grid ms) = true ↔
        ∀ r c : Fin 3, is_cell_empty (run_moves init_grid ms) c r = false))) :=
  ⟨by decide, full_iff_no_empty_cell drawn_board (by decide)⟩

/-! ## The selection rule and the tie-break -/

/-- First-match rule of the scan: either nothing is recorded, or the recorded
cell `p` splits the list so that every empty cell before it scores strictly
worse than `p`, and no empty cell after it scores better. -/
theorem scan_fold_first (f : Fin 3 → Fin 3 → Int) (game : NoughtsCrossesGame) (s : Char)
    (hs : s = 'X' ∨ s = 'O') (l : List (Fin 3 × Fin 3)) (st : Best) :
    l.foldl (pure_step f game s) st = st ∨
    ∃ pre p post, l = pre ++ p :: post ∧ is_cell_empty game.grid p.2 p.1 = true ∧
      l.foldl (pure_step f game s) st = ⟨f p.2 p.1, some p⟩ ∧
      sgn s * st.bestOutcome < sgn s * f p.2 p.1 ∧
      (∀ q ∈ pre, is_cell_empty game.grid q.2 q.1 = true →
        sgn s * f q.2 q.1 < sgn s * f p.2 p.1) ∧
      (∀ q ∈ post, is_cell_empty game.grid q.2 q.1 = true →
        sgn s * f q.2 q.1 ≤ sgn s * f p.2 p.1) := by
  induction l generalizing st with
  | nil => exact Or.inl rfl
  | cons q l ih =>
    rw [List.foldl_cons]
    by_cases hq : is_cell_empty game.grid q.2 q.1 = true ∧
        better s (f q.2 q.1) st.bestOutcome = true
    · have hstep : pure_step f game s st q = ⟨f q.2 q.1, some q⟩ := by
        simp [pure_step, hq.1, hq.2]
      have hlt := (better_iff s hs _ _).1 hq.2
      rw [hstep]
      right
      rcases ih ⟨f q.2 q.1, some q⟩ with hk | ⟨pre, p, post, hl, hpe, hres, hgt, hpre, hpost⟩
      · refine ⟨[], q, l, rfl, hq.1, hk, hlt, fun _ h => absurd h (List.not_mem_nil _), ?_⟩
        intro t ht hte
        have := (scan_fold_spec f game s hs l ⟨f q.2 q.1, some q⟩).2.1 t ht hte
        rw [hk] at this
        exact this
      · refine ⟨q :: pre, p, post, by rw [hl]; rfl, hpe, hres, ?_, ?_, hpost⟩
        · simp only at hgt
          omega
        · intro t ht hte
          rcases List.mem_cons.1 ht with rfl | ht
          · exact hgt
          · exact hpre t ht hte
    · have hstep : pure_step f game s st q = st := by
        unfold pure_step
        by_cases he : is_cell_empty game.grid q.2 q.1 = true
        · have hb : ¬ better s (f q.2 q.1) st.bestOutcome = true := fun h => hq ⟨he, h⟩
          simp [he, hb]
        · simp [he]
      rw [hstep]
      rcases ih st with hk | ⟨pre, p, post, hl, hpe, hres, hgt, hpre, hpost⟩
      · exact Or.inl hk
      · right
        refine ⟨q :: pre, p, post, by rw [hl]; rfl, hpe, hres, hgt, ?_, hpost⟩
        intro t ht hte
        rcases List.mem_cons.1 ht with rfl | ht
        · have hb : ¬ sgn s * st.bestOutcome < sgn s * f t.2 t.1 :=
            fun h => hq ⟨hte, (better_iff s hs _ _).2 h⟩
          omega
        · exact hpre t ht hte

/-- The best outcome of the scan is attained at an empty cell, when there is one. -/
theorem score_attained (game : NoughtsCrossesGame) (s : Char) (hs : s = 'X' ∨ s = 'O')
    (hempty : ∃ r c : Fin 3, is_cell_empty game.grid c r = true) :
    ∃ r c : Fin 3, is_cell_empty game.grid c r = true ∧ outcome game c r s = score game s := by
  have hne := symbol_ne_blank s hs
  obtain ⟨_, h2, h3⟩ := scan_fold_spec (fun col row => outcome game col row s) game s hs
    cells ⟨start_bound s, none⟩
  rw [← scan_result] at h2 h3
  rcases h3 with hk | ⟨p, _, hpe, hp, _⟩
  · obtain ⟨r, c, he⟩ := hempty
    refine ⟨r, c, he, ?_⟩
    have hle := h2 (r, c) (mem_cells _) he
    have hr := (sgn_mul_range s hs _ (outcome_range game c r s hs he)).1
    have hsc : sgn s * score game s = -10 := by
      rw [score_eq game s hne, hk]
      exact sgn_start_bound s hs
    rw [← score_eq game s hne] at hle
    exact eq_of_sgn_mul_eq s hs _ _ (by simp only at hle; omega)
  · exact ⟨p.1, p.2, hpe, by rw [score_eq game s hne, hp]⟩

/-- The best outcome of the scan is at least as good as every empty cell's score. -/
theorem score_best (game : NoughtsCrossesGame) (s : Char) (hs : s = 'X' ∨ s = 'O')
    (r c : Fin 3) (he : is_cell_empty game.grid c r = true) :
    sgn s * outcome game c r s ≤ sgn s * score game s := by
  have h2 := (scan_fold_spec (fun col row => outcome game col row s) game s hs
    cells ⟨start_bound s, none⟩).2.1 (r, c) (mem_cells _) he
  rw [← scan_result, ← score_eq game s (symbol_ne_blank s hs)] at h2
  exact h2

/-- C14: on a board with at least one empty cell, `determine_best_move (board,
'O')` returns the maximum, and `determine_best_move (board, 'X')` the minimum,
of the scores `simulate_move (board, r, c, symbol)` over the empty cells: the
value returned is the score of some empty cell and bounds the score of every
empty cell. -/
theorem selection_rule_value (game : NoughtsCrossesGame)
    (hempty : ∃ r c : Fin 3, is_cell_empty game.grid c r = true) (n : Nat) (hn : 19 ≤ n) :
    (∃ g' v, determine_best_move n game 'O' = some (g', v) ∧
      (∃ r c : Fin 3, is_cell_empty game.grid c r = true ∧
        simulate_move n game c r 'O' = some v) ∧
      (∀ r c : Fin 3, is_cell_empty game.grid c r = true →
        ∃ w, simulate_move n game c r 'O' = some w ∧ w ≤ v)) ∧
    (∃ g' v, determine_best_move n game 'X' = some (g', v) ∧
      (∃ r c : Fin 3, is_cell_empty game.grid c r = true ∧
        simulate_move n game c r 'X' = some v) ∧
      (∀ r c : Fin 3, is_cell_empty game.grid c r = true →
        ∃ w, simulate_move n game c r 'X' = some w ∧ v ≤ w)) := by
  constructor
  · refine ⟨(finish game 'O' (scan_result game 'O')).1, score game 'O', ?_, ?_, ?_⟩
    · rw [determine_best_move_eq game 'O' (by decide) n hn, score_eq game 'O' (by decide),
        ← finish_snd game 'O']
    · obtain ⟨r, c, he, hv⟩ := score_attained game 'O' (Or.inr rfl) hempty
      exact ⟨r, c, he, by rw [simulate_move_eq game c r 'O' (by decide) he n (by omega), hv]⟩
    · intro r c he
      refine ⟨_, simulate_move_eq game c r 'O' (by decide) he n (by omega), ?_⟩
      have := score_best game 'O' (Or.inr rfl) r c he
      rw [sgn_O] at this
      omega
  · refine ⟨(finish game 'X' (scan_result game 'X')).1, score game 'X', ?_, ?_, ?_⟩
    · rw [determine_best_move_eq game 'X' (by decide) n hn, score_eq game 'X' (by decide),
        ← finish_snd game 'X']
    · obtain ⟨r, c, he, hv⟩ := score_attained game 'X' (Or.inl rfl) hempty
      exact ⟨r, c, he, by rw [simulate_move_eq game c r 'X' (by decide) he n (by omega), hv]⟩
    · intro r c he
      refine ⟨_, simulate_move_eq game c r 'X' (by decide) he n (by omega), ?_⟩
      have := score_best game 'X' (Or.inl rfl) r c he
      rw [sgn_X] at this
      omega

/-- Witness of C14: the empty board with fuel 19. -/
theorem selection_rule_value_witness :
    (is_cell_empty init_grid 0 0 = true ∧ 19 ≤ 19) ∧
    ((∃ g' v, determine_best_move 19 ⟨init_grid⟩ 'O' = some (g', v) ∧
      (∃ r c : Fin 3, is_cell_empty init_grid c r = true ∧
        simulate_move 19 ⟨init_grid⟩ c r 'O' = some v) ∧
      (∀ r c : Fin 3, is_cell_empty init_grid c r = true →
        ∃ w, simulate_move 19 ⟨init_grid⟩ c r 'O' = some w ∧ w ≤ v)) ∧
    (∃ g' v, determine_best_move 19 ⟨init_grid⟩ 'X' = some (g', v) ∧
      (∃ r c : Fin 3, is_cell_empty init_grid c r = true ∧
        simulate_move 19 ⟨init_grid⟩ c r 'X' = some v) ∧
      (∀ r c : Fin 3, is_cell_empty init_grid c r = true →
        ∃ w, simulate_move 19 ⟨init_grid⟩ c r 'X' = some w ∧ v ≤ w))) :=
  ⟨⟨by decide, le_refl _⟩,
    selection_rule_value ⟨init_grid⟩ ⟨0, 0, by decide⟩ 19 (le_refl _)⟩

/-- The result of `determine_best_move` in terms of the first-match rule:
either the board is returned as it is, with the initial bound, or the mark
goes to the cell `p` that `scan_fold_first` describes. -/
theorem determine_best_move_cases (game : NoughtsCrossesGame) (s : Char)
    (hs : s = 'X' ∨ s = 'O') (n : Nat) (hn : 19 ≤ n) :
    determine_best_move n game s = some (game, start_bound s) ∨
    ∃ pre p post, cells = pre ++ p :: post ∧ is_cell_empty game.grid p.2 p.1 = true ∧
      determine_best_move n game s =
        some (⟨make_move game.grid p.2 p.1 s⟩, outcome game p.2 p.1 s) ∧
      outcome game p.2 p.1 s = score game s ∧
      (∀ q ∈ pre, is_cell_empty game.grid q.2 q.1 = true →
        sgn s * outcome game q.2 q.1 s < sgn s * outcome game p.2 p.1 s) ∧
      (∀ q ∈ post, is_cell_empty game.grid q.2 q.1 = true →
        sgn s * outcome game q.2 q.1 s ≤ sgn s * outcome game p.2 p.1 s) := by
  have hne := symbol_ne_blank s hs
  rcases scan_fold_first (fun col row => outcome game col row s) game s hs cells
    ⟨start_bound s, none⟩ with hk | ⟨pre, p, post, hl, hpe, hres, _, hpre, hpost⟩
  · left
    rw [determine_best_move_eq game s hne n hn, scan_result, hk]
    rfl
  · right
    refine ⟨pre, p, post, hl, hpe, ?_, ?_, hpre, hpost⟩
    · rw [determine_best_move_eq game s hne n hn, scan_result, hres]
      rfl
    · rw [score_eq game s hne, scan_result, hres]

/-- C15: whenever `determine_best_move (board, s)` places a mark, the cell it
fills is the first empty cell in row-major order whose `simulate_move` score
equals the best score over all empty cells (maximum for O, minimum for X):
every empty cell before it has a different score, and the score returned is
that of the filled cell. -/
theorem first_match_tie_break (game : NoughtsCrossesGame) (s : Char)
    (hs : s = 'X' ∨ s = 'O') (n : Nat) (hn : 19 ≤ n) :
    ∃ g' v, determine_best_move n game s = some (g', v) ∧
      (g' ≠ game →
        ∃ pre p post, cells = pre ++ p :: post ∧
          is_cell_empty game.grid p.2 p.1 = true ∧
          g' = ⟨make_move game.grid p.2 p.1 s⟩ ∧
          simulate_move n game p.2 p.1 s = some v ∧
          (∀ r c : Fin 3, is_cell_empty game.grid c r = true →
            ∃ w, simulate_move n game c r s = some w ∧
              (s = 'O' → w ≤ v) ∧ (s = 'X' → v ≤ w)) ∧
          (∀ q ∈ pre, is_cell_empty game.grid q.2 q.1 = true →
            ∃ w, simulate_move n game q.2 q.1 s = some w ∧ w ≠ v)) := by
  have hne := symbol_ne_blank s hs
  rcases determine_best_move_cases game s hs n hn with hk |
    ⟨pre, p, post, hl, hpe, hres, hbest, hpre, _⟩
  · exact ⟨game, start_bound s, hk, fun h => absurd rfl h⟩
  · refine ⟨_, _, hres, fun _ => ⟨pre, p, post, hl, hpe, rfl,
      simulate_move_eq game p.2 p.1 s hne hpe n (by omega), ?_, ?_⟩⟩
    · intro r c he
      refine ⟨_, simulate_move_eq game c r s hne he n (by omega), ?_, ?_⟩
      · rintro rfl
        have := score_best game 'O' (Or.inr rfl) r c he
        rw [sgn_O, ← hbest] at this
        omega
      · rintro rfl
        have := score_best game 'X' (Or.inl rfl) r c he
        rw [sgn_X, ← hbest] at this
        omega
    · intro q hq he
      refine ⟨_, simulate_move_eq game q.2 q.1 s hne he n (by omega), ?_⟩
      intro heq
      have := hpre q hq he
      rw [heq] at this
      exact lt_irrefl _ this

/-- Witness of C15: the scenario board with X to move, fuel 19. -/
theorem first_match_tie_break_witness :
    (('X' = 'X' ∨ 'X' = 'O') ∧ 19 ≤ 19) ∧
    ∃ g' v, determine_best_move 19 ⟨row_scenario⟩ 'X' = some (g', v) ∧
      (g' ≠ ⟨row_scenario⟩ →
        ∃ pre p post, cells = pre ++ p :: post ∧
          is_cell_empty row_scenario p.2 p.1 = true ∧
          g' = ⟨make_move row_scenario p.2 p.1 'X'⟩ ∧
          simulate_move 19 ⟨row_scenario⟩ p.2 p.1 'X' = some v ∧
          (∀ r c : Fin 3, is_cell_empty row_scenario c r = true →
            ∃ w, simulate_move 19 ⟨row_scenario⟩ c r 'X' = some w ∧
              ('X' = 'O' → w ≤ v) ∧ ('X' = 'X' → v ≤ w)) ∧
          (∀ q ∈ pre, is_cell_empty row_scenario q.2 q.1 = true →
            ∃ w, simulate_move 19 ⟨row_scenario⟩ q.2 q.1 'X' = some w ∧ w ≠ v)) :=
  ⟨⟨Or.inl rfl, le_refl _⟩,
    first_match_tie_break ⟨row_scenario⟩ 'X' (Or.inl rfl) 19 (le_refl _)⟩

/-- C16: on every board whose counter is below `INT_MAX` (so that the
increment of the C `int` does not overflow), `determine_best_move (board, s)`
either leaves the board entirely unchanged, or changes exactly one cell,
which was `'_'` before and holds `s` after, and increases `total_moves` by
exactly 1, to a value that is again a C `int`; it never overwrites an
occupied cell, and it preserves `total_moves = number of non-empty cells`. -/
theorem determine_best_move_frame (game : NoughtsCrossesGame) (s : Char)
    (hs : s = 'X' ∨ s = 'O') (hc : game.grid.total_moves < INT_MAX)
    (n : Nat) (hn : 19 ≤ n) :
    ∃ g' v, determine_best_move n game s = some (g', v) ∧
      (g' = game ∨
        ∃ r c : Fin 3, game.grid.grid r c = '_' ∧ g'.grid.grid r c = s ∧
          (∀ r' c' : Fin 3, (r', c') ≠ (r, c) → g'.grid.grid r' c' = game.grid.grid r' c') ∧
          g'.grid.total_moves = game.grid.total_moves + 1) ∧
      g'.grid.total_moves ≤ INT_MAX ∧
      (∀ r c : Fin 3, game.grid.grid r c ≠ '_' → g'.grid.grid r c = game.grid.grid r c) ∧
      (game.grid.total_moves = occupied game.grid →
        g'.grid.total_moves = occupied g'.grid) := by
  have hne := symbol_ne_blank s hs
  rcases determine_best_move_cases game s hs n hn with hk |
    ⟨_, p, _, _, hpe, hres, _, _, _⟩
  · exact ⟨game, start_bound s, hk, Or.inl rfl, le_of_lt hc, fun _ _ _ => rfl, fun h => h⟩
  · have hcell : game.grid.grid p.1 p.2 = '_' := by
      simpa [is_cell_empty] using hpe
    refine ⟨_, _, hres, Or.inr ⟨p.1, p.2, hcell, by simp [make_move], ?_, rfl⟩, ?_, ?_, ?_⟩
    · intro r' c' hne'
      have : ¬ (r' = p.1 ∧ c' = p.2) := fun h => hne' (by rw [h.1, h.2])
      simp [make_move, this]
    · show game.grid.total_moves + 1 ≤ INT_MAX
      omega
    · intro r c hocc
      have : ¬ (r = p.1 ∧ c = p.2) := fun h => hocc (by rw [h.1, h.2]; exact hcell)
      simp [make_move, this]
    · intro hinv
      simp only
      rw [occupied_make_move game.grid p.2 p.1 s hpe hne]
      simp only [make_move, hinv, Nat.cast_add, Nat.cast_one]

/-- Witness of C16: the scenario board with X to move, fuel 19. -/
theorem determine_best_move_frame_witness :
    (('X' = 'X' ∨ 'X' = 'O') ∧ row_scenario.total_moves < INT_MAX ∧ 19 ≤ 19) ∧
    ∃ g' v, determine_best_move 19 ⟨row_scenario⟩ 'X' = some (g', v) ∧
      (g' = ⟨row_scenario⟩ ∨
        ∃ r c : Fin 3, row_scenario.grid r c = '_' ∧ g'.grid.grid r c = 'X' ∧
          (∀ r' c' : Fin 3, (r', c') ≠ (r, c) → g'.grid.grid r' c' = row_scenario.grid r' c') ∧
          g'.grid.total_moves = row_scenario.total_moves + 1) ∧
      g'.grid.total_moves ≤ INT_MAX ∧
      (∀ r c : Fin 3, row_scenario.grid r c ≠ '_' → g'.grid.grid r c = row_scenario.grid r c) ∧
      (row_scenario.total_moves = occupied row_scenario →
        g'.grid.total_moves = occupied g'.grid) :=
  ⟨⟨Or.inl rfl, by decide, le_refl _⟩,
    determine_best_move_frame ⟨row_scenario⟩ 'X' (Or.inl rfl) (by decide) 19 (le_refl _)⟩

/-! ## Termination -/

/-- The scan depends on the scores of the empty cells only. -/
theorem scan_step_congr (sim1 sim2 : Fin 3 → Fin 3 → Option Int)
    (game : NoughtsCrossesGame) (symbol : Char) (l : List (Fin 3 × Fin 3))
    (h : ∀ p ∈ l, is_cell_empty game.grid p.2 p.1 = true → sim1 p.2 p.1 = sim2 p.2 p.1)
    (acc : Option Best) :
    l.foldl (scan_step sim1 game symbol) acc = l.foldl (scan_step sim2 game symbol) acc := by
  induction l generalizing acc with
  | nil => rfl
  | cons p l ih =>
    have hstep : scan_step sim1 game symbol acc p = scan_step sim2 game symbol acc p := by
      cases acc with
      | none => rfl
      | some st =>
        by_cases he : is_cell_empty game.grid p.2 p.1 = true
        · simp only [scan_step, he, if_true, h p (List.mem_cons_self _ _) he]
        · simp [scan_step, he]
    rw [List.foldl_cons, List.foldl_cons, hstep]
    exact ih (fun q hq => h q (List.mem_cons_of_mem _ hq)) _

/-- C17: the mutual recursion `determine_best_move` / `simulate_move`
terminates on every board and symbol (X or O), whatever `total_moves` is:
`determine_best_move` returns one and the same result for every fuel from
`2 * empties + 1` on (each level of the recursion takes two units, one for
`determine_best_move` and one for `simulate_move`), so the depth is at most
the number of empty cells, which is at most 9 (fuel 19). `simulate_move` is
only invoked on an empty cell (making it fail on every other cell changes
nothing), it returns on every empty cell, and the one recursive call it makes
to `determine_best_move` receives a board with exactly one fewer empty cell
than its caller's board, with a symbol that is again X or O. -/
theorem recursion_terminates (game : NoughtsCrossesGame) (symbol : Char)
    (hs : symbol = 'X' ∨ symbol = 'O') :
    (∃ r, ∀ n, 2 * empties game.grid + 1 ≤ n → determine_best_move n game symbol = some r) ∧
    empties game.grid ≤ 9 ∧
    (∃ r, ∀ n, 19 ≤ n → determine_best_move n game symbol = some r) ∧
    (∀ n, determine_best_move (n + 1) game symbol =
      (cells.foldl (scan_step (fun col row =>
          if is_cell_empty game.grid col row then simulate_move n game col row symbol
          else none) game symbol)
        (some ⟨start_bound symbol, none⟩)).map (finish game symbol)) ∧
    (∀ col row : Fin 3, is_cell_empty game.grid col row = true →
      (∃ v, ∀ n, 2 * empties game.grid ≤ n → simulate_move n game col row symbol = some v) ∧
      (∀ n, simulate_move (n + 1) game col row symbol =
        if has_player_won (make_move (copy_grid game.grid) col row symbol) symbol then
          some (win_score symbol)
        else if is_grid_full (make_move (copy_grid game.grid) col row symbol) then some 0
        else (determine_best_move n ⟨make_move (copy_grid game.grid) col row symbol⟩
          (switch_player symbol)).map (fun r => r.2)) ∧
      empties (make_move (copy_grid game.grid) col row symbol) + 1 = empties game.grid ∧
      (switch_player symbol = 'X' ∨ switch_player symbol = 'O')) := by
  have hne := symbol_ne_blank symbol hs
  refine ⟨fuel_enough (empties game.grid) game symbol hne (le_refl _), empties_le _,
    fuel_enough 9 game symbol hne (empties_le _), fun n => ?_, fun col row he => ?_⟩
  · rw [determine_best_move_succ]
    congr 1
    apply scan_step_congr
    intro p _ he
    simp only [he, if_true]
  · have hcount := empties_make_move game.grid col row symbol he hne
    obtain ⟨r, hr⟩ := fuel_enough (empties game.grid - 1)
      ⟨make_move game.grid col row symbol⟩ (switch_player symbol) (switch_player_ne symbol)
      (by simp only; omega)
    exact ⟨⟨_, fun n hn => sim_of_dbm (2 * (empties game.grid - 1) + 1) game col row symbol
      r hr n (by omega)⟩, fun n => simulate_move_succ n game col row symbol, hcount,
      switch_player_mem symbol⟩

/-- Witness of C17: the empty board with X to move. -/
theorem recursion_terminates_witness :
    ('X' = 'X' ∨ 'X' = 'O') ∧
    ((∃ r, ∀ n, 2 * empties init_grid + 1 ≤ n →
      determine_best_move n ⟨init_grid⟩ 'X' = some r) ∧
    empties init_grid ≤ 9 ∧
    (∃ r, ∀ n, 19 ≤ n → determine_best_move n ⟨init_grid⟩ 'X' = some r) ∧
    (∀ n, determine_best_move (n + 1) ⟨init_grid⟩ 'X' =
      (cells.foldl (scan_step (fun col row =>
          if is_cell_empty init_grid col row then simulate_move n ⟨init_grid⟩ col row 'X'
          else none) ⟨init_grid⟩ 'X')
        (some ⟨start_bound 'X', none⟩)).map (finish ⟨init_grid⟩ 'X')) ∧
    (∀ col row : Fin 3, is_cell_empty init_grid col row = true →
      (∃ v, ∀ n, 2 * empties init_grid ≤ n →
        simulate_move n ⟨init_grid⟩ col row 'X' = some v) ∧
      (∀ n, simulate_move (n + 1) ⟨init_grid⟩ col row 'X' =
        if has_player_won (make_move (copy_grid init_grid) col row 'X') 'X' then
          some (win_score 'X')
        else if is_grid_full (make_move (copy_grid init_grid) col row 'X') then some 0
        else (determine_best_move n ⟨make_move (copy_grid init_grid) col row 'X'⟩
          (switch_player 'X')).map (fun r => r.2)) ∧
      empties (make_move (copy_grid init_grid) col row 'X') + 1 = empties init_grid ∧
      (switch_player 'X' = 'X' ∨ switch_player 'X' = 'O'))) :=
  ⟨Or.inl rfl, recursion_terminates ⟨init_grid⟩ 'X' (Or.inl rfl)⟩

/-! ## The search in memory: simulate_move leaves the caller's board alone -/

theorem write_same (m : Memory) (a : Nat) (g : NoughtsCrossesGame) : write m a g a = g := by
  simp [write]

theorem write_other (m : Memory) (a b : Nat) (g : NoughtsCrossesGame) (h : b ≠ a) :
    write m a g b = m b := by
  simp [write, h]

/-- One unit of fuel unfolds `determine_best_move_mem` into its scan and its end. -/
theorem determine_best_move_mem_succ (n : Nat) (m : Memory) (top game : Nat) (symbol : Char) :
    determine_best_move_mem (n + 1) m top game symbol =
      (cells.foldl (mem_step (fun mem col row =>
          simulate_move_mem n mem top game col row symbol) game symbol)
        (some (m, ⟨start_bound symbol, none⟩))).map (mem_finish game symbol) := by
  have key : determine_best_move_mem (n + 1) m top game symbol =
      match cells.foldl (mem_step (fun mem col row =>
          simulate_move_mem n mem top game col row symbol) game symbol)
          (some (m, ⟨start_bound symbol, none⟩)) with
      | none => none
      | some (mem, st) =>
        match st.bestMove with
        | some (bestMoveRow, bestMoveCol) =>
          some (write mem game ⟨make_move (mem game).grid bestMoveCol bestMoveRow symbol⟩,
            st.bestOutcome)
        | none => some (mem, st.bestOutcome) := by
    rw [determine_best_move_mem]
    rfl
  rw [key]
  cases cells.foldl (mem_step (fun mem col row =>
      simulate_move_mem n mem top game col row symbol) game symbol)
      (some (m, ⟨start_bound symbol, none⟩)) with
  | none => rfl
  | some r =>
    obtain ⟨mem, v, mv⟩ := r
    cases mv with
    | none => rfl
    | some p => rfl

/-- One unit of fuel unfolds `simulate_move_mem`. -/
theorem simulate_move_mem_succ (n : Nat) (m : Memory) (top game : Nat) (col row : Fin 3)
    (symbol : Char) :
    simulate_move_mem (n + 1) m top game col row symbol =
      if has_player_won (make_move (m game).grid col row symbol) symbol then
        some (write (write m top ⟨copy_grid (m game).grid⟩) top
          ⟨make_move (m game).grid col row symbol⟩, win_score symbol)
      else if is_grid_full (make_move (m game).grid col row symbol) then
        some (write (write m top ⟨copy_grid (m game).grid⟩) top
          ⟨make_move (m game).grid col row symbol⟩, 0)
      else determine_best_move_mem n (write (write m top ⟨copy_grid (m game).grid⟩) top
          ⟨make_move (m game).grid col row symbol⟩) (top + 1) top (switch_player symbol) := by
  rw [simulate_move_mem]
  simp only [write_same, copy_grid, win_score, DRAW]
  split <;> [split <;> simp_all; rfl]

/-- The scan in memory follows the scan on the value `m game`, and keeps every
object below `top` as it is in `m`, provided each `simulate_move_mem` does. -/
theorem mem_fold_refines (n top game : Nat) (s : Char) (m : Memory)
    (hsim : ∀ (mem : Memory) (col row : Fin 3), (∀ b, b < top → mem b = m b) →
      (simulate_move_mem n mem top game col row s).map (fun r => r.2) =
        simulate_move n (m game) col row s ∧
      ∀ r, simulate_move_mem n mem top game col row s = some r → ∀ b, b < top → r.1 b = m b)
    (hg : game < top) (l : List (Fin 3 × Fin 3)) :
    ∀ (af : Option Best) (am : Option (Memory × Best)),
      am.map (fun r => r.2) = af → (∀ r, am = some r → ∀ b, b < top → r.1 b = m b) →
      (l.foldl (mem_step (fun mem col row => simulate_move_mem n mem top game col row s)
          game s) am).map (fun r => r.2) =
        l.foldl (scan_step (fun col row => simulate_move n (m game) col row s) (m game) s) af ∧
      ∀ r, l.foldl (mem_step (fun mem col row => simulate_move_mem n mem top game col row s)
          game s) am = some r → ∀ b, b < top → r.1 b = m b := by
  induction l with
  | nil => exact fun af am h1 h2 => ⟨h1, h2⟩
  | cons p l ih =>
    intro af am h1 h2
    rw [List.foldl_cons, List.foldl_cons]
    apply ih
    · cases am with
      | none =>
        simp only [Option.map_none'] at h1
        rw [← h1]
        rfl
      | some r =>
        obtain ⟨mem, st⟩ := r
        simp only [Option.map_some'] at h1
        rw [← h1]
        have hmem := h2 (mem, st) rfl
        have hgame : mem game = m game := hmem game hg
        obtain ⟨hv, _⟩ := hsim mem p.2 p.1 hmem
        simp only [mem_step, scan_step, hgame]
        by_cases he : is_cell_empty (m game).grid p.2 p.1 = true
        · simp only [he, if_true]
          rw [← hv]
          cases simulate_move_mem n mem top game p.2 p.1 s with
          | none => rfl
          | some r2 =>
            obtain ⟨mem2, v⟩ := r2
            simp only [Option.map_some']
            split <;> rfl
        · simp only [he]
          rfl
    · intro r hr b hb
      cases am with
      | none => simp [mem_step] at hr
      | some r0 =>
        obtain ⟨mem, st⟩ := r0
        have hmem := h2 (mem, st) rfl
        have hgame : mem game = m game := hmem game hg
        obtain ⟨_, hfr⟩ := hsim mem p.2 p.1 hmem
        simp only [mem_step, hgame] at hr
        by_cases he : is_cell_empty (m game).grid p.2 p.1 = true
        · simp only [he, if_true] at hr
          cases hsm : simulate_move_mem n mem top game p.2 p.1 s with
          | none => simp [hsm] at hr
          | some r2 =>
            obtain ⟨mem2, v⟩ := r2
            have := hfr (mem2, v) hsm b hb
            simp only [hsm] at hr
            split at hr <;>
              (simp only [Option.some.injEq] at hr; rw [← hr]; exact this)
        · simp only [he] at hr
          simp only [Bool.false_eq_true, if_false, Option.some.injEq] at hr
          rw [← hr]
          exact hmem b hb

/-- Refinement and frame: on a board at an address below the stack top, the
two functions in memory return the scores of `simulate_move` and
`determine_best_move` on the value of the board; `simulate_move_mem` leaves
every object below `top` as it was, and `determine_best_move_mem` changes only
the board it is given, into the board `determine_best_move` returns. -/
theorem mem_refines (n : Nat) : ∀ (m : Memory) (top game : Nat) (s : Char), game < top →
    (∀ col row : Fin 3,
      (simulate_move_mem n m top game col row s).map (fun r => r.2) =
        simulate_move n (m game) col row s ∧
      ∀ r, simulate_move_mem n m top game col row s = some r → ∀ b, b < top → r.1 b = m b) ∧
    ((determine_best_move_mem n m top game s).map (fun r => (r.1 game, r.2)) =
        determine_best_move n (m game) s ∧
      ∀ r, determine_best_move_mem n m top game s = some r →
        ∀ b, b < top → b ≠ game → r.1 b = m b) := by
  induction n with
  | zero =>
    intro m top game s _
    refine ⟨fun col row => ⟨?_, ?_⟩, ?_, ?_⟩
    · rw [simulate_move_mem, simulate_move]
      rfl
    · intro r hr
      rw [simulate_move_mem] at hr
      exact absurd hr (by simp)
    · rw [determine_best_move_mem, determine_best_move]
      rfl
    · intro r hr
      rw [determine_best_move_mem] at hr
      exact absurd hr (by simp)
  | succ n ih =>
    intro m top game s hg
    have hne : game ≠ top := Nat.ne_of_lt hg
    constructor
    · intro col row
      have hfr : ∀ b, b < top →
          write (write m top ⟨copy_grid (m game).grid⟩) top
            ⟨make_move (m game).grid col row s⟩ b = m b := by
        intro b hb
        rw [write_other _ _ _ _ (Nat.ne_of_lt hb), write_other _ _ _ _ (Nat.ne_of_lt hb)]
      obtain ⟨hval, hframe⟩ := (ih (write (write m top ⟨copy_grid (m game).grid⟩) top
        ⟨make_move (m game).grid col row s⟩) (top + 1) top (switch_player s)
        (Nat.lt_succ_self top)).2
      rw [write_same] at hval
      rw [simulate_move_mem_succ, simulate_move_succ]
      constructor
      · split
        · rfl
        · split
          · rfl
          · rw [← hval, Option.map_map]
            rfl
      · intro r hr b hb
        split at hr
        · simp only [Option.some.injEq] at hr
          rw [← hr]
          exact hfr b hb
        · split at hr
          · simp only [Option.some.injEq] at hr
            rw [← hr]
            exact hfr b hb
          · rw [hframe r hr b (Nat.lt_succ_of_lt hb) (Nat.ne_of_lt hb)]
            exact hfr b hb
    · have hfold := mem_fold_refines n top game s m
        (fun mem col row hmem => by
          obtain ⟨h1, h2⟩ := (ih mem top game s hg).1 col row
          rw [hmem game hg] at h1
          exact ⟨h1, fun r hr b hb => (h2 r hr b hb).trans (hmem b hb)⟩)
        hg cells (some ⟨start_bound s, none⟩) (some (m, ⟨start_bound s, none⟩)) rfl
        (fun r hr b _ => by
          simp only [Option.some.injEq] at hr
          rw [← hr])
      obtain ⟨hv, hf⟩ := hfold
      rw [determine_best_move_mem_succ, determine_best_move_succ, ← hv]
      constructor
      · cases hres : cells.foldl (mem_step (fun mem col row =>
            simulate_move_mem n mem top game col row s) game s)
            (some (m, ⟨start_bound s, none⟩)) with
        | none => rfl
        | some r =>
          obtain ⟨mem, st⟩ := r
          have hgame : mem game = m game := hf (mem, st) hres game hg
          obtain ⟨v, mv⟩ := st
          cases mv with
          | none =>
            simp only [Option.map_some', mem_finish, finish, hgame]
          | some p =>
            simp only [Option.map_some', mem_finish, finish, write_same, hgame]
      · intro r hr b hb hbg
        cases hres : cells.foldl (mem_step (fun mem col row =>
            simulate_move_mem n mem top game col row s) game s)
            (some (m, ⟨start_bound s, none⟩)) with
        | none =>
          rw [hres] at hr
          exact absurd hr (by simp)
        | some r0 =>
          obtain ⟨mem, st⟩ := r0
          have hmem := hf (mem, st) hres b hb
          rw [hres] at hr
          obtain ⟨v, mv⟩ := st
          cases mv with
          | none =>
            simp only [Option.map_some', mem_finish, Option.some.injEq] at hr
            rw [← hr]
            exact hmem
          | some p =>
            simp only [Option.map_some', mem_finish, Option.some.injEq] at hr
            rw [← hr]
            simp only
            rw [write_other _ _ _ _ hbg]
            exact hmem

/-- A board with an occupied cell has at most eight empty cells. -/
theorem empties_le_eight (g : NoughtsCrossesGrid) (r c : Fin 3) (h : g.grid r c ≠ '_') :
    empties g ≤ 8 := by
  have hocc : 0 < occupied g := by
    unfold occupied
    rw [List.countP_pos_iff]
    exact ⟨(r, c), mem_cells _, by simpa using h⟩
  have := empties_add_occupied g
  omega

/-- With a symbol other than `'_'`, `simulate_move` returns one and the same
score for every fuel from 18 on, on every cell, empty or not. -/
theorem simulate_move_any (game : NoughtsCrossesGame) (col row : Fin 3) (s : Char)
    (hs : s ≠ '_') : ∃ v, ∀ n, 18 ≤ n → simulate_move n game col row s = some v := by
  have hle : empties (make_move game.grid col row s) ≤ 8 :=
    empties_le_eight _ row col (by simp [make_move, hs])
  obtain ⟨r, hr⟩ := fuel_enough 8 ⟨make_move game.grid col row s⟩ (switch_player s)
    (switch_player_ne s) hle
  exact ⟨_, fun n hn => sim_of_dbm 17 game col row s r hr n hn⟩

/-- C12: `simulate_move` does not change the caller's board. With the boards
held in memory, the call returns a score and leaves the object at the caller's
address (every cell and `total_moves`), and every other object below the
stack top, as it was; the score is that of `simulate_move` on the value of
the board, and a second call with the same inputs, made in the memory the
first call leaves, returns the same score. -/
theorem simulate_move_pure (m : Memory) (top game : Nat) (hg : game < top)
    (col row : Fin 3) (s : Char) (hs : s = 'X' ∨ s = 'O') (n : Nat) (hn : 19 ≤ n) :
    ∃ m' v, simulate_move_mem n m top game col row s = some (m', v) ∧
      (∀ r c : Fin 3, (m' game).grid.grid r c = (m game).grid.grid r c) ∧
      (m' game).grid.total_moves = (m game).grid.total_moves ∧
      (∀ b, b < top → m' b = m b) ∧
      simulate_move n (m game) col row s = some v ∧
      ∃ m'', simulate_move_mem n m' top game col row s = some (m'', v) := by
  obtain ⟨v, hv⟩ := simulate_move_any (m game) col row s (symbol_ne_blank s hs)
  obtain ⟨h1, h2⟩ := (mem_refines n m top game s hg).1 col row
  rw [hv n (by omega)] at h1
  cases hres : simulate_move_mem n m top game col row s with
  | none =>
    rw [hres] at h1
    exact absurd h1 (by simp)
  | some r =>
    obtain ⟨m', w⟩ := r
    rw [hres] at h1
    simp only [Option.map_some', Option.some.injEq] at h1
    subst h1
    have hframe := h2 (m', w) hres
    simp only at hframe
    obtain ⟨h3, _⟩ := (mem_refines n m' top game s hg).1 col row
    rw [hframe game hg, hv n (by omega)] at h3
    refine ⟨m', w, rfl, fun r c => by rw [hframe game hg], by rw [hframe game hg], hframe,
      hv n (by omega), ?_⟩
    cases hres2 : simulate_move_mem n m' top game col row s with
    | none =>
      rw [hres2] at h3
      exact absurd h3 (by simp)
    | some r2 =>
      obtain ⟨m'', u⟩ := r2
      rw [hres2] at h3
      simp only [Option.map_some', Option.some.injEq] at h3
      subst h3
      exact ⟨m'', rfl⟩

/-- Witness of C12: the scenario board at address 0, stack top 1, X at
(row 2, col 2), fuel 19. -/
theorem simulate_move_pure_witness :
    ((0 : Nat) < 1 ∧ ('X' = 'X' ∨ 'X' = 'O') ∧ 19 ≤ 19) ∧
    ∃ m' v, simulate_move_mem 19 (fun _ => ⟨row_scenario⟩) 1 0 2 2 'X' = some (m', v) ∧
      (∀ r c : Fin 3, (m' 0).grid.grid r c = row_scenario.grid r c) ∧
      (m' 0).grid.total_moves = row_scenario.total_moves ∧
      (∀ b, b < 1 → m' b = ⟨row_scenario⟩) ∧
      simulate_move 19 ⟨row_scenario⟩ 2 2 'X' = some v ∧
      ∃ m'', simulate_move_mem 19 m' 1 0 2 2 'X' = some (m'', v) :=
  ⟨⟨by decide, Or.inl rfl, le_refl _⟩,
    simulate_move_pure (fun _ => ⟨row_scenario⟩) 1 0 (by decide) 2 2 'X' (Or.inl rfl) 19
      (le_refl _)⟩

/-! ## The game loop -/

/-- The cell `get_user_move` returns is empty. -/
theorem get_user_move_empty (g : NoughtsCrossesGrid) (inputs : List (Int × Int))
    (col row : Fin 3) (rest : List (Int × Int))
    (h : get_user_move g inputs = some (col, row, rest)) :
    is_cell_empty g col row = true := by
  induction inputs with
  | nil => simp [get_user_move] at h
  | cons p l ih =>
    rw [get_user_move] at h
    split at h
    · split at h
      · simp only [Option.some.injEq, Prod.mk.injEq] at h
        obtain ⟨rfl, rfl, _⟩ := h
        assumption
      · exact ih h
    · exact ih h

/-- The score `determine_best_move` returns is `score`. -/
theorem determine_best_move_score (game : NoughtsCrossesGame) (s : Char) (hs : s ≠ '_')
    (n : Nat) (hn : 19 ≤ n) (r : NoughtsCrossesGame × Int)
    (h : determine_best_move n game s = some r) : r.2 = score game s := by
  rw [determine_best_move_eq game s hs n hn] at h
  simp only [Option.some.injEq] at h
  rw [← h, finish_snd, score_eq game s hs]

/-- A move of X from a position that X cannot win by force: it makes no line
of X, keeps the counter equal to the marks, and leaves O a score of at least
0 unless the board is full. -/
theorem x_move_safe (game : NoughtsCrossesGame) (col row : Fin 3)
    (hscore : 0 ≤ score game 'X') (hinv : game.grid.total_moves = occupied game.grid)
    (he : is_cell_empty game.grid col row = true) :
    has_player_won (make_move game.grid col row 'X') 'X' = false ∧
    (make_move game.grid col row 'X').total_moves =
      occupied (make_move game.grid col row 'X') ∧
    occupied (make_move game.grid col row 'X') = occupied game.grid + 1 ∧
    (is_grid_full (make_move game.grid col row 'X') = false →
      0 ≤ score ⟨make_move game.grid col row 'X'⟩ 'O') := by
  have hbest := score_best game 'X' (Or.inl rfl) row col he
  rw [sgn_X, outcome_eq game col row 'X' (by decide) he] at hbest
  have hocc := occupied_make_move game.grid col row 'X' he (by decide)
  have hw : has_player_won (make_move game.grid col row 'X') 'X' = false := by
    rw [← Bool.not_eq_true]
    intro hw
    rw [if_pos hw] at hbest
    have : win_score 'X' = -10 := rfl
    omega
  refine ⟨hw, ?_, hocc, ?_⟩
  · rw [hocc]
    simp only [make_move, hinv, Nat.cast_add, Nat.cast_one]
  · intro hf
    rw [hw, hf] at hbest
    simp only [Bool.false_eq_true, if_false] at hbest
    have : switch_player 'X' = 'O' := rfl
    rw [this] at hbest
    omega

/-- The reply of O from a position in which O has a score of at least 0: a
mark is placed on an empty cell, no line of X appears, the counter stays
equal to the marks, and X is left with a score of at least 0 unless O has
won or the board is full. -/
theorem o_reply_safe (g : NoughtsCrossesGrid) (n : Nat) (hn : 19 ≤ n)
    (hscore : 0 ≤ score ⟨g⟩ 'O') (hinv : g.total_moves = occupied g)
    (hX : has_player_won g 'X' = false) :
    ∃ r c : Fin 3, ∃ v : Int, is_cell_empty g c r = true ∧
      determine_best_move n ⟨g⟩ 'O' = some (⟨make_move g c r 'O'⟩, v) ∧
      has_player_won (make_move g c r 'O') 'X' = false ∧
      (make_move g c r 'O').total_moves = occupied (make_move g c r 'O') ∧
      occupied (make_move g c r 'O') = occupied g + 1 ∧
      (has_player_won (make_move g c r 'O') 'O' = false →
        is_grid_full (make_move g c r 'O') = false →
        0 ≤ score ⟨make_move g c r 'O'⟩ 'X') := by
  rcases determine_best_move_cases ⟨g⟩ 'O' (Or.inr rfl) n hn with hk |
    ⟨_, p, _, _, hpe, hres, hbest, _, _⟩
  · have := determine_best_move_score ⟨g⟩ 'O' (by decide) n hn _ hk
    have hsb : start_bound 'O' = -10 := rfl
    simp only [hsb] at this
    omega
  · have hocc := occupied_make_move g p.2 p.1 'O' hpe (by decide)
    refine ⟨p.1, p.2, _, hpe, hres, ?_, ?_, hocc, ?_⟩
    · rw [has_player_won_eq_has_line] at hX ⊢
      exact has_line_make_move_other g p.2 p.1 'O' 'X' (by decide) hX
    · rw [hocc]
      simp only [make_move, hinv, Nat.cast_add, Nat.cast_one]
    · intro hw hf
      rw [outcome_eq ⟨g⟩ p.2 p.1 'O' (by decide) hpe] at hbest
      simp only at hbest
      rw [hw, hf] at hbest
      simp only [Bool.false_eq_true, if_false] at hbest
      have : switch_player 'O' = 'X' := rfl
      rw [this] at hbest
      omega

/-- The loop of `play_game` from a board without a line of X, whose counter
equals its marks and on which X cannot win by force: no board shown has a
line of X and X never wins; every call of `determine_best_move` places one O
on an empty cell; the passes alternate X and O; there are few passes, and a
budget of passes that covers them is never exhausted. -/
theorem play_loop_spec (n : Nat) (hn : 19 ≤ n) (k : Nat) :
    ∀ (game : NoughtsCrossesGame) (inputs : List (Int × Int)),
      (is_grid_full game.grid = false → 0 ≤ score game 'X') →
      has_player_won game.grid 'X' = false →
      game.grid.total_moves = occupied game.grid →
      (∀ rd ∈ (play_loop n k game inputs).1,
        has_player_won rd.after_x 'X' = false ∧
        (∀ g2, rd.reply = some g2 → has_player_won g2 'X' = false) ∧
        (is_grid_full rd.after_x = false →
          ∃ r c : Fin 3, ∃ v : Int, is_cell_empty rd.after_x c r = true ∧
            determine_best_move n ⟨rd.after_x⟩ 'O' =
              some (⟨make_move rd.after_x c r 'O'⟩, v) ∧
            rd.reply = some (make_move rd.after_x c r 'O'))) ∧
      (play_loop n k game inputs).2 ≠ Ending.x_wins ∧
      alternating game.grid (play_loop n k game inputs).1 ∧
      2 * (play_loop n k game inputs).1.length + occupied game.grid ≤ 10 ∧
      (11 ≤ 2 * k + occupied game.grid →
        (play_loop n k game inputs).2 ≠ Ending.unfinished) := by
  induction k with
  | zero =>
    intro game inputs _ _ _
    have hocc := empties_add_occupied game.grid
    refine ⟨fun rd hrd => ?_, by simp [play_loop], by simp [play_loop, alternating], ?_, ?_⟩
    · simp [play_loop] at hrd
    · simp only [play_loop, List.length_nil]
      omega
    · intro h
      omega
  | succ k ih =>
    intro game inputs hscore hX hinv
    have hocc := empties_add_occupied game.grid
    rw [play_loop]
    by_cases hfull : is_grid_full game.grid = true
    · simp only [hfull, if_true]
      refine ⟨fun rd hrd => ?_, by simp, by simp [alternating], ?_, by simp⟩
      · simp at hrd
      · simp only [List.length_nil]
        omega
    · simp only [hfull]
      rw [Bool.not_eq_true] at hfull
      have hlt : occupied game.grid ≤ 8 := by
        have : ¬ game.grid.total_moves ≥ 9 := by simpa [is_grid_full] using hfull
        rw [hinv] at this
        omega
      cases hin : get_user_move game.grid inputs with
      | none =>
        refine ⟨fun rd hrd => ?_, by simp, by simp [alternating], ?_, by simp⟩
        · simp at hrd
        · simp only [Bool.false_eq_true, if_false, List.length_nil]
          omega
      | some t =>
        obtain ⟨col, row, rest⟩ := t
        have he := get_user_move_empty game.grid inputs col row rest hin
        obtain ⟨hw1, hinv1, hocc1, hscore1⟩ :=
          x_move_safe game col row (hscore hfull) hinv he
        simp only [Bool.false_eq_true, if_false, hw1]
        by_cases hf1 : is_grid_full (make_move game.grid col row 'X') = true
        · simp only [hf1, Bool.not_true, Bool.false_eq_true, if_false]
          obtain ⟨_, _, _, hlen, _⟩ := ih ⟨make_move game.grid col row 'X'⟩ rest
            (fun h => absurd hf1 (by simp [h])) hw1 hinv1
          have h9 : (make_move game.grid col row 'X').total_moves ≥ 9 := by
            simpa [is_grid_full] using hf1
          rw [hinv1] at h9
          have hnil : (play_loop n k ⟨make_move game.grid col row 'X'⟩ rest).1 = [] := by
            apply List.eq_nil_of_length_eq_zero
            simp only at hlen
            omega
          have hend : (play_loop n k ⟨make_move game.grid col row 'X'⟩ rest).2 ≠
              Ending.x_wins ∧ (11 ≤ 2 * k + occupied (make_move game.grid col row 'X') →
              (play_loop n k ⟨make_move game.grid col row 'X'⟩ rest).2 ≠ Ending.unfinished) := by
            obtain ⟨_, h2, _, _, h5⟩ := ih ⟨make_move game.grid col row 'X'⟩ rest
              (fun h => absurd hf1 (by simp [h])) hw1 hinv1
            exact ⟨h2, h5⟩
          refine ⟨fun rd hrd => ?_, hend.1, ?_, ?_, fun h => hend.2 (by omega)⟩
          · rw [hnil] at hrd
            simp only [List.mem_singleton] at hrd
            subst hrd
            exact ⟨hw1, fun g2 h => absurd h (by simp),
              fun h => absurd hf1 (by simp [h])⟩
          · rw [hnil]
            exact ⟨⟨row, col, he, rfl⟩, rfl⟩
          · rw [hnil]
            simp only [List.length_singleton]
            omega
        · simp only [hf1, Bool.not_false, if_true]
          rw [Bool.not_eq_true] at hf1
          obtain ⟨r, c, v, hce, hdbm, hw2, hinv2, hocc2, hscore2⟩ :=
            o_reply_safe (make_move game.grid col row 'X') n hn (hscore1 hf1) hinv1 hw1
          simp only [hdbm]
          by_cases hwo : has_player_won (make_move (make_move game.grid col row 'X') c r 'O')
              'O' = true
          · simp only [hwo, if_true]
            refine ⟨fun rd hrd => ?_, by simp, ?_, ?_, by simp⟩
            · simp only [List.mem_singleton] at hrd
              subst hrd
              refine ⟨hw1, fun g2 h => ?_, fun _ => ⟨r, c, v, hce, hdbm, rfl⟩⟩
              simp only [Option.some.injEq] at h
              rw [← h]
              exact hw2
            · exact ⟨⟨row, col, he, rfl⟩, ⟨r, c, hce, rfl⟩, trivial⟩
            · simp only [List.length_singleton]
              omega
          · simp only [hwo]
            rw [Bool.not_eq_true] at hwo
            obtain ⟨h1, h2, h3, h4, h5⟩ :=
              ih ⟨make_move (make_move game.grid col row 'X') c r 'O'⟩ rest
                (fun h => hscore2 hwo h) hw2 hinv2
            refine ⟨fun rd hrd => ?_, h2, ?_, ?_, fun h => h5 (by simp only; omega)⟩
            · simp only [Bool.false_eq_true, if_false, List.mem_cons] at hrd
              rcases hrd with rfl | hrd
              · refine ⟨hw1, fun g2 h => ?_, fun _ => ⟨r, c, v, hce, hdbm, rfl⟩⟩
                simp only [Option.some.injEq] at h
                rw [← h]
                exact hw2
              · exact h1 rd hrd
            · exact ⟨⟨row, col, he, rfl⟩, ⟨r, c, hce, rfl⟩, h3⟩
            · simp only [Bool.false_eq_true, if_false, List.length_cons]
              simp only at h4
              omega

/-- On a full board the loop is left at once, with "WE DREW!". -/
theorem play_loop_full (n k : Nat) (game : NoughtsCrossesGame) (inputs : List (Int × Int))
    (hfull : is_grid_full game.grid = true) :
    play_loop n (k + 1) game inputs = ([], Ending.drew) := by
  rw [play_loop, if_pos hfull]

/-- When the input holds no acceptable pair the run stays in `get_user_move`. -/
theorem play_loop_no_move (n k : Nat) (game : NoughtsCrossesGame) (inputs : List (Int × Int))
    (hfull : is_grid_full game.grid = false)
    (hin : get_user_move game.grid inputs = none) :
    play_loop n (k + 1) game inputs = ([], Ending.awaiting_input) := by
  rw [play_loop, hfull, hin]
  rfl

/-- A pass in which X fills the board: `determine_best_move` is not called and
the loop test comes next. -/
theorem play_loop_last_cell (n k : Nat) (game : NoughtsCrossesGame)
    (inputs rest : List (Int × Int)) (col row : Fin 3)
    (hfull : is_grid_full game.grid = false)
    (hin : get_user_move game.grid inputs = some (col, row, rest))
    (hw : has_player_won (make_move game.grid col row 'X') 'X' = false)
    (hf : is_grid_full (make_move game.grid col row 'X') = true) :
    play_loop n (k + 1) game inputs =
      (⟨make_move game.grid col row 'X', none⟩ ::
          (play_loop n k ⟨make_move game.grid col row 'X'⟩ rest).1,
        (play_loop n k ⟨make_move game.grid col row 'X'⟩ rest).2) := by
  rw [play_loop, hfull, hin]
  simp only [Bool.false_eq_true, if_false, hw, hf, Bool.not_true]

/-- A pass in which `determine_best_move` is called and returns `r`: the game
ends with "O WINS!" on a line of O, and goes on from the board of `r`
otherwise. -/
theorem play_loop_reply (n k : Nat) (game : NoughtsCrossesGame)
    (inputs rest : List (Int × Int)) (col row : Fin 3) (r : NoughtsCrossesGame × Int)
    (hfull : is_grid_full game.grid = false)
    (hin : get_user_move game.grid inputs = some (col, row, rest))
    (hw : has_player_won (make_move game.grid col row 'X') 'X' = false)
    (hf : is_grid_full (make_move game.grid col row 'X') = false)
    (hdbm : determine_best_move n ⟨make_move game.grid col row 'X'⟩ 'O' = some r) :
    play_loop n (k + 1) game inputs =
      if has_player_won r.1.grid 'O' then
        ([⟨make_move game.grid col row 'X', some r.1.grid⟩], Ending.o_wins)
      else
        (⟨make_move game.grid col row 'X', some r.1.grid⟩ :: (play_loop n k r.1 rest).1,
          (play_loop n k r.1 rest).2) := by
  rw [play_loop, hfull, hin]
  simp only [Bool.false_eq_true, if_false, hw, hf, Bool.not_false, if_true, hdbm]

/-- Where the loop of `play_game` stops, from a board without a line of X or of
O, whose counter equals its marks and on which X cannot win by force: X's
moves are those `get_user_move` returns; the board the passes end on has a
counter equal to its marks and no line of X; the run ends with "WE DREW!"
only on a full board without a line of O, with "O WINS!" only on a line of O,
and stays in `get_user_move` only on a board that is not full, has no line of
O, and on which the input that is left holds no acceptable pair. -/
theorem play_loop_ending (n : Nat) (hn : 19 ≤ n) (k : Nat) :
    ∀ (game : NoughtsCrossesGame) (inputs : List (Int × Int)),
      (is_grid_full game.grid = false → 0 ≤ score game 'X') →
      has_player_won game.grid 'X' = false →
      has_player_won game.grid 'O' = false →
      game.grid.total_moves = occupied game.grid →
      ∀ out : List Round × Ending, play_loop n k game inputs = out →
        reads_input game.grid inputs out.1 ∧
        (final_board game.grid out.1).total_moves = occupied (final_board game.grid out.1) ∧
        has_player_won (final_board game.grid out.1) 'X' = false ∧
        (out.2 = Ending.drew →
          is_grid_full (final_board game.grid out.1) = true ∧
          has_player_won (final_board game.grid out.1) 'O' = false) ∧
        (out.2 = Ending.o_wins → has_player_won (final_board game.grid out.1) 'O' = true) ∧
        (out.2 = Ending.awaiting_input →
          is_grid_full (final_board game.grid out.1) = false ∧
          has_player_won (final_board game.grid out.1) 'O' = false ∧
          get_user_move (final_board game.grid out.1)
            (inputs_left game.grid inputs out.1) = none) := by
  induction k with
  | zero =>
    intro game inputs _ hX _ hinv out hout
    rw [play_loop] at hout
    subst hout
    exact ⟨trivial, hinv, hX, fun h => absurd h (by decide), fun h => absurd h (by decide),
      fun h => absurd h (by decide)⟩
  | succ k ih =>
    intro game inputs hscore hX hO hinv out hout
    by_cases hfull : is_grid_full game.grid = true
    · rw [play_loop_full n k game inputs hfull] at hout
      subst hout
      exact ⟨trivial, hinv, hX, fun _ => ⟨hfull, hO⟩, fun h => absurd h (by decide),
        fun h => absurd h (by decide)⟩
    · rw [Bool.not_eq_true] at hfull
      cases hin : get_user_move game.grid inputs with
      | none =>
        rw [play_loop_no_move n k game inputs hfull hin] at hout
        subst hout
        exact ⟨trivial, hinv, hX, fun h => absurd h (by decide),
          fun h => absurd h (by decide), fun _ => ⟨hfull, hO, hin⟩⟩
      | some t =>
        obtain ⟨col, row, rest⟩ := t
        have he := get_user_move_empty game.grid inputs col row rest hin
        obtain ⟨hw1, hinv1, _, hscore1⟩ := x_move_safe game col row (hscore hfull) hinv he
        have hO1 : has_player_won (make_move game.grid col row 'X') 'O' = false := by
          rw [has_player_won_eq_has_line] at hO ⊢
          exact has_line_make_move_other game.grid col row 'X' 'O' (by decide) hO
        by_cases hf1 : is_grid_full (make_move game.grid col row 'X') = true
        · rw [play_loop_last_cell n k game inputs rest col row hfull hin hw1 hf1] at hout
          subst hout
          have h := ih ⟨make_move game.grid col row 'X'⟩ rest
            (fun h => absurd hf1 (by simp [h])) hw1 hO1 hinv1 _ rfl
          simp only [reads_input, final_board, inputs_left, hin, Option.getD_none]
          exact ⟨⟨trivial, h.1⟩, h.2⟩
        · rw [Bool.not_eq_true] at hf1
          obtain ⟨r, c, v, _, hdbm, hw2, hinv2, _, hscore2⟩ :=
            o_reply_safe (make_move game.grid col row 'X') n hn (hscore1 hf1) hinv1 hw1
          rw [play_loop_reply n k game inputs rest col row _ hfull hin hw1 hf1 hdbm] at hout
          by_cases hwo : has_player_won (make_move (make_move game.grid col row 'X') c r 'O')
              'O' = true
          · rw [if_pos hwo] at hout
            subst hout
            simp only [reads_input, final_board, inputs_left, hin, Option.getD_some]
            exact ⟨⟨trivial, trivial⟩, hinv2, hw2, fun h => absurd h (by decide), fun _ => hwo,
              fun h => absurd h (by decide)⟩
          · rw [if_neg hwo] at hout
            subst hout
            rw [Bool.not_eq_true] at hwo
            have h := ih ⟨make_move (make_move game.grid col row 'X') c r 'O'⟩ rest
              (fun h => hscore2 hwo h) hw2 hwo hinv2 _ rfl
            simp only [reads_input, final_board, inputs_left, hin, Option.getD_some]
            exact ⟨⟨trivial, h.1⟩, h.2⟩

/-- A pass of the loop on a compact board: X is typed at `qx`, and
`determine_best_move` answers at `qo` without completing a line. -/
theorem play_loop_pass (n k : Nat) (b : FB) (qx qo : Pos) (inputs rest : List (Int × Int))
    (hin : get_user_move b.toGrid inputs = some (qx.col, qx.row, rest))
    (hfull : b.full = false)
    (hw : (b.set qx Mark.X).wonX = false) (hf : (b.set qx Mark.X).full = false)
    (hdbm : determine_best_move n (b.set qx Mark.X).toGame 'O' =
      some (((b.set qx Mark.X).set qo Mark.O).toGame, 0))
    (hwo : ((b.set qx Mark.X).set qo Mark.O).wonO = false) :
    play_loop n (k + 1) b.toGame inputs =
      (⟨(b.set qx Mark.X).toGrid, some ((b.set qx Mark.X).set qo Mark.O).toGrid⟩ ::
          (play_loop n k ((b.set qx Mark.X).set qo Mark.O).toGame rest).1,
        (play_loop n k ((b.set qx Mark.X).set qo Mark.O).toGame rest).2) := by
  have hb : make_move b.toGame.grid qx.col qx.row 'X' = (b.set qx Mark.X).toGrid :=
    FB.toGrid_set b qx Mark.X
  have h := play_loop_reply n k b.toGame inputs rest qx.col qx.row
    (((b.set qx Mark.X).set qo Mark.O).toGame, 0)
    (by rw [← hfull]; exact FB.toGrid_full b) hin
    (by rw [hb, FB.toGrid_wonX]; exact hw) (by rw [hb, FB.toGrid_full]; exact hf)
    (by rw [hb]; exact hdbm)
  rw [h, hb, if_neg]
  · rfl
  · show ¬ has_player_won ((b.set qx Mark.X).set qo Mark.O).toGrid 'O' = true
    rw [FB.toGrid_wonO, hwo]
    decide

/-- A run of `play_game` to the end: when X's moves of the self-play line are
typed, `determine_best_move` answers with O's moves of that line, and after
five passes the game ends with "WE DREW!" on the full board `drawn_board`. -/
theorem play_game_line (n : Nat) (hn : 19 ≤ n) (k : Nat) :
    play_game n (k + 6) line_inputs =
      ([⟨(line_board 1).toGrid, some (line_board 2).toGrid⟩,
        ⟨(line_board 3).toGrid, some (line_board 4).toGrid⟩,
        ⟨(line_board 5).toGrid, some (line_board 6).toGrid⟩,
        ⟨(line_board 7).toGrid, some (line_board 8).toGrid⟩,
        ⟨drawn_board, none⟩], Ending.drew) := by
  have e1 : play_loop n (k + 6) (line_board 0).toGame line_inputs =
      (⟨(line_board 1).toGrid, some (line_board 2).toGrid⟩ ::
          (play_loop n (k + 5) (line_board 2).toGame [(2, 1), (1, 3), (3, 2), (3, 3)]).1,
        (play_loop n (k + 5) (line_board 2).toGame [(2, 1), (1, 3), (3, 2), (3, 3)]).2) :=
    play_loop_pass n (k + 5) (line_board 0) Pos.p0 Pos.p4 line_inputs
      [(2, 1), (1, 3), (3, 2), (3, 3)] (by decide) (by decide) (by decide) (by decide)
      (line_step_2 n hn) (by decide)
  have e2 : play_loop n (k + 5) (line_board 2).toGame [(2, 1), (1, 3), (3, 2), (3, 3)] =
      (⟨(line_board 3).toGrid, some (line_board 4).toGrid⟩ ::
          (play_loop n (k + 4) (line_board 4).toGame [(1, 3), (3, 2), (3, 3)]).1,
        (play_loop n (k + 4) (line_board 4).toGame [(1, 3), (3, 2), (3, 3)]).2) :=
    play_loop_pass n (k + 4) (line_board 2) Pos.p1 Pos.p2 _
      [(1, 3), (3, 2), (3, 3)] (by decide) (by decide) (by decide) (by decide)
      (line_step_4 n hn) (by decide)
  have e3 : play_loop n (k + 4) (line_board 4).toGame [(1, 3), (3, 2), (3, 3)] =
      (⟨(line_board 5).toGrid, some (line_board 6).toGrid⟩ ::
          (play_loop n (k + 3) (line_board 6).toGame [(3, 2), (3, 3)]).1,
        (play_loop n (k + 3) (line_board 6).toGame [(3, 2), (3, 3)]).2) :=
    play_loop_pass n (k + 3) (line_board 4) Pos.p6 Pos.p3 _
      [(3, 2), (3, 3)] (by decide) (by decide) (by decide) (by decide)
      (line_step_6 n hn) (by decide)
  have e4 : play_loop n (k + 3) (line_board 6).toGame [(3, 2), (3, 3)] =
      (⟨(line_board 7).toGrid, some (line_board 8).toGrid⟩ ::
          (play_loop n (k + 2) (line_board 8).toGame [(3, 3)]).1,
        (play_loop n (k + 2) (line_board 8).toGame [(3, 3)]).2) :=
    play_loop_pass n (k + 2) (line_board 6) Pos.p5 Pos.p7 _
      [(3, 3)] (by decide) (by decide) (by decide) (by decide)
      (line_step_8 n hn) (by decide)
  have hb9 : make_move (line_board 8).toGame.grid 2 2 'X' = (line_board 9).toGrid :=
    FB.toGrid_set (line_board 8) Pos.p8 Mark.X
  have e5 : play_loop n (k + 2) (line_board 8).toGame [(3, 3)] =
      (⟨(line_board 9).toGrid, none⟩ :: (play_loop n (k + 1) (line_board 9).toGame []).1,
        (play_loop n (k + 1) (line_board 9).toGame []).2) := by
    rw [play_loop_last_cell n (k + 1) (line_board 8).toGame [(3, 3)] [] 2 2
      (by decide) (by decide)
      (by rw [hb9, FB.toGrid_wonX]; decide) (by rw [hb9, FB.toGrid_full]; decide), hb9]
    rfl
  have e6 : play_loop n (k + 1) (line_board 9).toGame [] = ([], Ending.drew) :=
    play_loop_full n k _ [] (by decide)
  rw [play_game, init_grid_eq, drawn_board_eq]
  show play_loop n (k + 6) (line_board 0).toGame line_inputs = _
  rw [e1, e2, e3, e4, e5, e6]

/-- On the empty board X cannot win by force: the score with X to move is 0. -/
theorem score_init_grid : score ⟨init_grid⟩ 'X' = 0 := by
  have h := line_step_1 19 (le_refl _)
  have hb : (line_board 0).toGame = ⟨init_grid⟩ := by
    rw [init_grid_eq]
    rfl
  rw [hb] at h
  exact (determine_best_move_score ⟨init_grid⟩ 'X' (by decide) 19 (le_refl _) _ h).symm

/-- C18: in every game that follows the `play_game` loop from the `init_grid`
board (X plays any empty cell the input names, then, if X has not won and the
board is not full, O's reply is produced by `determine_best_move (board,
'O')`), for every input sequence no board reached has a line of X, and the
game never ends with "X WINS!". -/
theorem computer_never_loses (n : Nat) (hn : 19 ≤ n) (k : Nat)
    (inputs : List (Int × Int)) :
    has_player_won init_grid 'X' = false ∧
    (∀ rd ∈ (play_game n k inputs).1,
      has_player_won rd.after_x 'X' = false ∧
      ∀ g2, rd.reply = some g2 → has_player_won g2 'X' = false) ∧
    (play_game n k inputs).2 ≠ Ending.x_wins := by
  obtain ⟨h1, h2, _, _, _⟩ := play_loop_spec n hn k ⟨init_grid⟩ inputs
    (fun _ => by rw [score_init_grid]) (by decide) (by rw [occupied_init_grid]; rfl)
  exact ⟨by decide, fun rd hrd => ⟨(h1 rd hrd).1, (h1 rd hrd).2.1⟩, h2⟩

/-- Witness of C18: fuel 19, a budget of 6 passes, and the input 2 2 (the
centre), 1 1, 1 1 (rejected: occupied), 3 3. -/
theorem computer_never_loses_witness :
    19 ≤ 19 ∧
    (has_player_won init_grid 'X' = false ∧
    (∀ rd ∈ (play_game 19 6 [(2, 2), (1, 1), (1, 1), (3, 3)]).1,
      has_player_won rd.after_x 'X' = false ∧
      ∀ g2, rd.reply = some g2 → has_player_won g2 'X' = false) ∧
    (play_game 19 6 [(2, 2), (1, 1), (1, 1), (3, 3)]).2 ≠ Ending.x_wins) :=
  ⟨le_refl _, computer_never_loses 19 (le_refl _) 6 [(2, 2), (1, 1), (1, 1), (3, 3)]⟩

/-- C19: on every board at which the `play_game` loop, started on the
`init_grid` board, calls `determine_best_move (board, 'O')` (X has just moved,
X has not won, the board is not full), the call places exactly one O on a
cell that was empty. So the passes take X's moves from the input and
alternate X and O on empty cells; there are at most 5 passes, and the board
they end on holds as many marks as its counter says, at most 9. The loop is
left only on a full board, which then has no empty cell and no line ("WE
DREW!"), or on a line of O ("O WINS!"); a run that has come to neither is
inside `get_user_move`, on a board that is not full and has no line, with no
acceptable pair in the input that is left. With a budget of 6 passes these
are the only endings. -/
theorem computer_always_replies (n : Nat) (hn : 19 ≤ n) (k : Nat)
    (inputs : List (Int × Int)) :
    (∀ rd ∈ (play_game n k inputs).1,
      has_player_won rd.after_x 'X' = false → is_grid_full rd.after_x = false →
      ∃ r c : Fin 3, ∃ v : Int, is_cell_empty rd.after_x c r = true ∧
        determine_best_move n ⟨rd.after_x⟩ 'O' =
          some (⟨make_move rd.after_x c r 'O'⟩, v) ∧
        rd.reply = some (make_move rd.after_x c r 'O')) ∧
    reads_input init_grid inputs (play_game n k inputs).1 ∧
    alternating init_grid (play_game n k inputs).1 ∧
    (play_game n k inputs).1.length ≤ 5 ∧
    (final_board init_grid (play_game n k inputs).1).total_moves =
      occupied (final_board init_grid (play_game n k inputs).1) ∧
    (final_board init_grid (play_game n k inputs).1).total_moves ≤ 9 ∧
    ((play_game n k inputs).2 = Ending.drew →
      is_grid_full (final_board init_grid (play_game n k inputs).1) = true ∧
      (∀ r c : Fin 3,
        is_cell_empty (final_board init_grid (play_game n k inputs).1) c r = false) ∧
      has_player_won (final_board init_grid (play_game n k inputs).1) 'X' = false ∧
      has_player_won (final_board init_grid (play_game n k inputs).1) 'O' = false) ∧
    ((play_game n k inputs).2 = Ending.o_wins →
      has_player_won (final_board init_grid (play_game n k inputs).1) 'O' = true) ∧
    ((play_game n k inputs).2 = Ending.awaiting_input →
      is_grid_full (final_board init_grid (play_game n k inputs).1) = false ∧
      has_player_won (final_board init_grid (play_game n k inputs).1) 'X' = false ∧
      has_player_won (final_board init_grid (play_game n k inputs).1) 'O' = false ∧
      get_user_move (final_board init_grid (play_game n k inputs).1)
        (inputs_left init_grid inputs (play_game n k inputs).1) = none) ∧
    (6 ≤ k → (play_game n k inputs).2 = Ending.drew ∨
      (play_game n k inputs).2 = Ending.o_wins ∨
      (play_game n k inputs).2 = Ending.awaiting_input) := by
  obtain ⟨h1, h2, h3, h4, h5⟩ := play_loop_spec n hn k ⟨init_grid⟩ inputs
    (fun _ => by rw [score_init_grid]) (by decide) (by rw [occupied_init_grid]; rfl)
  obtain ⟨e1, e2, e3, e4, e5, e6⟩ := play_loop_ending n hn k ⟨init_grid⟩ inputs
    (fun _ => by rw [score_init_grid]) (by decide) (by decide)
    (by rw [occupied_init_grid]; rfl) _ rfl
  have hsum := empties_add_occupied (final_board init_grid (play_game n k inputs).1)
  refine ⟨fun rd hrd _ hf => (h1 rd hrd).2.2 hf, e1, h3, ?_, e2, ?_, fun hd => ?_, e5,
    fun ha => ⟨(e6 ha).1, e3, (e6 ha).2⟩, fun hk => ?_⟩
  · simp only [play_game]
    omega
  · simp only [play_game] at e2 hsum ⊢
    omega
  · obtain ⟨hfull, hO⟩ := e4 hd
    refine ⟨hfull, ?_, e3, hO⟩
    rw [← empties_eq_zero_iff]
    have h9 : (final_board init_grid (play_game n k inputs).1).total_moves ≥ 9 := by
      simpa [is_grid_full] using hfull
    simp only [play_game] at e2 hsum h9 ⊢
    omega
  · have h5' := h5 (by omega)
    cases hv : (play_game n k inputs).2 with
    | x_wins => exact absurd hv h2
    | o_wins => exact Or.inr (Or.inl rfl)
    | drew => exact Or.inl rfl
    | awaiting_input => exact Or.inr (Or.inr rfl)
    | unfinished => exact absurd hv h5'

/-- Witness of C19: fuel 19, a budget of 6 passes, and the input that types X's
moves of the self-play line, on which the game runs to a draw. -/
theorem computer_always_replies_witness :
    19 ≤ 19 ∧
    ((∀ rd ∈ (play_game 19 6 line_inputs).1,
      has_player_won rd.after_x 'X' = false → is_grid_full rd.after_x = false →
      ∃ r c : Fin 3, ∃ v : Int, is_cell_empty rd.after_x c r = true ∧
        determine_best_move 19 ⟨rd.after_x⟩ 'O' =
          some (⟨make_move rd.after_x c r 'O'⟩, v) ∧
        rd.reply = some (make_move rd.after_x c r 'O')) ∧
    reads_input init_grid line_inputs (play_game 19 6 line_inputs).1 ∧
    alternating init_grid (play_game 19 6 line_inputs).1 ∧
    (play_game 19 6 line_inputs).1.length ≤ 5 ∧
    (final_board init_grid (play_game 19 6 line_inputs).1).total_moves =
      occupied (final_board init_grid (play_game 19 6 line_inputs).1) ∧
    (final_board init_grid (play_game 19 6 line_inputs).1).total_moves ≤ 9 ∧
    ((play_game 19 6 line_inputs).2 = Ending.drew →
      is_grid_full (final_board init_grid (play_game 19 6 line_inputs).1) = true ∧
      (∀ r c : Fin 3,
        is_cell_empty (final_board init_grid (play_game 19 6 line_inputs).1) c r = false) ∧
      has_player_won (final_board init_grid (play_game 19 6 line_inputs).1) 'X' = false ∧
      has_player_won (final_board init_grid (play_game 19 6 line_inputs).1) 'O' = false) ∧
    ((play_game 19 6 line_inputs).2 = Ending.o_wins →
      has_player_won (final_board init_grid (play_game 19 6 line_inputs).1) 'O' = true) ∧
    ((play_game 19 6 line_inputs).2 = Ending.awaiting_input →
      is_grid_full (final_board init_grid (play_game 19 6 line_inputs).1) = false ∧
      has_player_won (final_board init_grid (play_game 19 6 line_inputs).1) 'X' = false ∧
      has_player_won (final_board init_grid (play_game 19 6 line_inputs).1) 'O' = false ∧
      get_user_move (final_board init_grid (play_game 19 6 line_inputs).1)
        (inputs_left init_grid line_inputs (play_game 19 6 line_inputs).1) = none) ∧
    (6 ≤ 6 → (play_game 19 6 line_inputs).2 = Ending.drew ∨
      (play_game 19 6 line_inputs).2 = Ending.o_wins ∨
      (play_game 19 6 line_inputs).2 = Ending.awaiting_input)) :=
  ⟨le_refl _, computer_always_replies 19 (le_refl _) 6 line_inputs⟩

end NoughtsCrosses
